import Mathlib

/-!
# AnbUI screen-state layer (ad_state.c) and text primitives (ad_text.c)

A shallow embedding of the intermediate rendering layer of AnbUI: the shadow
buffer of the character grid, the cursor, the active colour and the single
backup snapshot, together with the operations of `ad_state.c` that mutate them,
and of the text elements and string painting helpers of `ad_text.c` built on them.

Conventions of the embedding

* The file-scope `static ad_ScreenState state` becomes an explicit value that
  every operation takes and returns.
* The heap blocks `state.data` and `state.data_backup` are two distinct
  allocations; each is modelled as a map from a cell offset (relative to the
  start of the block) to a cell.  Offsets at or beyond `width * height` stand for
  memory behind the block, so that an out-of-bounds store is observable.
* Pointers into `state.data` (`dataLimit`, the local `drawPtr`) are cell offsets.
* `uint16_t` / `uint8_t` / 4-bit bit-field values are natural numbers, reduced
  modulo `2^16`, `2^8`, `2^4` wherever the C code stores into such an object.
* The index expressions `state.y * state.width + state.x` and
  `state.width * state.height` are evaluated by C in `int`; the model takes their
  mathematical value, which is what C computes whenever the value fits an `int`
  of 32 bits (always the case for a width below 32768).  The theorems on writes
  at an arbitrary cursor (cells written, dropped writes, cursor behind the limit)
  carry the bound `INT_MAX` on both expressions as hypotheses.
* A `char` argument is the integer value of the character, negative for the
  upper half of the code page where `char` is signed.
* `assert` aborts the program: an operation that can hit the assertion returns
  `Except.error` carrying the state at the moment of the abort.
* The calls forwarded to the platform driver (`hal_*`) are appended to the
  trace `hal`.  The debugging dump that `ad_screenSaveState` writes to
  `state.bin` is a side channel outside the state and is not modelled.
-/

namespace AnbUI

/-- Colour of a cell, `ad_Color`: two 4-bit bit-fields. -/
structure ad_Color where
  fg : Nat
  bg : Nat
deriving DecidableEq, Repr

/-- One cell of the grid, `ad_Char`: a colour and a glyph (`uint8_t ascii`). -/
structure ad_Char where
  color : ad_Color
  ascii : Nat
deriving DecidableEq, Repr

/-- A call issued to the platform output driver. -/
inductive hal_Call where
  | setColor (bg fg : Nat)
  | setCursorPosition (x y : Nat)
  | putChar (c : Int) (count : Nat)
  | flush
deriving DecidableEq, Repr

/-- Size in bytes of one `ad_Char` (one byte of colour bit-fields, one glyph byte). -/
def sizeof_ad_Char : Nat := 2

/-- The `ad_ScreenState` singleton.  `hal` is not a field of the C struct: it is
the trace of the driver calls made so far, oldest first. -/
structure ad_ScreenState where
  color : ad_Color
  width : Nat
  height : Nat
  x : Nat
  y : Nat
  totalChars : Nat
  bufSize : Nat
  data : Nat → ad_Char
  dataLimit : Nat
  data_backup : Nat → ad_Char
  x_backup : Nat
  y_backup : Nat
  color_backup : ad_Color
  hal : List hal_Call

/-- What `ad_initConsole` establishes and no later operation changes, plus the
ranges of the C types of the live scalar fields: `bufSize` is the byte size of
`width * height` cells, `dataLimit` points one past the last cell, the geometry
and the cursor are `uint16_t`, the active colour is 4-bit. -/
def WF (s : ad_ScreenState) : Prop :=
  s.bufSize = s.width * s.height * sizeof_ad_Char ∧
  s.dataLimit = s.width * s.height ∧
  s.width < 65536 ∧ s.height < 65536 ∧
  s.x < 65536 ∧ s.y < 65536 ∧
  s.color.fg < 16 ∧ s.color.bg < 16

/-- The effect of `memcpy (dst, src, cells * sizeof (ad_Char))` on the block `dst`. -/
def memcpy (dst src : Nat → ad_Char) (cells : Nat) : Nat → ad_Char :=
  fun i => if i < cells then src i else dst i

/-- Store one cell through a pointer with offset `p`. -/
def store (mem : Nat → ad_Char) (p : Nat) (c : ad_Char) : Nat → ad_Char :=
  fun i => if i = p then c else mem i

/-- The function `ad_screenSaveState`. -/
def ad_screenSaveState (s : ad_ScreenState) : ad_ScreenState :=
  { s with
    data_backup := memcpy s.data_backup s.data (s.bufSize / sizeof_ad_Char)
    x_backup := s.x
    y_backup := s.y
    color_backup := s.color }

/-- The function `ad_setColor (uint8_t bg, uint8_t fg)`: the driver receives the
8-bit arguments, the state keeps their low four bits. -/
def ad_setColor (s : ad_ScreenState) (bg fg : Nat) : ad_ScreenState :=
  { s with
    hal := s.hal ++ [hal_Call.setColor (bg % 256) (fg % 256)]
    color := { bg := bg % 16, fg := fg % 16 } }

/-- The function `ad_setCursorPosition (uint16_t x, uint16_t y)`. -/
def ad_setCursorPosition (s : ad_ScreenState) (x y : Nat) : ad_ScreenState :=
  { s with
    hal := s.hal ++ [hal_Call.setCursorPosition (x % 65536) (y % 65536)]
    x := x % 65536
    y := y % 65536 }

/-- The driver calls of the replay loop of `ad_screenLoadState`, for the cells
`0 .. totalChars - 1` in order.  The glyph byte is passed on as a `char`; for
the bytes below 128, the only ones `ad_putChar` stores where `char` is signed,
that is the same value. -/
def replay (data : Nat → ad_Char) (totalChars : Nat) : List hal_Call :=
  (List.range totalChars).flatMap fun i =>
    [hal_Call.setColor (data i).color.bg (data i).color.fg,
     hal_Call.putChar (data i).ascii 1]

/-- The function `ad_screenLoadState`. -/
def ad_screenLoadState (s : ad_ScreenState) : ad_ScreenState :=
  let totalChars := s.width * s.height
  let s1 := { s with data := memcpy s.data s.data_backup (s.bufSize / sizeof_ad_Char) }
  let s2 := { s1 with hal := s1.hal ++ [hal_Call.setCursorPosition 0 0] }
  let s3 := { s2 with hal := s2.hal ++ replay s2.data totalChars }
  let s4 := ad_setColor s3 s3.color_backup.bg s3.color_backup.fg
  ad_setCursorPosition s4 s4.x_backup s4.y_backup

/-- The macro `ad_drawPtr ()`: the offset `y * width + x` of the cursor cell.  The
C expression is evaluated in `int`; the model takes its mathematical value, which
is the index C computes as long as it does not exceed `INT_MAX`. -/
def ad_drawPtr (s : ad_ScreenState) : Nat :=
  s.y * s.width + s.x

/-- The constant `INT_MAX` of a 32-bit `int`, the type in which C evaluates the
index expressions `state.y * state.width + state.x` and
`state.width * state.height` (their `uint16_t` operands are promoted to `int`).
Beyond it the C expression overflows and the offsets of the model are no longer
the indices of the program. -/
def INT_MAX : Nat := 2147483647

/-- The macro `ad_cr ()`. -/
def ad_cr (s : ad_ScreenState) : ad_ScreenState :=
  { s with x := 0 }

/-- The macro `ad_lf ()`. -/
def ad_lf (s : ad_ScreenState) : ad_ScreenState :=
  let s1 := ad_cr s
  { s1 with y := (s1.y + 1) % 65536 }

/-- The macro `ad_advanceCursor ()`: `state.x++; if (state.x > state.width) ad_lf ();`. -/
def ad_advanceCursor (s : ad_ScreenState) : ad_ScreenState :=
  let s1 := { s with x := (s.x + 1) % 65536 }
  if s1.x > s1.width then ad_lf s1 else s1

/-- The `while (count-- && drawPtr < state.dataLimit)` loop of `ad_putChar`, with
the remaining `count` and the local `drawPtr` as arguments. -/
def ad_putChar_loop (c : Int) : Nat → Nat → ad_ScreenState →
    Except ad_ScreenState ad_ScreenState
  | 0, _, s => Except.ok s
  | count + 1, drawPtr, s =>
    if drawPtr < s.dataLimit then
      if c < 32 then Except.error s
      else
        let s1 := { s with
          data := store s.data drawPtr { color := s.color, ascii := (c % 256).toNat } }
        ad_putChar_loop c count (drawPtr + 1) (ad_advanceCursor s1)
    else Except.ok s

/-- The function `ad_putChar (char c, size_t count)`. -/
def ad_putChar (s : ad_ScreenState) (c : Int) (count : Nat) :
    Except ad_ScreenState ad_ScreenState :=
  let drawPtr := ad_drawPtr s
  let s1 := { s with hal := s.hal ++ [hal_Call.putChar c count] }
  ad_putChar_loop c count drawPtr s1

/-- The function `ad_putString`: the argument is the list of the characters of
the C string before its terminator. -/
def ad_putString : ad_ScreenState → List Int → Except ad_ScreenState ad_ScreenState
  | s, [] => Except.ok s
  | s, c :: str =>
    match ad_putChar s c 1 with
    | Except.ok s1 => ad_putString s1 str
    | Except.error e => Except.error e

/-- One call of the write interface of the layer. -/
inductive ad_Write where
  | setColor (bg fg : Nat)
  | setCursorPosition (x y : Nat)
  | putChar (c : Int) (count : Nat)
  | putString (str : List Int)

/-- Perform one write call. -/
def ad_Write.run (s : ad_ScreenState) : ad_Write → Except ad_ScreenState ad_ScreenState
  | ad_Write.setColor bg fg => Except.ok (ad_setColor s bg fg)
  | ad_Write.setCursorPosition x y => Except.ok (ad_setCursorPosition s x y)
  | ad_Write.putChar c count => ad_putChar s c count
  | ad_Write.putString str => ad_putString s str

/-- Perform a sequence of write calls in order, stopping at a failed assertion. -/
def runWrites : ad_ScreenState → List ad_Write → Except ad_ScreenState ad_ScreenState
  | s, [] => Except.ok s
  | s, w :: ws =>
    match ad_Write.run s w with
    | Except.ok s1 => runWrites s1 ws
    | Except.error e => Except.error e

/-- All glyphs of a write call satisfy the assertion `c >= ' '` of `ad_putChar`. -/
def ad_Write.printable : ad_Write → Prop
  | ad_Write.putChar c _ => 32 ≤ c
  | ad_Write.putString str => ∀ c ∈ str, (32 : Int) ≤ c
  | _ => True

/-- An empty 2 x 2 screen as `ad_initConsole` leaves it: everything zero. -/
def screen2x2 : ad_ScreenState :=
  { color := { fg := 0, bg := 0 }
    width := 2
    height := 2
    x := 0
    y := 0
    totalChars := 0
    bufSize := 8
    data := fun _ => { color := { fg := 0, bg := 0 }, ascii := 0 }
    dataLimit := 4
    data_backup := fun _ => { color := { fg := 0, bg := 0 }, ascii := 0 }
    x_backup := 0
    y_backup := 0
    color_backup := { fg := 0, bg := 0 }
    hal := [] }

/-- A 3 x 2 screen in use: dots in blue on grey everywhere, the cursor at column
1 of row 0, an older snapshot of an empty screen in the backup slot. -/
def screen3x2 : ad_ScreenState :=
  { color := { fg := 1, bg := 7 }
    width := 3
    height := 2
    x := 1
    y := 0
    totalChars := 0
    bufSize := 12
    data := fun _ => { color := { fg := 1, bg := 7 }, ascii := 46 }
    dataLimit := 6
    data_backup := fun _ => { color := { fg := 0, bg := 0 }, ascii := 0 }
    x_backup := 0
    y_backup := 0
    color_backup := { fg := 0, bg := 0 }
    hal := [] }

/-- The state in which an operation ended, whether it returned or aborted. -/
def finalState : Except ad_ScreenState ad_ScreenState → ad_ScreenState
  | Except.ok s => s
  | Except.error s => s

/-- The cell that `ad_putChar` stores for the glyph `c` in the state `s`. -/
def glyphCell (s : ad_ScreenState) (c : Int) : ad_Char :=
  { color := s.color, ascii := (c % 256).toNat }

/-- The block `mem` with the `k` cells from offset `p` on replaced by `cell`. -/
def fillCells (mem : Nat → ad_Char) (p k : Nat) (cell : ad_Char) : Nat → ad_Char :=
  fun i => if p ≤ i ∧ i < p + k then cell else mem i

/-- The state `t` has the geometry and the snapshot of the state `s`. -/
structure Frame (s t : ad_ScreenState) : Prop where
  width : t.width = s.width
  height : t.height = s.height
  bufSize : t.bufSize = s.bufSize
  dataLimit : t.dataLimit = s.dataLimit
  data_backup : t.data_backup = s.data_backup
  x_backup : t.x_backup = s.x_backup
  y_backup : t.y_backup = s.y_backup
  color_backup : t.color_backup = s.color_backup

/-- The C types of the snapshot scalars: the backup cursor is `uint16_t`, the
backup colour is 4-bit. -/
def WFbackup (s : ad_ScreenState) : Prop :=
  s.x_backup < 65536 ∧ s.y_backup < 65536 ∧
  s.color_backup.fg < 16 ∧ s.color_backup.bg < 16

/-- The function `ad_initConsole`.  `width` and `height` are the geometry that
`hal_initConsole` reports through `cfg`; `dataAllocated` and `backupAllocated`
tell whether the first and the second `calloc` returned a block (a non-null
pointer).  The result is the state after the call and the returned flag.  The
driver trace starts empty. -/
def ad_initConsole (width height : Nat) (dataAllocated backupAllocated : Bool) :
    ad_ScreenState × Bool :=
  let s : ad_ScreenState :=
    { color := { fg := 0, bg := 0 }
      width := width % 65536
      height := height % 65536
      x := 0
      y := 0
      totalChars := 0
      bufSize := (width % 65536) * (height % 65536) * sizeof_ad_Char
      data := fun _ => { color := { fg := 0, bg := 0 }, ascii := 0 }
      dataLimit := (width % 65536) * (height % 65536)
      data_backup := fun _ => { color := { fg := 0, bg := 0 }, ascii := 0 }
      x_backup := 0
      y_backup := 0
      color_backup := { fg := 0, bg := 0 }
      hal := [] }
  (s, decide (s.bufSize ≠ 0) && dataAllocated && !backupAllocated)

/-- The glyphs of the first `n` cells of the live buffer. -/
def glyphs (s : ad_ScreenState) (n : Nat) : List Nat :=
  (List.range n).map fun i => (s.data i).ascii

/-! ### Text elements (ad_text.c)

`ad_priv.h`, which declares `ad_TextElement`, `AD_TEXT_ELEMENT_SIZE`, `AD_MIN`,
`AD_RETURN_ON_NULL` and `ad_flush`, is not among the sources.  The capacity
`AD_TEXT_ELEMENT_SIZE` is the parameter `SIZE` of the definitions below.  A
`char` array is a map from a byte offset to a character; offsets at or beyond
`SIZE` stand for the memory behind the array. -/

/-- A text element: the array `char text[AD_TEXT_ELEMENT_SIZE]`. -/
structure ad_TextElement where
  text : Nat → Int

/-- The memory at a `const char *` that points to the characters `str` (none of
them zero), their terminator, and behind it the bytes `rest`. -/
def cmem (str : List Int) (rest : Nat → Int) : Nat → Int :=
  fun i =>
    if i < str.length then str.getD i 0
    else if i = str.length then 0
    else rest (i - str.length - 1)

/-- The characters found by scanning at most `n` bytes of `buf` from offset `i` on
up to the first zero byte. -/
def scan (buf : Nat → Int) : Nat → Nat → List Int
  | 0, _ => []
  | n + 1, i => if buf i = 0 then [] else buf i :: scan buf n (i + 1)

/-- The C string that a text element holds: its characters up to the terminator,
looked for inside the `SIZE` bytes of the array. -/
def ad_TextElement.str (SIZE : Nat) (el : ad_TextElement) : List Int :=
  scan el.text SIZE 0

/-- The value of `strlen (el.text)` for an element that is terminated inside its
array. -/
def ad_TextElement.strlen (SIZE : Nat) (el : ad_TextElement) : Nat :=
  (el.str SIZE).length

/-- The effect of `memcpy (dst, src, n)` on the character array `dst`. -/
def memcpy_text (dst src : Nat → Int) (n : Nat) : Nat → Int :=
  fun i => if i < n then src i else dst i

/-- The assignment `buf[p] = c`. -/
def store_text (buf : Nat → Int) (p : Nat) (c : Int) : Nat → Int :=
  fun i => if i = p then c else buf i

/-- Modelled from the spec: the macro `AD_MIN` of `ad_priv.h`, which is not among
the sources; the smaller of its two arguments, used to clamp a length to the
capacity ("truncating to the maximum length"). -/
def AD_MIN (a b : Nat) : Nat :=
  if a < b then a else b

/-- The function `ad_textElementAssignWithLength`; `text` is the memory at the
source pointer. -/
def ad_textElementAssignWithLength (SIZE : Nat) (el : ad_TextElement) (text : Nat → Int)
    (length : Nat) : ad_TextElement :=
  let length1 := AD_MIN (SIZE - 1) length
  let el1 : ad_TextElement := { text := memcpy_text el.text text length1 }
  { text := store_text el1.text length1 0 }

/-- The function `ad_textElementAssign`; `text` is the memory at the source
pointer, of which `SIZE - 1` bytes are read whatever the length of the string. -/
def ad_textElementAssign (SIZE : Nat) (el : ad_TextElement) (text : Nat → Int) :
    ad_TextElement :=
  let el1 : ad_TextElement := { text := memcpy_text el.text text (SIZE - 1) }
  { text := store_text el1.text (SIZE - 1) 0 }

/-- A heap block that holds an array of `count` text elements; `elems` maps an
index to the element there (indices from `count` on: memory behind the block). -/
structure TextBlock where
  count : Nat
  elems : Nat → ad_TextElement

/-- The block that a successful `realloc (ptr, newCount * sizeof (ad_TextElement))`
returns: the elements that fit are kept, the others are whatever the allocator
hands out (`fresh`). -/
def realloc (ptr : TextBlock) (newCount : Nat) (fresh : Nat → ad_TextElement) : TextBlock :=
  { count := newCount
    elems := fun i => if i < ptr.count ∧ i < newCount then ptr.elems i else fresh i }

/-- The function `ad_textElementArrayResize`; `allocated` tells whether `realloc`
returned a block, `none` is the null pointer. -/
def ad_textElementArrayResize (ptr : TextBlock) (newCount : Nat) (allocated : Bool)
    (fresh : Nat → ad_TextElement) : Option TextBlock :=
  if allocated then
    let ptr1 := realloc ptr newCount fresh
    some { ptr1 with
      elems := fun i =>
        if i = newCount - 1 then { text := store_text (ptr1.elems i).text 0 0 }
        else ptr1.elems i }
  else none

/-- The function `ad_textElementArrayGetLongestLength`; `none` is the null
pointer, for which `AD_RETURN_ON_NULL (elements, 0)` returns 0. -/
def ad_textElementArrayGetLongestLength (SIZE : Nat) (items : Nat)
    (elements : Option (Nat → ad_TextElement)) : Nat :=
  match elements with
  | none => 0
  | some els =>
    (List.range items).foldl
      (fun max curItem =>
        let curLen := (els curItem).strlen SIZE
        if curLen > max then curLen else max)
      0

/-- The text element that holds the string `str` and zero bytes behind it. -/
def textElementOf (str : List Int) : ad_TextElement :=
  { text := cmem str (fun _ => 0) }

/-- The function `strchr (s, c)` for a character `c` other than the terminator:
the offset of the first `c` in the string, `none` (the null pointer) if there is
none. -/
def strchr : List Int → Int → Option Nat
  | [], _ => none
  | a :: s, c => if a = c then some 0 else (strchr s c).map (fun k => k + 1)

/-- Replace the element with index `k` of a block by `f` of it. -/
def TextBlock.update (b : TextBlock) (k : Nat) (f : ad_TextElement → ad_TextElement) :
    TextBlock :=
  { b with elems := fun i => if i = k then f (b.elems i) else b.elems i }

/-- The `while (curPos < upperBound)` loop of `ad_textElementArrayFromString`.
`curPos` is an offset into `str`, whose memory is `cmem str rest`; `allocated n`
tells whether the `realloc` to `n` elements succeeds.  Every round moves
`curPos` forward, so `strlen (str)` rounds are enough: the first argument counts
the rounds that are left. -/
def ad_textElementArrayFromString_loop (SIZE : Nat) (str : List Int) (rest : Nat → Int)
    (allocated : Nat → Bool) (fresh : Nat → ad_TextElement) :
    Nat → Nat → TextBlock → Nat → Option (TextBlock × Nat)
  | 0, _, ret, lineCount => some (ret, lineCount)
  | rounds + 1, curPos, ret, lineCount =>
    if curPos < str.length then
      let cur := str.drop curPos
      let curLen :=
        match strchr cur 10 with
        | some k => k
        | none => cur.length
      let lineCount1 := lineCount + 1
      match ad_textElementArrayResize ret lineCount1 (allocated lineCount1) fresh with
      | none => none
      | some ret1 =>
        let ret2 := ret1.update (lineCount1 - 1) fun el =>
          ad_textElementAssignWithLength SIZE el (cmem cur rest) curLen
        let ret3 :=
          if curLen > 0 ∧ cmem cur rest (curLen - 1) = 13 then
            ret2.update (lineCount1 - 1) fun el =>
              { text := store_text el.text (curLen - 1) 0 }
          else ret2
        ad_textElementArrayFromString_loop SIZE str rest allocated fresh rounds
          (curPos + curLen + 1) ret3 lineCount1
    else some (ret, lineCount)

/-- The function `ad_textElementArrayFromString`: the result is the returned
block and the value left in `*lineCountOut`, `none` is the null pointer.  `str`
is `none` for a null argument; `callocated` tells whether the initial `calloc`
succeeds. -/
def ad_textElementArrayFromString (SIZE : Nat) (str : Option (List Int)) (rest : Nat → Int)
    (callocated : Bool) (allocated : Nat → Bool) (fresh : Nat → ad_TextElement) :
    Option (TextBlock × Nat) :=
  match str with
  | none => none
  | some str =>
    if callocated then
      let ret : TextBlock :=
        { count := 1
          elems := fun i => if i = 0 then { text := fun _ => 0 } else fresh i }
      ad_textElementArrayFromString_loop SIZE str rest allocated fresh str.length 0 ret 0
    else none

/-- The strings held by the first `n` elements of a block. -/
def TextBlock.strings (SIZE : Nat) (b : TextBlock) (n : Nat) : List (List Int) :=
  (List.range n).map fun i => (b.elems i).str SIZE

/-- The lines of a text in the words of the specification: the pieces of the
text between `'\n'` characters, where a final `'\n'` ends the last line and does
not start an extra empty one (so the empty text has no line). -/
def specPieces (text : List Int) : List (List Int) :=
  if (text.splitOn 10).getLast? = some [] then (text.splitOn 10).dropLast
  else text.splitOn 10

/-- A line with one trailing `'\r'` removed. -/
def stripCR (line : List Int) : List Int :=
  if line.getLast? = some 13 then line.dropLast else line

/-- The lines of a text in the words of the specification, each with one
trailing carriage return removed. -/
def specLines (text : List Int) : List (List Int) :=
  (specPieces text).map stripCR

/-- The length `curLen` of the line at the start of `cur`, as the loop of
`ad_textElementArrayFromString` computes it. -/
def lineLength (cur : List Int) : Nat :=
  match strchr cur 10 with
  | some k => k
  | none => cur.length

/-! ### Painting strings (ad_text.c) -/

/-- The number of values of `size_t`, taken as 64 bits wide. -/
def size_t_range : Nat := 2 ^ 64

/-- The subtraction `a - b` of two `size_t` values, which wraps around. -/
def size_t_sub (a b : Nat) : Nat :=
  (a + size_t_range - b) % size_t_range

/-- Modelled from the spec: `ad_flush`, declared in `ad_priv.h`, which is not
among the sources; it forwards to the `flush` primitive of the platform driver
and leaves the shadow state alone. -/
def ad_flush (s : ad_ScreenState) : ad_ScreenState :=
  { s with hal := s.hal ++ [hal_Call.flush] }

/-- The loop `while (maxLen--) { ad_putChar (*str++, 1); }` of
`ad_displayStringCropped`: `mem` is the memory at the original `str`, `p` the
offset that `str` has reached. -/
def ad_displayStringCropped_loop (mem : Nat → Int) :
    Nat → Nat → ad_ScreenState → Except ad_ScreenState ad_ScreenState
  | 0, _, s => Except.ok s
  | maxLen + 1, p, s =>
    match ad_putChar s (mem p) 1 with
    | Except.ok s1 => ad_displayStringCropped_loop mem maxLen (p + 1) s1
    | Except.error e => Except.error e

/-- The function `ad_displayStringCropped`; the memory at `str` is
`cmem str rest`. -/
def ad_displayStringCropped (s : ad_ScreenState) (str : List Int) (rest : Nat → Int)
    (x y maxLen bg fg : Nat) : Except ad_ScreenState ad_ScreenState :=
  let strLen := str.length
  let paddingRight := size_t_sub maxLen strLen
  let s1 := ad_setColor s bg fg
  let s2 := ad_setCursorPosition s1 x y
  if strLen > maxLen then
    let maxLen1 := size_t_sub maxLen 3
    match ad_displayStringCropped_loop (cmem str rest) maxLen1 0 s2 with
    | Except.ok s3 => ad_putString s3 [46, 46, 46]
    | Except.error e => Except.error e
  else
    match ad_putString s2 str with
    | Except.ok s3 => ad_putChar s3 32 paddingRight
    | Except.error e => Except.error e

/-- The function `ad_getPadding`. -/
def ad_getPadding (totalLength lengthToPad : Nat) : Nat :=
  size_t_sub totalLength lengthToPad / 2

/-- The function `ad_printCenteredText`; `w` is a `uint16_t` value, the two
paddings are stored in `uint16_t` variables. -/
def ad_printCenteredText (s : ad_ScreenState) (str : List Int) (rest : Nat → Int)
    (x y w colBg colFg : Nat) : Except ad_ScreenState ad_ScreenState :=
  let strLen := str.length
  let painted :=
    if strLen < w then
      let s1 := ad_setCursorPosition s x y
      let s2 := ad_setColor s1 colBg colFg
      let paddingL := ad_getPadding w strLen % 65536
      let paddingR := size_t_sub (size_t_sub w strLen) paddingL % 65536
      match ad_putChar s2 32 paddingL with
      | Except.ok s3 =>
        match ad_putString s3 str with
        | Except.ok s4 => ad_putChar s4 32 paddingR
        | Except.error e => Except.error e
      | Except.error e => Except.error e
    else ad_displayStringCropped s str rest x y w colBg colFg
  match painted with
  | Except.ok s5 => Except.ok (ad_flush s5)
  | Except.error e => Except.error e

/-- The block `mem` with the cells from offset `p` on replaced by the glyphs of
`l` in the colour `color`, one cell per glyph. -/
def writeCells (mem : Nat → ad_Char) (p : Nat) (color : ad_Color) (l : List Int) :
    Nat → ad_Char :=
  fun i =>
    if p ≤ i ∧ i < p + l.length then { color := color, ascii := (l.getD (i - p) 0 % 256).toNat }
    else mem i

/-- What the specification says `displayCropped` paints: the first `maxWidth - 3`
characters followed by `"..."` when the text is longer than `maxWidth`,
otherwise the text padded with spaces on the right to `maxWidth` columns. -/
def croppedText (text : List Int) (maxWidth : Nat) : List Int :=
  if text.length > maxWidth then text.take (maxWidth - 3) ++ [46, 46, 46]
  else text ++ List.replicate (maxWidth - text.length) 32

/-- What the specification says `printCentered` paints for a text shorter than
`w`: `floor ((w - len) / 2)` spaces, the text, and the remaining spaces. -/
def centeredText (text : List Int) (w : Nat) : List Int :=
  List.replicate ((w - text.length) / 2) 32 ++ text ++
    List.replicate (w - text.length - (w - text.length) / 2) 32

/-- An empty 80 x 25 screen as `ad_initConsole` leaves it. -/
def screen80x25 : ad_ScreenState :=
  (ad_initConsole 80 25 true true).1

/-- The state `t` continues the state `s` after the glyphs `l` were painted from
the cursor of `s` on without leaving its row. -/
structure Painted (s t : ad_ScreenState) (l : List Int) : Prop where
  data : t.data = writeCells s.data (ad_drawPtr s) s.color l
  x : t.x = s.x + l.length
  y : t.y = s.y
  color : t.color = s.color
  width : t.width = s.width
  height : t.height = s.height
  dataLimit : t.dataLimit = s.dataLimit

/-- The cursor of `s` is on a row of the grid and `n` more cells fit in that row. -/
def RowOK (s : ad_ScreenState) (n : Nat) : Prop :=
  s.dataLimit = s.width * s.height ∧ s.width < 65536 ∧ s.y < s.height ∧ s.x + n ≤ s.width

/-! ### Widgets (ad_ui.c)

The widgets keep their control state in structures declared in `ad_priv.h`,
which is not among the sources; the fields that the control flow reads are
modelled, the layout fields and the drawing on the screen are left out.
`hal_getKey` blocks until a key arrives: an execute function is run on the list
of the keys that arrive, and `waiting` is its outcome when it has used them up
without returning. -/

/-- Modelled from the spec: the key codes `AD_KEY_*` of `ad_priv.h`, which is not
among the sources; `hal_getKey` returns "a single normalized code from a fixed
key-code enumeration" and passes any other input through as its raw value. -/
inductive ad_Key where
  | AD_KEY_UP
  | AD_KEY_DOWN
  | AD_KEY_LEFT
  | AD_KEY_RIGHT
  | AD_KEY_ENTER
  | AD_KEY_ESC
  | AD_KEY_PGUP
  | AD_KEY_PGDN
  | raw (code : Nat)
deriving DecidableEq, Repr

/-- How a run of an execute function on a list of keys ends. -/
inductive ad_Outcome (σ : Type) where
  | returned (value : Int)
  | nullDeref
  | waiting (state : σ)

/-- The constant `AD_CANCELED` of `anbui.h`. -/
def AD_CANCELED : Int := -1

/-- The constant `AD_ERROR` of `anbui.h`, `-INT32_MAX`. -/
def AD_ERROR : Int := -2147483647

/-- The conversion of a `size_t` value to `int32_t`. -/
def int32_of (n : Nat) : Int :=
  if n % 4294967296 < 2147483648 then (n % 4294967296 : Nat) else (n % 4294967296 : Nat) - 4294967296

/-- The control state of a menu (`ad_Menu`). -/
structure ad_Menu where
  itemCount : Nat
  currentSelection : Nat
  cancelable : Bool
deriving DecidableEq, Repr

/-- The function `ad_menuSelectItemAndDraw`: the two items are redrawn on the
screen and the selection is moved. -/
def ad_menuSelectItemAndDraw (menu : ad_Menu) (newSelection : Nat) : ad_Menu :=
  { menu with currentSelection := newSelection }

/-- The function `ad_menuPaint`, `none` standing for the dereference of a null
pointer: `menu->prompt` is read before `AD_RETURN_ON_NULL (menu, false)`.  For a
menu it lays the window out, draws it and selects item 0. -/
def ad_menuPaint (menu : Option ad_Menu) : Option ad_Menu :=
  match menu with
  | none => none
  | some m => some (ad_menuSelectItemAndDraw m 0)

/-- The `while (true)` loop of `ad_menuExecute` on the keys that arrive. -/
def ad_menuExecute_loop : ad_Menu → List ad_Key → ad_Outcome ad_Menu
  | menu, [] => ad_Outcome.waiting menu
  | menu, ch :: keys =>
    if ch = ad_Key.AD_KEY_UP then
      ad_menuExecute_loop
        (ad_menuSelectItemAndDraw menu
          (if menu.currentSelection > 0 then menu.currentSelection - 1
           else size_t_sub menu.itemCount 1)) keys
    else if ch = ad_Key.AD_KEY_DOWN then
      ad_menuExecute_loop
        (ad_menuSelectItemAndDraw menu ((menu.currentSelection + 1) % menu.itemCount)) keys
    else if ch = ad_Key.AD_KEY_ENTER then
      ad_Outcome.returned (int32_of menu.currentSelection)
    else if menu.cancelable = true ∧ ch = ad_Key.AD_KEY_ESC then
      ad_Outcome.returned AD_CANCELED
    else ad_menuExecute_loop menu keys

/-- The function `ad_menuExecute`; `none` is a null `menu`. -/
def ad_menuExecute (menu : Option ad_Menu) (keys : List ad_Key) : ad_Outcome ad_Menu :=
  match ad_menuPaint menu with
  | none => ad_Outcome.nullDeref
  | some m => ad_menuExecute_loop m keys

/-- The key ends a run of `ad_menuExecute`. -/
def endsMenu (menu : ad_Menu) (ch : ad_Key) : Prop :=
  ch = ad_Key.AD_KEY_ENTER ∨ (menu.cancelable = true ∧ ch = ad_Key.AD_KEY_ESC)

/-- One row of a multi selector (`ad_MultiSelectorItem`): the number of its options
and the index of the selected one. -/
structure ad_MultiSelectorItem where
  optionCount : Nat
  selected : Nat
deriving DecidableEq, Repr

/-- The control state of a multi selector (`ad_MultiSelector`); `itemOptions` maps
an index to the item there. -/
structure ad_MultiSelector where
  itemCount : Nat
  currentSelection : Nat
  cancelable : Bool
  itemOptions : Nat → ad_MultiSelectorItem

/-- The function `ad_multiSelectorAddItem` for a selector and a label that are not
null, when the three resizes succeed (each is followed by an `assert`): the new
item gets `optionCount` options and `defaultOption` as the selected one. -/
def ad_multiSelectorAddItem (obj : ad_MultiSelector) (optionCount defaultOption : Nat) :
    ad_MultiSelector :=
  let itemCount1 := obj.itemCount + 1
  { obj with
    itemCount := itemCount1
    itemOptions := fun i =>
      if i = itemCount1 - 1 then { optionCount := optionCount, selected := defaultOption }
      else obj.itemOptions i }

/-- The function `ad_multiSelectorSelectOptionAndDraw`: the two rows are redrawn on
the screen and the selection is moved. -/
def ad_multiSelectorSelectOptionAndDraw (menu : ad_MultiSelector) (newSelection : Nat) :
    ad_MultiSelector :=
  { menu with currentSelection := newSelection }

/-- The function `ad_multiSelectorPaint`, `none` standing for the dereference of a
null pointer (`menu->prompt` is read before the null check).  For a selector it
lays the window out, draws it and selects item 0. -/
def ad_multiSelectorPaint (menu : Option ad_MultiSelector) : Option ad_MultiSelector :=
  match menu with
  | none => none
  | some m => some (ad_multiSelectorSelectOptionAndDraw m 0)

/-- The assignment `curItem->selected = v` for the highlighted item. -/
def setSelected (menu : ad_MultiSelector) (v : Nat) : ad_MultiSelector :=
  { menu with
    itemOptions := fun i =>
      if i = menu.currentSelection then { menu.itemOptions i with selected := v }
      else menu.itemOptions i }

/-- The `while (true)` loop of `ad_multiSelectorExecute` on the keys that arrive. -/
def ad_multiSelectorExecute_loop :
    ad_MultiSelector → List ad_Key → ad_Outcome ad_MultiSelector
  | menu, [] => ad_Outcome.waiting menu
  | menu, ch :: keys =>
    let curItem := menu.itemOptions menu.currentSelection
    if ch = ad_Key.AD_KEY_UP then
      ad_multiSelectorExecute_loop
        (ad_multiSelectorSelectOptionAndDraw menu
          (if menu.currentSelection > 0 then menu.currentSelection - 1
           else size_t_sub menu.itemCount 1)) keys
    else if ch = ad_Key.AD_KEY_DOWN then
      ad_multiSelectorExecute_loop
        (ad_multiSelectorSelectOptionAndDraw menu
          ((menu.currentSelection + 1) % menu.itemCount)) keys
    else if ch = ad_Key.AD_KEY_RIGHT then
      let menu1 := setSelected menu
        (if curItem.selected = size_t_sub curItem.optionCount 1 then 0
         else curItem.selected + 1)
      ad_multiSelectorExecute_loop
        (ad_multiSelectorSelectOptionAndDraw menu1 menu1.currentSelection) keys
    else if ch = ad_Key.AD_KEY_LEFT then
      let menu1 := setSelected menu
        (if curItem.selected = 0 then size_t_sub curItem.optionCount 1
         else curItem.selected - 1)
      ad_multiSelectorExecute_loop
        (ad_multiSelectorSelectOptionAndDraw menu1 menu1.currentSelection) keys
    else if ch = ad_Key.AD_KEY_ENTER then ad_Outcome.returned 0
    else if menu.cancelable = true ∧ ch = ad_Key.AD_KEY_ESC then
      ad_Outcome.returned AD_CANCELED
    else ad_multiSelectorExecute_loop menu keys

/-- The function `ad_multiSelectorExecute`; `none` is a null `menu`. -/
def ad_multiSelectorExecute (menu : Option ad_MultiSelector) (keys : List ad_Key) :
    ad_Outcome ad_MultiSelector :=
  match ad_multiSelectorPaint menu with
  | none => ad_Outcome.nullDeref
  | some m => ad_multiSelectorExecute_loop m keys

/-- A selector as `ad_multiSelectorCreate` leaves it: no items, zeroed memory. -/
def emptySelector (cancelable : Bool) : ad_MultiSelector :=
  { itemCount := 0
    currentSelection := 0
    cancelable := cancelable
    itemOptions := fun _ => { optionCount := 0, selected := 0 } }

/-- A selector of two items as `ad_multiSelectorCreate` and two calls of
`ad_multiSelectorAddItem` leave it: the first item with two options and option 0
as the default, the second with three options and option 1 as the default. -/
def selectorTwoItems : ad_MultiSelector :=
  ad_multiSelectorAddItem (ad_multiSelectorAddItem (emptySelector true) 2 0) 3 1

/-- The control state of a text file box (`ad_TextFileBox`); `lineCount` is
`lines->lineCount`.  Modelled from the spec: the structure is declared in
`ad_priv.h`, which is not among the sources; its index fields are taken as
signed (`int32_t`), as the clipping against 0 in `ad_textFileBoxMove` ("Clip in
both directions"), the negated page size in `ad_textFileBoxExecute` and the
`(size_t)` cast in `ad_textFileBoxRedrawLines` presuppose. -/
structure ad_TextFileBox where
  linesOnScreen : Int
  currentIndex : Int
  highestIndex : Int
  lineCount : Nat
deriving DecidableEq, Repr

/-- Modelled from the spec: the macro `AD_MAX` of `ad_priv.h`, which is not among
the sources; the larger of its two arguments. -/
def AD_MAX (a b : Int) : Int :=
  if a > b then a else b

/-- Modelled from the spec: the macro `AD_MIN` of `ad_priv.h` applied to signed
values; the smaller of its two arguments. -/
def AD_MIN_signed (a b : Int) : Int :=
  if a < b then a else b

/-- The indices of the lines that `ad_textFileBoxRedrawLines` draws: the
`linesOnScreen` lines from `currentIndex` on. -/
def ad_textFileBoxRedrawLines (tfb : ad_TextFileBox) : List Int :=
  (List.range tfb.linesOnScreen.toNat).map fun (i : Nat) => tfb.currentIndex + (i : Int)

/-- The function `ad_textFileBoxMove`: the state after the move (the redraw is
`ad_textFileBoxRedrawLines` of that state).  The sum is taken without overflow. -/
def ad_textFileBoxMove (tpb : ad_TextFileBox) (positionsToMoveV : Int) : ad_TextFileBox :=
  let t1 := { tpb with currentIndex := tpb.currentIndex + positionsToMoveV }
  let t2 := { t1 with currentIndex := AD_MAX t1.currentIndex 0 }
  { t2 with currentIndex := AD_MIN_signed t2.currentIndex t2.highestIndex }

/-- The bytes that lie behind the terminator of the string of a text element. -/
def ad_TextElement.rest (SIZE : Nat) (el : ad_TextElement) : Nat → Int :=
  fun i => el.text ((el.str SIZE).length + 1 + i)

/-- The `for` loop of `ad_commandBoxRedraw`: `curLine` and `index` as they stand,
the first argument counting the rows that are left.  `bg` and `fg` are the
object colours of the console configuration. -/
def ad_commandBoxRedraw_loop (SIZE : Nat) (lines : Nat → ad_TextElement)
    (lineCount contentWidth x y bg fg : Nat) :
    Nat → Nat → Nat → ad_ScreenState → Except ad_ScreenState ad_ScreenState
  | 0, _, _, s => Except.ok s
  | left + 1, curLine, index, s =>
    match ad_displayStringCropped s ((lines (index % lineCount)).str SIZE)
        ((lines (index % lineCount)).rest SIZE) x (y + curLine) contentWidth bg fg with
    | Except.ok s1 =>
      ad_commandBoxRedraw_loop SIZE lines lineCount contentWidth x y bg fg left
        (curLine + 1) (index + 1) s1
    | Except.error e => Except.error e

/-- The function `ad_commandBoxRedraw`. -/
def ad_commandBoxRedraw (SIZE : Nat) (s : ad_ScreenState) (lines : Nat → ad_TextElement)
    (lineCount contentWidth index x y bg fg : Nat) : Except ad_ScreenState ad_ScreenState :=
  ad_commandBoxRedraw_loop SIZE lines lineCount contentWidth x y bg fg lineCount 0 index s

/-- The read loop of `ad_runCommandBox`.  The first list holds what the successive
`fgets` calls read from the pipe (each at most `SIZE - 1` characters, a line
feed only at the end); when it is used up `fgets` returns null. -/
def ad_runCommandBox_loop (SIZE visibleLines lineWidth outputX outputY bg fg : Nat) :
    List (List Int) → (Nat → ad_TextElement) → Nat → Nat → ad_ScreenState →
      Except ad_ScreenState ad_ScreenState
  | [], _, _, _, s => Except.ok s
  | chunk :: more, lines, lineWriteIndex, lineDisplayIndex, s =>
    let slot := lineWriteIndex % visibleLines
    let el1 : ad_TextElement :=
      { text := memcpy_text (lines slot).text (cmem chunk (fun _ => 0)) (chunk.length + 1) }
    let el2 : ad_TextElement :=
      match strchr chunk 10 with
      | some k => { text := store_text el1.text k 0 }
      | none => el1
    let lines1 : Nat → ad_TextElement := fun i => if i = slot then el2 else lines i
    let lineWriteIndex1 := lineWriteIndex + 1
    let lineDisplayIndex1 := lineDisplayIndex + 1
    match ad_commandBoxRedraw SIZE s lines1 visibleLines lineWidth lineDisplayIndex1
        outputX outputY bg fg with
    | Except.ok s1 =>
      ad_runCommandBox_loop SIZE visibleLines lineWidth outputX outputY bg fg more lines1
        lineWriteIndex1 lineDisplayIndex1 s1
    | Except.error e => Except.error e

/-- The output part of the function `ad_runCommandBox`, from the `calloc` of the
line buffer to the end of the command's output, for a title and a command that
are not null and a successful allocation.  The geometry of the box
(`visibleLines`, `lineWidth`, `outputX`, `outputY`) comes from the `ad_object*`
functions, which are not among the sources. -/
def ad_runCommandBox (SIZE : Nat) (s : ad_ScreenState)
    (visibleLines lineWidth outputX outputY bg fg : Nat) (output : List (List Int)) :
    Except ad_ScreenState ad_ScreenState :=
  ad_runCommandBox_loop SIZE visibleLines lineWidth outputX outputY bg fg output
    (fun _ => { text := fun _ => 0 }) (size_t_sub visibleLines 1) 0 s

/-- An empty screen of one column and three rows as `ad_initConsole` leaves it. -/
def screen1x3 : ad_ScreenState :=
  (ad_initConsole 1 3 true true).1

end AnbUI

namespace AnbUI

/-! ## Auxiliary facts -/

theorem Frame.rfl_ (s : ad_ScreenState) : Frame s s :=
  ⟨rfl, rfl, rfl, rfl, rfl, rfl, rfl, rfl⟩

theorem Frame.trans_ {s t u : ad_ScreenState} (h1 : Frame s t) (h2 : Frame t u) :
    Frame s u :=
  ⟨h2.width.trans h1.width, h2.height.trans h1.height, h2.bufSize.trans h1.bufSize,
   h2.dataLimit.trans h1.dataLimit, h2.data_backup.trans h1.data_backup,
   h2.x_backup.trans h1.x_backup, h2.y_backup.trans h1.y_backup,
   h2.color_backup.trans h1.color_backup⟩

/-- The cursor advance touches the cursor only. -/
theorem ad_advanceCursor_eq (s : ad_ScreenState) :
    ad_advanceCursor s =
      { s with x := (ad_advanceCursor s).x, y := (ad_advanceCursor s).y } := by
  unfold ad_advanceCursor ad_lf ad_cr
  dsimp only
  split <;> rfl

theorem ad_advanceCursor_data (s : ad_ScreenState) (d : Nat → ad_Char) :
    ad_advanceCursor { s with data := d } = { ad_advanceCursor s with data := d } := by
  unfold ad_advanceCursor ad_lf ad_cr
  dsimp only
  split <;> rfl

theorem ad_advanceCursor_x_lt (s : ad_ScreenState) : (ad_advanceCursor s).x < 65536 := by
  unfold ad_advanceCursor ad_lf ad_cr
  dsimp only
  split
  · show (0 : Nat) < 65536
    decide
  · exact Nat.mod_lt _ (by decide)

theorem ad_advanceCursor_y_lt (s : ad_ScreenState) (h : s.y < 65536) :
    (ad_advanceCursor s).y < 65536 := by
  unfold ad_advanceCursor ad_lf ad_cr
  dsimp only
  split
  · exact Nat.mod_lt _ (by decide)
  · exact h

/-- Repeated cursor advances touch the cursor only. -/
theorem iterate_advance_eq (k : Nat) (s : ad_ScreenState) :
    ad_advanceCursor^[k] s =
      { s with x := (ad_advanceCursor^[k] s).x, y := (ad_advanceCursor^[k] s).y } := by
  induction k generalizing s with
  | zero => rfl
  | succ k ih =>
    rw [Function.iterate_succ_apply]
    rw [ih (ad_advanceCursor s)]
    rw [ad_advanceCursor_eq s]

theorem iterate_advance_data (k : Nat) (s : ad_ScreenState) (d : Nat → ad_Char) :
    ad_advanceCursor^[k] { s with data := d } = { ad_advanceCursor^[k] s with data := d } := by
  induction k generalizing s with
  | zero => rfl
  | succ k ih =>
    rw [Function.iterate_succ_apply, Function.iterate_succ_apply, ad_advanceCursor_data, ih]

theorem ad_advanceCursor_color (s : ad_ScreenState) :
    (ad_advanceCursor s).color = s.color := by
  rw [ad_advanceCursor_eq]

theorem ad_advanceCursor_dataLimit (s : ad_ScreenState) :
    (ad_advanceCursor s).dataLimit = s.dataLimit := by
  rw [ad_advanceCursor_eq]

theorem ad_advanceCursor_frame (s : ad_ScreenState) : Frame s (ad_advanceCursor s) := by
  rw [ad_advanceCursor_eq]
  exact ⟨rfl, rfl, rfl, rfl, rfl, rfl, rfl, rfl⟩

theorem fillCells_zero (mem : Nat → ad_Char) (p : Nat) (cell : ad_Char) :
    fillCells mem p 0 cell = mem := by
  funext i
  unfold fillCells
  rw [if_neg]
  omega

theorem fillCells_store (mem : Nat → ad_Char) (p k : Nat) (cell : ad_Char) :
    fillCells (store mem p cell) (p + 1) k cell = fillCells mem p (k + 1) cell := by
  funext i
  unfold fillCells store
  by_cases h1 : p + 1 ≤ i ∧ i < p + 1 + k
  · rw [if_pos h1, if_pos (by omega)]
  · rw [if_neg h1]
    by_cases h2 : i = p
    · rw [if_pos h2, if_pos (by omega)]
    · rw [if_neg h2, if_neg (by omega)]

/-- The loop of `ad_putChar` for a glyph that passes the assertion: it stores
`min count (dataLimit - drawPtr)` cells from `drawPtr` on and advances the
cursor once for each of them. -/
theorem ad_putChar_loop_ok (c : Int) (hc : 32 ≤ c) (count p : Nat) (s : ad_ScreenState) :
    ad_putChar_loop c count p s = Except.ok
      { ad_advanceCursor^[min count (s.dataLimit - p)] s with
        data := fillCells s.data p (min count (s.dataLimit - p)) (glyphCell s c) } := by
  induction count generalizing p s with
  | zero =>
    rw [Nat.zero_min, fillCells_zero]
    rfl
  | succ n ih =>
    unfold ad_putChar_loop
    by_cases h : p < s.dataLimit
    · rw [if_pos h, if_neg (by omega)]
      dsimp only
      rw [ih, ad_advanceCursor_dataLimit]
      have hk : min (n + 1) (s.dataLimit - p) = min n (s.dataLimit - (p + 1)) + 1 := by
        omega
      rw [hk, Function.iterate_succ_apply, ad_advanceCursor_data, iterate_advance_data]
      have hcell : glyphCell
          { ad_advanceCursor s with
            data := store s.data p { color := s.color, ascii := (c % 256).toNat } } c
          = glyphCell s c := by
        unfold glyphCell
        rw [show ({ ad_advanceCursor s with
            data := store s.data p { color := s.color, ascii := (c % 256).toNat } }
              : ad_ScreenState).color = (ad_advanceCursor s).color from rfl,
          ad_advanceCursor_color]
      rw [hcell]
      show Except.ok { ad_advanceCursor^[min n (s.dataLimit - (p + 1))] (ad_advanceCursor s) with
        data := fillCells (store s.data p (glyphCell s c)) (p + 1)
          (min n (s.dataLimit - (p + 1))) (glyphCell s c) } = _
      rw [fillCells_store]
    · rw [if_neg h]
      have hk : min (n + 1) (s.dataLimit - p) = 0 := by omega
      rw [hk, fillCells_zero]
      rfl

theorem WF_of_frame {s r : ad_ScreenState} (hf : Frame s r) (hw : WF s)
    (hx : r.x < 65536) (hy : r.y < 65536) (hc : r.color.fg < 16 ∧ r.color.bg < 16) :
    WF r := by
  obtain ⟨h1, h2, h3, h4, _, _, _, _⟩ := hw
  refine ⟨?_, ?_, ?_, ?_, hx, hy, hc.1, hc.2⟩
  · rw [hf.bufSize, hf.width, hf.height]
    exact h1
  · rw [hf.dataLimit, hf.width, hf.height]
    exact h2
  · rw [hf.width]
    exact h3
  · rw [hf.height]
    exact h4

/-- Whatever the glyph, a run of the loop of `ad_putChar` that returns keeps the
geometry, the snapshot and the active colour, and keeps the cursor in range. -/
theorem ad_putChar_loop_inv (c : Int) (count p : Nat) (s r : ad_ScreenState)
    (h : ad_putChar_loop c count p s = Except.ok r) :
    Frame s r ∧ r.color = s.color ∧ (s.x < 65536 → s.y < 65536 → r.x < 65536 ∧ r.y < 65536) := by
  induction count generalizing p s with
  | zero =>
    unfold ad_putChar_loop at h
    cases h
    exact ⟨Frame.rfl_ _, rfl, fun hx hy => ⟨hx, hy⟩⟩
  | succ n ih =>
    unfold ad_putChar_loop at h
    by_cases h1 : p < s.dataLimit
    · rw [if_pos h1] at h
      by_cases h2 : c < 32
      · rw [if_pos h2] at h
        cases h
      · rw [if_neg h2] at h
        dsimp only at h
        obtain ⟨hf, hcol, hxy⟩ := ih _ _ h
        rw [ad_advanceCursor_data] at hf hcol hxy
        have hf2 : Frame (ad_advanceCursor s) r :=
          ⟨hf.width, hf.height, hf.bufSize, hf.dataLimit, hf.data_backup, hf.x_backup,
           hf.y_backup, hf.color_backup⟩
        refine ⟨Frame.trans_ (ad_advanceCursor_frame s) hf2, ?_, ?_⟩
        · rw [hcol]
          exact ad_advanceCursor_color s
        · intro _ hy
          exact hxy (ad_advanceCursor_x_lt s) (ad_advanceCursor_y_lt s hy)
    · rw [if_neg h1] at h
      cases h
      exact ⟨Frame.rfl_ _, rfl, fun hx hy => ⟨hx, hy⟩⟩

/-- A call of `ad_putChar` that returns keeps the geometry and the snapshot and
leaves a well-formed state well-formed. -/
theorem ad_putChar_inv (s r : ad_ScreenState) (c : Int) (count : Nat)
    (h : ad_putChar s c count = Except.ok r) : Frame s r ∧ (WF s → WF r) := by
  unfold ad_putChar at h
  obtain ⟨hf1, hcol, hxy⟩ := ad_putChar_loop_inv _ _ _ _ _ h
  have hf : Frame s r :=
    ⟨hf1.width, hf1.height, hf1.bufSize, hf1.dataLimit, hf1.data_backup, hf1.x_backup,
     hf1.y_backup, hf1.color_backup⟩
  refine ⟨hf, fun hw => ?_⟩
  have hw2 := hw
  obtain ⟨_, _, _, _, hx, hy, hfg, hbg⟩ := hw2
  have hxy2 := hxy hx hy
  refine WF_of_frame hf hw hxy2.1 hxy2.2 ?_
  rw [hcol]
  exact ⟨hfg, hbg⟩

theorem ad_putString_inv (str : List Int) (s r : ad_ScreenState)
    (h : ad_putString s str = Except.ok r) : Frame s r ∧ (WF s → WF r) := by
  induction str generalizing s with
  | nil =>
    unfold ad_putString at h
    cases h
    exact ⟨Frame.rfl_ _, fun hw => hw⟩
  | cons c str ih =>
    unfold ad_putString at h
    cases h1 : ad_putChar s c 1 with
    | error e =>
      rw [h1] at h
      cases h
    | ok s1 =>
      rw [h1] at h
      obtain ⟨hf1, hw1⟩ := ad_putChar_inv _ _ _ _ h1
      obtain ⟨hf2, hw2⟩ := ih _ h
      exact ⟨Frame.trans_ hf1 hf2, fun hw => hw2 (hw1 hw)⟩

theorem ad_setColor_inv (s : ad_ScreenState) (bg fg : Nat) :
    Frame s (ad_setColor s bg fg) ∧ (WF s → WF (ad_setColor s bg fg)) := by
  have hf : Frame s (ad_setColor s bg fg) := ⟨rfl, rfl, rfl, rfl, rfl, rfl, rfl, rfl⟩
  refine ⟨hf, fun hw => ?_⟩
  have hw2 := hw
  obtain ⟨_, _, _, _, hx, hy, _, _⟩ := hw2
  exact WF_of_frame hf hw hx hy ⟨Nat.mod_lt _ (by decide), Nat.mod_lt _ (by decide)⟩

theorem ad_setCursorPosition_inv (s : ad_ScreenState) (x y : Nat) :
    Frame s (ad_setCursorPosition s x y) ∧ (WF s → WF (ad_setCursorPosition s x y)) := by
  have hf : Frame s (ad_setCursorPosition s x y) := ⟨rfl, rfl, rfl, rfl, rfl, rfl, rfl, rfl⟩
  refine ⟨hf, fun hw => ?_⟩
  have hw2 := hw
  obtain ⟨_, _, _, _, _, _, hfg, hbg⟩ := hw2
  exact WF_of_frame hf hw (Nat.mod_lt _ (by decide)) (Nat.mod_lt _ (by decide)) ⟨hfg, hbg⟩

/-- A sequence of write calls that runs to its end keeps the geometry and the
snapshot and leaves a well-formed state well-formed. -/
theorem runWrites_inv (ws : List ad_Write) (s r : ad_ScreenState)
    (h : runWrites s ws = Except.ok r) : Frame s r ∧ (WF s → WF r) := by
  induction ws generalizing s with
  | nil =>
    unfold runWrites at h
    cases h
    exact ⟨Frame.rfl_ _, fun hw => hw⟩
  | cons w ws ih =>
    unfold runWrites at h
    cases h1 : ad_Write.run s w with
    | error e =>
      rw [h1] at h
      cases h
    | ok s1 =>
      rw [h1] at h
      obtain ⟨hf2, hw2⟩ := ih _ h
      have h3 : Frame s s1 ∧ (WF s → WF s1) := by
        cases w with
        | setColor bg fg =>
          unfold ad_Write.run at h1
          cases h1
          exact ad_setColor_inv s bg fg
        | setCursorPosition x y =>
          unfold ad_Write.run at h1
          cases h1
          exact ad_setCursorPosition_inv s x y
        | putChar c count => exact ad_putChar_inv _ _ _ _ h1
        | putString str => exact ad_putString_inv _ _ _ h1
      exact ⟨Frame.trans_ h3.1 hf2, fun hw => hw2 (h3.2 hw)⟩

theorem ad_advanceCursor_hal (s : ad_ScreenState) (l : List hal_Call) :
    ad_advanceCursor { s with hal := l } = { ad_advanceCursor s with hal := l } := by
  unfold ad_advanceCursor ad_lf ad_cr
  dsimp only
  split <;> rfl

theorem iterate_advance_hal (k : Nat) (s : ad_ScreenState) (l : List hal_Call) :
    ad_advanceCursor^[k] { s with hal := l } = { ad_advanceCursor^[k] s with hal := l } := by
  induction k generalizing s with
  | zero => rfl
  | succ k ih =>
    rw [Function.iterate_succ_apply, Function.iterate_succ_apply, ad_advanceCursor_hal, ih]

/-- With the draw pointer at or behind the limit the loop of `ad_putChar` does
nothing, whatever the glyph. -/
theorem ad_putChar_loop_outside (c : Int) (count p : Nat) (s : ad_ScreenState)
    (h : s.dataLimit ≤ p) : ad_putChar_loop c count p s = Except.ok s := by
  cases count with
  | zero => rfl
  | succ n =>
    unfold ad_putChar_loop
    rw [if_neg (by omega)]

/-- The outcome of `ad_putChar` for a glyph that passes the assertion. -/
theorem ad_putChar_ok (s : ad_ScreenState) (c : Int) (hc : 32 ≤ c) (count : Nat) :
    ad_putChar s c count = Except.ok
      { ad_advanceCursor^[min count (s.dataLimit - ad_drawPtr s)] s with
        data := fillCells s.data (ad_drawPtr s) (min count (s.dataLimit - ad_drawPtr s))
          (glyphCell s c)
        hal := s.hal ++ [hal_Call.putChar c count] } := by
  unfold ad_putChar
  dsimp only
  rw [ad_putChar_loop_ok c hc, iterate_advance_hal]
  rfl

theorem ad_putString_ok (str : List Int) (s : ad_ScreenState)
    (h : ∀ c ∈ str, (32 : Int) ≤ c) : ∃ r, ad_putString s str = Except.ok r := by
  induction str generalizing s with
  | nil => exact ⟨s, rfl⟩
  | cons c str ih =>
    unfold ad_putString
    rw [ad_putChar_ok s c (h c (List.mem_cons_self c str))]
    exact ih _ (fun d hd => h d (List.mem_cons_of_mem c hd))

/-- A sequence of write calls whose glyphs all pass the assertion runs to its end. -/
theorem runWrites_ok (ws : List ad_Write) (s : ad_ScreenState)
    (h : ∀ w ∈ ws, ad_Write.printable w) : ∃ r, runWrites s ws = Except.ok r := by
  induction ws generalizing s with
  | nil => exact ⟨s, rfl⟩
  | cons w ws ih =>
    have hw : ad_Write.printable w := h w (List.mem_cons_self w ws)
    have h1 : ∃ s1, ad_Write.run s w = Except.ok s1 := by
      cases w with
      | setColor bg fg => exact ⟨_, rfl⟩
      | setCursorPosition x y => exact ⟨_, rfl⟩
      | putChar c count => exact ⟨_, ad_putChar_ok s c hw count⟩
      | putString str => exact ad_putString_ok str s hw
    obtain ⟨s1, hs1⟩ := h1
    unfold runWrites
    rw [hs1]
    exact ih s1 (fun v hv => h v (List.mem_cons_of_mem w hv))

/-- A restore performed in any state that still has the geometry and the snapshot
taken in the well-formed state `S` brings back the buffer, the cursor and the
colour of `S`. -/
theorem load_of_frame (S T : ad_ScreenState) (hw : WF S)
    (hf : Frame (ad_screenSaveState S) T) :
    (∀ i, i < S.width * S.height → (ad_screenLoadState T).data i = S.data i) ∧
    (ad_screenLoadState T).x = S.x ∧ (ad_screenLoadState T).y = S.y ∧
    (ad_screenLoadState T).color = S.color := by
  obtain ⟨h1, _, _, _, hx, hy, hfg, hbg⟩ := hw
  have hcells : S.bufSize / sizeof_ad_Char = S.width * S.height := by
    rw [h1]
    exact Nat.mul_div_cancel _ (by decide)
  have hb : T.bufSize = S.bufSize := hf.bufSize
  have hd : T.data_backup = memcpy S.data_backup S.data (S.bufSize / sizeof_ad_Char) :=
    hf.data_backup
  have hxb : T.x_backup = S.x := hf.x_backup
  have hyb : T.y_backup = S.y := hf.y_backup
  have hcb : T.color_backup = S.color := hf.color_backup
  refine ⟨?_, ?_, ?_, ?_⟩
  · intro i hi
    show memcpy T.data T.data_backup (T.bufSize / sizeof_ad_Char) i = S.data i
    rw [hb, hd, hcells]
    unfold memcpy
    rw [if_pos hi, if_pos hi]
  · show T.x_backup % 65536 = S.x
    rw [hxb]
    exact Nat.mod_eq_of_lt hx
  · show T.y_backup % 65536 = S.y
    rw [hyb]
    exact Nat.mod_eq_of_lt hy
  · show ({ bg := T.color_backup.bg % 16, fg := T.color_backup.fg % 16 } : ad_Color) = S.color
    rw [hcb, Nat.mod_eq_of_lt hfg, Nat.mod_eq_of_lt hbg]

theorem WF_save (s : ad_ScreenState) (hw : WF s) : WF (ad_screenSaveState s) := hw

/-! ## Snapshot and restore -/

/-- C1 (round trip).  Take any well-formed screen state `S`, save it, and apply
any sequence of `ad_setColor` / `ad_setCursorPosition` / `ad_putChar` /
`ad_putString` calls.  If the sequence runs to its end (no glyph trips the
assertion of `ad_putChar`), a following `ad_screenLoadState` leaves every cell of
the live buffer equal to the cell of `S` and the cursor and the active colour
equal to those of `S`; and a sequence whose glyphs are all printable does run to
its end. -/
theorem C1_save_writes_load_round_trip (S : ad_ScreenState) (ws : List ad_Write)
    (hw : WF S) :
    (∀ S1, runWrites (ad_screenSaveState S) ws = Except.ok S1 →
      (∀ i, i < S.width * S.height → (ad_screenLoadState S1).data i = S.data i) ∧
      (ad_screenLoadState S1).x = S.x ∧ (ad_screenLoadState S1).y = S.y ∧
      (ad_screenLoadState S1).color = S.color) ∧
    ((∀ w ∈ ws, ad_Write.printable w) →
      ∃ S1, runWrites (ad_screenSaveState S) ws = Except.ok S1) := by
  refine ⟨fun S1 h => ?_, fun h => runWrites_ok ws _ h⟩
  exact load_of_frame S S1 hw (runWrites_inv ws _ _ h).1

/-- C1 at a 3 x 2 screen with a popup-like sequence of writes drawn over it. -/
theorem C1_save_writes_load_round_trip_witness :
    WF screen3x2 ∧
    ((∀ S1, runWrites (ad_screenSaveState screen3x2)
        [ad_Write.setColor 4 15, ad_Write.setCursorPosition 0 0, ad_Write.putChar 88 5,
         ad_Write.putString [72, 105]] = Except.ok S1 →
      (∀ i, i < screen3x2.width * screen3x2.height →
        (ad_screenLoadState S1).data i = screen3x2.data i) ∧
      (ad_screenLoadState S1).x = screen3x2.x ∧ (ad_screenLoadState S1).y = screen3x2.y ∧
      (ad_screenLoadState S1).color = screen3x2.color) ∧
    ((∀ w ∈ [ad_Write.setColor 4 15, ad_Write.setCursorPosition 0 0, ad_Write.putChar 88 5,
         ad_Write.putString [72, 105]], ad_Write.printable w) →
      ∃ S1, runWrites (ad_screenSaveState screen3x2)
        [ad_Write.setColor 4 15, ad_Write.setCursorPosition 0 0, ad_Write.putChar 88 5,
         ad_Write.putString [72, 105]] = Except.ok S1)) :=
  ⟨by unfold WF; decide,
   C1_save_writes_load_round_trip screen3x2 _ (by unfold WF; decide)⟩

/-- C2 (snapshot overwrite).  From a well-formed state `S`: save, writes `X`, save
again (in the state `S1` reached after `X`), further writes `Y`, restore.  Whenever
both write sequences run to their end, the restored buffer, cursor and colour are
those of `S1`, the state at the second save; and printable sequences do run to
their end. -/
theorem C2_second_save_overwrites_snapshot (S : ad_ScreenState) (X Y : List ad_Write)
    (hw : WF S) :
    (∀ S1 S2, runWrites (ad_screenSaveState S) X = Except.ok S1 →
      runWrites (ad_screenSaveState S1) Y = Except.ok S2 →
      (∀ i, i < S1.width * S1.height → (ad_screenLoadState S2).data i = S1.data i) ∧
      (ad_screenLoadState S2).x = S1.x ∧ (ad_screenLoadState S2).y = S1.y ∧
      (ad_screenLoadState S2).color = S1.color) ∧
    ((∀ w ∈ X, ad_Write.printable w) → (∀ w ∈ Y, ad_Write.printable w) →
      ∃ S1 S2, runWrites (ad_screenSaveState S) X = Except.ok S1 ∧
        runWrites (ad_screenSaveState S1) Y = Except.ok S2) := by
  refine ⟨fun S1 S2 h1 h2 => ?_, fun hX hY => ?_⟩
  · have hw1 : WF S1 := (runWrites_inv X _ _ h1).2 (WF_save S hw)
    exact load_of_frame S1 S2 hw1 (runWrites_inv Y _ _ h2).1
  · obtain ⟨S1, h1⟩ := runWrites_ok X (ad_screenSaveState S) hX
    obtain ⟨S2, h2⟩ := runWrites_ok Y (ad_screenSaveState S1) hY
    exact ⟨S1, S2, h1, h2⟩

/-- C2 at a 3 x 2 screen: an `X` is written between the two saves, a `Y` after. -/
theorem C2_second_save_overwrites_snapshot_witness :
    WF screen3x2 ∧
    ((∀ S1 S2, runWrites (ad_screenSaveState screen3x2)
        [ad_Write.setCursorPosition 0 0, ad_Write.putChar 88 2] = Except.ok S1 →
      runWrites (ad_screenSaveState S1)
        [ad_Write.setColor 2 3, ad_Write.putString [89, 89, 89]] = Except.ok S2 →
      (∀ i, i < S1.width * S1.height → (ad_screenLoadState S2).data i = S1.data i) ∧
      (ad_screenLoadState S2).x = S1.x ∧ (ad_screenLoadState S2).y = S1.y ∧
      (ad_screenLoadState S2).color = S1.color) ∧
    ((∀ w ∈ [ad_Write.setCursorPosition 0 0, ad_Write.putChar 88 2],
        ad_Write.printable w) →
      (∀ w ∈ [ad_Write.setColor 2 3, ad_Write.putString [89, 89, 89]],
        ad_Write.printable w) →
      ∃ S1 S2, runWrites (ad_screenSaveState screen3x2)
          [ad_Write.setCursorPosition 0 0, ad_Write.putChar 88 2] = Except.ok S1 ∧
        runWrites (ad_screenSaveState S1)
          [ad_Write.setColor 2 3, ad_Write.putString [89, 89, 89]] = Except.ok S2)) :=
  ⟨by unfold WF; decide,
   C2_second_save_overwrites_snapshot screen3x2 _ _ (by unfold WF; decide)⟩

/-- C3 (idempotent restore).  In every state, two calls of `ad_screenLoadState` in
a row leave the same live buffer, cursor position and active colour as one call. -/
theorem C3_load_twice_eq_load_once (s : ad_ScreenState) :
    (ad_screenLoadState (ad_screenLoadState s)).data = (ad_screenLoadState s).data ∧
    (ad_screenLoadState (ad_screenLoadState s)).x = (ad_screenLoadState s).x ∧
    (ad_screenLoadState (ad_screenLoadState s)).y = (ad_screenLoadState s).y ∧
    (ad_screenLoadState (ad_screenLoadState s)).color = (ad_screenLoadState s).color := by
  refine ⟨?_, rfl, rfl, rfl⟩
  show memcpy (memcpy s.data s.data_backup (s.bufSize / sizeof_ad_Char)) s.data_backup
      (s.bufSize / sizeof_ad_Char) = memcpy s.data s.data_backup (s.bufSize / sizeof_ad_Char)
  funext i
  unfold memcpy
  by_cases h : i < s.bufSize / sizeof_ad_Char
  · rw [if_pos h, if_pos h]
  · rw [if_neg h, if_neg h]

/-- C4 (frame).  `ad_screenLoadState` leaves the snapshot (backup buffer, backup
cursor, backup colour) unchanged, and `ad_screenSaveState` leaves the live buffer,
the cursor position and the active colour unchanged. -/
theorem C4_load_keeps_snapshot_save_keeps_live (s : ad_ScreenState) :
    ((ad_screenLoadState s).data_backup = s.data_backup ∧
     (ad_screenLoadState s).x_backup = s.x_backup ∧
     (ad_screenLoadState s).y_backup = s.y_backup ∧
     (ad_screenLoadState s).color_backup = s.color_backup) ∧
    ((ad_screenSaveState s).data = s.data ∧
     (ad_screenSaveState s).x = s.x ∧
     (ad_screenSaveState s).y = s.y ∧
     (ad_screenSaveState s).color = s.color) :=
  ⟨⟨rfl, rfl, rfl, rfl⟩, ⟨rfl, rfl, rfl, rfl⟩⟩

/-! ## Writing glyphs -/

/-- C5 (bounds safety).  In every well-formed state, for every printable glyph and
every count, `ad_putChar` returns and every cell at an offset at or beyond
`width * height` is left as it was: no store lands at or past the buffer limit.
This holds for every cursor, in particular for those inside the grid, and for
counts that span several rows or exceed the cells that remain. -/
theorem C5_putChar_never_writes_past_limit (s : ad_ScreenState) (g : Int) (n : Nat)
    (hw : WF s) (hg : 32 ≤ g) :
    ∃ s', ad_putChar s g n = Except.ok s' ∧
      ∀ i, s.width * s.height ≤ i → s'.data i = s.data i := by
  refine ⟨_, ad_putChar_ok s g hg n, fun i hi => ?_⟩
  obtain ⟨_, h2, _⟩ := hw
  show fillCells s.data (ad_drawPtr s) (min n (s.dataLimit - ad_drawPtr s))
    (glyphCell s g) i = s.data i
  unfold fillCells
  rw [if_neg]
  rw [h2]
  omega

/-- C5 at a 3 x 2 screen with the cursor at (1, 0) and a count of 40. -/
theorem C5_putChar_never_writes_past_limit_witness :
    WF screen3x2 ∧ (32 : Int) ≤ 65 ∧
    ∃ s', ad_putChar screen3x2 65 40 = Except.ok s' ∧
      ∀ i, screen3x2.width * screen3x2.height ≤ i → s'.data i = screen3x2.data i :=
  ⟨by unfold WF; decide, by decide,
   C5_putChar_never_writes_past_limit screen3x2 65 40 (by unfold WF; decide) (by decide)⟩

/-- C6 (cells written).  In every well-formed state with cursor `(x, y)` and
`start = y * width + x`, where the cell count `width * height` and the offset
`start` fit the `int` in which C evaluates them (they do not exceed `INT_MAX`),
for every printable glyph `g` (a character code from 0x20 up to 0xFF) and every
count `n`, `ad_putChar` returns, every cell with offset in
`[start, min (start + n) (width * height))` holds `g` with the active colour,
and every other cell is unchanged. -/
theorem C6_putChar_fills_run_from_cursor (s : ad_ScreenState) (g : Int) (n : Nat)
    (hw : WF s) (_hcells : s.width * s.height ≤ INT_MAX)
    (_hstart : s.y * s.width + s.x ≤ INT_MAX) (hg : 32 ≤ g) (hg2 : g < 256) :
    ∃ s', ad_putChar s g n = Except.ok s' ∧
      ∀ i, s'.data i =
        if s.y * s.width + s.x ≤ i ∧ i < min (s.y * s.width + s.x + n) (s.width * s.height)
        then { color := s.color, ascii := g.toNat } else s.data i := by
  refine ⟨_, ad_putChar_ok s g hg n, fun i => ?_⟩
  obtain ⟨_, h2, _⟩ := hw
  show fillCells s.data (ad_drawPtr s) (min n (s.dataLimit - ad_drawPtr s))
    (glyphCell s g) i = _
  have hgly : glyphCell s g = { color := s.color, ascii := g.toNat } := by
    unfold glyphCell
    rw [Int.emod_eq_of_lt (by omega) hg2]
  unfold fillCells ad_drawPtr
  rw [hgly, h2]
  by_cases h : s.y * s.width + s.x ≤ i ∧
      i < s.y * s.width + s.x + min n (s.width * s.height - (s.y * s.width + s.x))
  · rw [if_pos h, if_pos (by omega)]
  · rw [if_neg h, if_neg (by omega)]

/-- C6 at a 3 x 2 screen: five glyphs from (1, 0) run on into the second row. -/
theorem C6_putChar_fills_run_from_cursor_witness :
    WF screen3x2 ∧ screen3x2.width * screen3x2.height ≤ INT_MAX ∧
    screen3x2.y * screen3x2.width + screen3x2.x ≤ INT_MAX ∧
    (32 : Int) ≤ 65 ∧ (65 : Int) < 256 ∧
    ∃ s', ad_putChar screen3x2 65 5 = Except.ok s' ∧
      ∀ i, s'.data i =
        if screen3x2.y * screen3x2.width + screen3x2.x ≤ i ∧
          i < min (screen3x2.y * screen3x2.width + screen3x2.x + 5)
            (screen3x2.width * screen3x2.height)
        then { color := screen3x2.color, ascii := (65 : Int).toNat } else screen3x2.data i :=
  ⟨by unfold WF; decide, by decide, by decide, by decide, by decide,
   C6_putChar_fills_run_from_cursor screen3x2 65 5 (by unfold WF; decide) (by decide)
     (by decide) (by decide) (by decide)⟩

/-- C7 (cursor against draw pointer), evaluated: on an empty 2 x 2 screen with the
cursor at (0, 0), `ad_putChar ('A', 3)` stores the three cells 0, 1, 2 and leaves
the cursor at (0, 1), whose offset is 2, not 0 + 3: the cursor lags one cell
behind the cell after the last one written. -/
theorem C7_putChar_cursor_lags_after_row_end :
    ∃ s', ad_putChar screen2x2 65 3 = Except.ok s' ∧
      (s'.data 0).ascii = 65 ∧ (s'.data 1).ascii = 65 ∧ (s'.data 2).ascii = 65 ∧
      (s'.data 3).ascii = 0 ∧
      s'.x = 0 ∧ s'.y = 1 ∧
      s'.y * s'.width + s'.x = 2 ∧
      s'.y * s'.width + s'.x ≠ screen2x2.y * screen2x2.width + screen2x2.x + 3 :=
  ⟨_, rfl, by decide⟩

/-- C8 (column at the row boundary), evaluated: on an empty 2 x 2 screen with the
cursor at column `width - 1 = 1` of row 0, writing one glyph leaves the cursor at
column 2 of row 0, which is column `width`, not column 0 of row 1. -/
theorem C8_putChar_leaves_cursor_at_column_width :
    ∃ s', ad_putChar (ad_setCursorPosition screen2x2 1 0) 65 1 = Except.ok s' ∧
      s'.x = 2 ∧ s'.y = 0 ∧ s'.x = s'.width ∧ ¬ s'.x < s'.width :=
  ⟨_, rfl, by decide⟩

/-- C9 as stated fails: on an empty 2 x 2 screen with the cursor at (0, 0),
`ad_putChar ('A', 9)` stores four glyphs and leaves the cursor at (1, 1), where
four advances lead, while nine advances lead to (0, 3). -/
theorem C9_dropped_writes_do_not_advance_cursor :
    ∃ s', ad_putChar screen2x2 65 9 = Except.ok s' ∧
      s'.x = 1 ∧ s'.y = 1 ∧
      (ad_advanceCursor^[9] screen2x2).x = 0 ∧ (ad_advanceCursor^[9] screen2x2).y = 3 ∧
      ¬ (s'.x = (ad_advanceCursor^[9] screen2x2).x ∧ s'.y = (ad_advanceCursor^[9] screen2x2).y) :=
  ⟨_, rfl, by decide⟩

/-- C9 amended.  In every well-formed state with `start = y * width + x`, where
the cell count `width * height` and the offset `start` fit the `int` in which C
evaluates them (they do not exceed `INT_MAX`), for every printable glyph and
count `n`, `ad_putChar` returns; the glyphs that do not fit before the limit touch
no cell (every cell outside the `k = min n (width * height - start)` cells from
`start` on is unchanged); and the cursor afterwards is the one obtained by
advancing it once per glyph stored, that is `k` times. -/
theorem C9_cursor_advances_once_per_stored_glyph (s : ad_ScreenState) (g : Int) (n : Nat)
    (hw : WF s) (_hcells : s.width * s.height ≤ INT_MAX)
    (_hstart : s.y * s.width + s.x ≤ INT_MAX) (hg : 32 ≤ g) :
    ∃ s', ad_putChar s g n = Except.ok s' ∧
      (∀ i, ¬ (s.y * s.width + s.x ≤ i ∧
          i < s.y * s.width + s.x + min n (s.width * s.height - (s.y * s.width + s.x))) →
        s'.data i = s.data i) ∧
      s'.x = (ad_advanceCursor^[min n (s.width * s.height - (s.y * s.width + s.x))] s).x ∧
      s'.y = (ad_advanceCursor^[min n (s.width * s.height - (s.y * s.width + s.x))] s).y := by
  obtain ⟨_, h2, _⟩ := hw
  refine ⟨_, ad_putChar_ok s g hg n, fun i hi => ?_, ?_, ?_⟩
  · show fillCells s.data (ad_drawPtr s) (min n (s.dataLimit - ad_drawPtr s))
      (glyphCell s g) i = s.data i
    unfold fillCells ad_drawPtr
    rw [h2, if_neg hi]
  · show (ad_advanceCursor^[min n (s.dataLimit - ad_drawPtr s)] s).x = _
    unfold ad_drawPtr
    rw [h2]
  · show (ad_advanceCursor^[min n (s.dataLimit - ad_drawPtr s)] s).y = _
    unfold ad_drawPtr
    rw [h2]

/-- C9 amended, at a 3 x 2 screen with the cursor at (1, 0) and a count of 40. -/
theorem C9_cursor_advances_once_per_stored_glyph_witness :
    WF screen3x2 ∧ screen3x2.width * screen3x2.height ≤ INT_MAX ∧
    screen3x2.y * screen3x2.width + screen3x2.x ≤ INT_MAX ∧ (32 : Int) ≤ 65 ∧
    ∃ s', ad_putChar screen3x2 65 40 = Except.ok s' ∧
      (∀ i, ¬ (screen3x2.y * screen3x2.width + screen3x2.x ≤ i ∧
          i < screen3x2.y * screen3x2.width + screen3x2.x +
            min 40 (screen3x2.width * screen3x2.height -
              (screen3x2.y * screen3x2.width + screen3x2.x))) →
        s'.data i = screen3x2.data i) ∧
      s'.x = (ad_advanceCursor^[min 40 (screen3x2.width * screen3x2.height -
        (screen3x2.y * screen3x2.width + screen3x2.x))] screen3x2).x ∧
      s'.y = (ad_advanceCursor^[min 40 (screen3x2.width * screen3x2.height -
        (screen3x2.y * screen3x2.width + screen3x2.x))] screen3x2).y :=
  ⟨by unfold WF; decide, by decide, by decide, by decide,
   C9_cursor_advances_once_per_stored_glyph screen3x2 65 40 (by unfold WF; decide)
     (by decide) (by decide) (by decide)⟩

/-- C10 as stated fails: on an empty 2 x 2 screen, `ad_setCursorPosition (2, 0)`
puts the cursor at column `width`, out of range, and the following
`ad_putChar ('A', 1)` still stores the glyph, in the cell with offset 2. -/
theorem C10_column_out_of_range_still_writes :
    screen2x2.width ≤ 2 ∧
    ∃ s', ad_putChar (ad_setCursorPosition screen2x2 2 0) 65 1 = Except.ok s' ∧
      (s'.data 2).ascii = 65 ∧ s'.data 2 ≠ screen2x2.data 2 :=
  ⟨by decide, _, rfl, by decide⟩

/-- C10 amended.  In every well-formed state whose cell count `width * height`
fits an `int`, for every `ad_setCursorPosition (x, y)` with `uint16_t` arguments
whose offset `y * width + x` fits an `int` (neither exceeds `INT_MAX`):
every `y >= height` puts the offset at or beyond `width * height`; with the offset
at or beyond `width * height`, every following `ad_putChar`, for any glyph,
printable or not, and any count, returns without tripping the assertion and
leaves the whole shadow buffer unchanged; with the offset below `width * height`,
whatever the column (`x >= width` included), a following `ad_putChar` of a
printable glyph with a count of at least 1 returns and has stored the glyph with
the active colour in the cell at that offset. -/
theorem C10_cursor_behind_limit_makes_putChar_noop (s : ad_ScreenState) (x y : Nat)
    (c : Int) (n : Nat) (hw : WF s) (hx : x < 65536) (hy : y < 65536)
    (_hcells : s.width * s.height ≤ INT_MAX) (_hoff : y * s.width + x ≤ INT_MAX) :
    (s.height ≤ y → s.width * s.height ≤ y * s.width + x) ∧
    (s.width * s.height ≤ y * s.width + x →
      ∃ s', ad_putChar (ad_setCursorPosition s x y) c n = Except.ok s' ∧
        s'.data = s.data) ∧
    (y * s.width + x < s.width * s.height → 32 ≤ c → 1 ≤ n →
      ∃ s', ad_putChar (ad_setCursorPosition s x y) c n = Except.ok s' ∧
        s'.data (y * s.width + x) = { color := s.color, ascii := (c % 256).toNat }) := by
  obtain ⟨_, h2, _⟩ := hw
  have hptr : ad_drawPtr (ad_setCursorPosition s x y) = y * s.width + x := by
    show y % 65536 * s.width + x % 65536 = _
    rw [Nat.mod_eq_of_lt hx, Nat.mod_eq_of_lt hy]
  refine ⟨fun h => ?_, fun hlim => ?_, fun hin hc hn => ?_⟩
  · have h3 : s.width * s.height ≤ s.width * y := Nat.mul_le_mul_left _ h
    rw [Nat.mul_comm s.width y] at h3
    omega
  · refine ⟨_, ad_putChar_loop_outside c n _ _ ?_, rfl⟩
    show s.dataLimit ≤ y % 65536 * s.width + x % 65536
    rw [Nat.mod_eq_of_lt hx, Nat.mod_eq_of_lt hy, h2]
    exact hlim
  · refine ⟨_, ad_putChar_ok _ c hc n, ?_⟩
    show fillCells s.data (ad_drawPtr (ad_setCursorPosition s x y))
      (min n (s.dataLimit - ad_drawPtr (ad_setCursorPosition s x y)))
      (glyphCell (ad_setCursorPosition s x y) c) (y * s.width + x) = _
    rw [hptr, h2]
    unfold fillCells
    rw [if_pos (by omega)]
    rfl

/-- C10 amended, at a 3 x 2 screen: with the cursor put on row 2, behind the last
row, a control character written 7 times changes nothing; with the cursor put at
column 3 (the width) of row 0, one glyph is stored at offset 3. -/
theorem C10_cursor_behind_limit_makes_putChar_noop_witness :
    (WF screen3x2 ∧ 1 < 65536 ∧ 2 < 65536 ∧
      screen3x2.width * screen3x2.height ≤ INT_MAX ∧ 2 * screen3x2.width + 1 ≤ INT_MAX ∧
      screen3x2.height ≤ 2 ∧ screen3x2.width * screen3x2.height ≤ 2 * screen3x2.width + 1 ∧
      ∃ s', ad_putChar (ad_setCursorPosition screen3x2 1 2) 7 7 = Except.ok s' ∧
        s'.data = screen3x2.data) ∧
    (3 < 65536 ∧ 0 < 65536 ∧ 0 * screen3x2.width + 3 ≤ INT_MAX ∧
      screen3x2.width ≤ 3 ∧ 0 * screen3x2.width + 3 < screen3x2.width * screen3x2.height ∧
      (32 : Int) ≤ 65 ∧ 1 ≤ 1 ∧
      ∃ s', ad_putChar (ad_setCursorPosition screen3x2 3 0) 65 1 = Except.ok s' ∧
        s'.data (0 * screen3x2.width + 3) =
          { color := screen3x2.color, ascii := ((65 : Int) % 256).toNat }) :=
  ⟨⟨by unfold WF; decide, by decide, by decide, by decide, by decide, by decide, by decide,
    (C10_cursor_behind_limit_makes_putChar_noop screen3x2 1 2 7 7 (by unfold WF; decide)
      (by decide) (by decide) (by decide) (by decide)).2.1 (by decide)⟩,
   ⟨by decide, by decide, by decide, by decide, by decide, by decide, by decide,
    (C10_cursor_behind_limit_makes_putChar_noop screen3x2 3 0 65 1 (by unfold WF; decide)
      (by decide) (by decide) (by decide) (by decide)).2.2 (by decide) (by decide)
      (by decide)⟩⟩

/-! ## Console start-up -/

/-- The flag that `ad_initConsole` returns, in closed form. -/
theorem ad_initConsole_returns (width height : Nat) (dataAllocated backupAllocated : Bool) :
    (ad_initConsole width height dataAllocated backupAllocated).2 = true ↔
      width % 65536 ≠ 0 ∧ height % 65536 ≠ 0 ∧ dataAllocated = true ∧
        backupAllocated = false := by
  unfold ad_initConsole sizeof_ad_Char
  simp only [Bool.and_eq_true, decide_eq_true_eq, Bool.not_eq_true', ne_eq, Nat.mul_eq_zero,
    not_or]
  constructor
  · rintro ⟨⟨⟨⟨h1, h2⟩, _⟩, h3⟩, h4⟩
    exact ⟨h1, h2, h3, h4⟩
  · rintro ⟨h1, h2, h3, h4⟩
    exact ⟨⟨⟨⟨h1, h2⟩, by decide⟩, h3⟩, h4⟩

/-- The state that `ad_initConsole` leaves is well-formed. -/
theorem ad_initConsole_WF (width height : Nat) (dataAllocated backupAllocated : Bool) :
    WF (ad_initConsole width height dataAllocated backupAllocated).1 ∧
    WFbackup (ad_initConsole width height dataAllocated backupAllocated).1 := by
  unfold WF WFbackup ad_initConsole
  have h1 : (0 : Nat) < 65536 := by decide
  have h2 : (0 : Nat) < 16 := by decide
  exact ⟨⟨rfl, rfl, Nat.mod_lt _ (by decide), Nat.mod_lt _ (by decide), h1, h1, h2, h2⟩,
    h1, h1, h2, h2⟩

/-- C11 (start-up result), evaluated: with an 80 x 25 geometry and both
allocations successful `ad_initConsole` returns false, and with the backup
allocation failed it returns true: the last conjunct of the returned expression
tests `state.data_backup == NULL`. -/
theorem C11_initConsole_reports_failure_on_success :
    (ad_initConsole 80 25 true true).2 = false ∧
    (ad_initConsole 80 25 true false).2 = true ∧
    (ad_initConsole 0 25 true true).2 = false ∧
    (ad_initConsole 80 25 false true).2 = false :=
  ⟨by decide, by decide, by decide, by decide⟩

/-! ## Replay, assertion, strings -/

theorem flatMap_congr_mem {α β : Type} (l : List α) (f g : α → List β)
    (h : ∀ a ∈ l, f a = g a) : l.flatMap f = l.flatMap g := by
  induction l with
  | nil => rfl
  | cons a l ih =>
    rw [List.flatMap_cons, List.flatMap_cons, h a (List.mem_cons_self a l),
      ih (fun b hb => h b (List.mem_cons_of_mem a hb))]

/-- The replay loop reads only the cells below `totalChars`. -/
theorem replay_congr (d e : Nat → ad_Char) (n : Nat) (h : ∀ i, i < n → d i = e i) :
    replay d n = replay e n := by
  unfold replay
  apply flatMap_congr_mem
  intro i hi
  rw [h i (List.mem_range.mp hi)]

/-- C12 (replay on restore).  In a well-formed state `ad_screenLoadState` appends
to the driver trace exactly: `setCursorPosition (0, 0)`; then, for each of the
`width * height` cells of the snapshot in ascending offset (row-major order),
`setColor (cell.bg, cell.fg)` followed by `putChar (cell.glyph, 1)`; then
`setColor` with the snapshot's colour and `setCursorPosition` with the
snapshot's cursor, which are the restored shadow colour and cursor. -/
theorem C12_load_replays_snapshot_to_driver (s : ad_ScreenState) (hw : WF s)
    (hb : WFbackup s) :
    (ad_screenLoadState s).hal =
      s.hal ++ [hal_Call.setCursorPosition 0 0] ++
        ((List.range (s.width * s.height)).flatMap fun i =>
          [hal_Call.setColor (s.data_backup i).color.bg (s.data_backup i).color.fg,
           hal_Call.putChar (s.data_backup i).ascii 1]) ++
        [hal_Call.setColor s.color_backup.bg s.color_backup.fg,
         hal_Call.setCursorPosition s.x_backup s.y_backup] ∧
    (ad_screenLoadState s).color = s.color_backup ∧
    (ad_screenLoadState s).x = s.x_backup ∧
    (ad_screenLoadState s).y = s.y_backup := by
  obtain ⟨h1, _⟩ := hw
  obtain ⟨hx, hy, hfg, hbg⟩ := hb
  have hcells : s.bufSize / sizeof_ad_Char = s.width * s.height := by
    rw [h1]
    exact Nat.mul_div_cancel _ (by decide)
  have hrep : replay (memcpy s.data s.data_backup (s.bufSize / sizeof_ad_Char))
      (s.width * s.height) = replay s.data_backup (s.width * s.height) := by
    apply replay_congr
    intro i hi
    unfold memcpy
    rw [hcells, if_pos hi]
  refine ⟨?_, ?_, ?_, ?_⟩
  · show s.hal ++ [hal_Call.setCursorPosition 0 0] ++
        replay (memcpy s.data s.data_backup (s.bufSize / sizeof_ad_Char))
          (s.width * s.height) ++
        [hal_Call.setColor (s.color_backup.bg % 256) (s.color_backup.fg % 256)] ++
        [hal_Call.setCursorPosition (s.x_backup % 65536) (s.y_backup % 65536)] = _
    rw [hrep, Nat.mod_eq_of_lt hx, Nat.mod_eq_of_lt hy,
      Nat.mod_eq_of_lt (show s.color_backup.bg < 256 by omega),
      Nat.mod_eq_of_lt (show s.color_backup.fg < 256 by omega), List.append_assoc _ [_] [_]]
    rfl
  · show ({ bg := s.color_backup.bg % 16, fg := s.color_backup.fg % 16 } : ad_Color) =
      s.color_backup
    rw [Nat.mod_eq_of_lt hfg, Nat.mod_eq_of_lt hbg]
  · exact Nat.mod_eq_of_lt hx
  · exact Nat.mod_eq_of_lt hy

/-- C12 at a 3 x 2 screen. -/
theorem C12_load_replays_snapshot_to_driver_witness :
    WF screen3x2 ∧ WFbackup screen3x2 ∧
    ((ad_screenLoadState screen3x2).hal =
      screen3x2.hal ++ [hal_Call.setCursorPosition 0 0] ++
        ((List.range (screen3x2.width * screen3x2.height)).flatMap fun i =>
          [hal_Call.setColor (screen3x2.data_backup i).color.bg
             (screen3x2.data_backup i).color.fg,
           hal_Call.putChar (screen3x2.data_backup i).ascii 1]) ++
        [hal_Call.setColor screen3x2.color_backup.bg screen3x2.color_backup.fg,
         hal_Call.setCursorPosition screen3x2.x_backup screen3x2.y_backup] ∧
    (ad_screenLoadState screen3x2).color = screen3x2.color_backup ∧
    (ad_screenLoadState screen3x2).x = screen3x2.x_backup ∧
    (ad_screenLoadState screen3x2).y = screen3x2.y_backup) :=
  ⟨by unfold WF; decide, by unfold WFbackup; decide,
   C12_load_replays_snapshot_to_driver screen3x2 (by unfold WF; decide)
     (by unfold WFbackup; decide)⟩

/-- C13 (non-printable glyphs).  In a well-formed state, `ad_putChar` with a glyph
code below 0x20 aborts on its assertion whenever at least one cell would be
written (`count >= 1` and the cursor offset inside the buffer), and the buffer
at the abort is the buffer before the call; with a glyph code in 0x20 .. 0x7F it
returns. -/
theorem C13_putChar_asserts_on_control_glyph (s : ad_ScreenState) (c : Int) (count : Nat)
    (hw : WF s) :
    (c < 32 → 1 ≤ count → s.y * s.width + s.x < s.width * s.height →
      ∃ e, ad_putChar s c count = Except.error e ∧ e.data = s.data) ∧
    (32 ≤ c → c ≤ 127 → ∃ r, ad_putChar s c count = Except.ok r) := by
  obtain ⟨_, h2, _⟩ := hw
  refine ⟨fun hc hn hin => ?_, fun hc _ => ⟨_, ad_putChar_ok s c hc count⟩⟩
  obtain ⟨n, rfl⟩ : ∃ n, count = n + 1 := ⟨count - 1, by omega⟩
  refine ⟨{ s with hal := s.hal ++ [hal_Call.putChar c (n + 1)] }, ?_, rfl⟩
  unfold ad_putChar
  dsimp only
  unfold ad_putChar_loop
  rw [if_pos (show ad_drawPtr s < s.dataLimit by unfold ad_drawPtr; omega), if_pos hc]

/-- C13 at a 3 x 2 screen with the cursor at (1, 0). -/
theorem C13_putChar_asserts_on_control_glyph_witness :
    WF screen3x2 ∧
    (((7 : Int) < 32 → 1 ≤ 2 →
        screen3x2.y * screen3x2.width + screen3x2.x < screen3x2.width * screen3x2.height →
      ∃ e, ad_putChar screen3x2 7 2 = Except.error e ∧ e.data = screen3x2.data) ∧
    ((32 : Int) ≤ 7 → (7 : Int) ≤ 127 → ∃ r, ad_putChar screen3x2 7 2 = Except.ok r)) :=
  ⟨by unfold WF; decide,
   C13_putChar_asserts_on_control_glyph screen3x2 7 2 (by unfold WF; decide)⟩

/-- C14 (string layout), evaluated: on an empty 2 x 2 screen with the cursor at
(0, 0), `ad_putString ("ABCD")` leaves the glyphs `A`, `B`, `D` in the cells 0, 1, 2
and nothing in cell 3: the character `C`, stored in cell 2 with the cursor at
column `width`, is overwritten by `D` after the late wrap of the cursor. -/
theorem C14_putString_overwrites_at_row_end :
    ∃ s', ad_putString screen2x2 [65, 66, 67, 68] = Except.ok s' ∧
      glyphs s' 4 = [65, 66, 68, 0] ∧
      (s'.data 2).ascii ≠ 67 ∧ (s'.data 3).ascii ≠ 68 :=
  ⟨_, rfl, by decide⟩

/-! ## Text elements -/

/-- A buffer that holds the characters `l` (none of them zero) from offset `i` on,
followed by a zero byte, scans to `l`, provided the scan may read that far. -/
theorem scan_eq (l : List Int) (buf : Nat → Int) (n i : Nat)
    (hl : ∀ c ∈ l, c ≠ 0) (hn : l.length < n)
    (hbuf : ∀ j, j < l.length → buf (i + j) = l.getD j 0)
    (hend : buf (i + l.length) = 0) : scan buf n i = l := by
  induction l generalizing n i with
  | nil =>
    obtain ⟨m, rfl⟩ : ∃ m, n = m + 1 := ⟨n - 1, by simp at hn; omega⟩
    unfold scan
    rw [if_pos (by simpa using hend)]
  | cons a l ih =>
    obtain ⟨m, rfl⟩ : ∃ m, n = m + 1 := ⟨n - 1, by simp at hn; omega⟩
    have h0 : buf i = a := by simpa using hbuf 0 (by simp)
    have ha : a ≠ 0 := hl a (List.mem_cons_self a l)
    unfold scan
    rw [h0, if_neg ha]
    congr 1
    apply ih
    · exact fun c hc => hl c (List.mem_cons_of_mem a hc)
    · simp at hn
      omega
    · intro j hj
      have := hbuf (j + 1) (by simp; omega)
      rw [show i + 1 + j = i + (j + 1) by omega, this]
      simp
    · rw [show i + 1 + l.length = i + (a :: l).length by simp; omega]
      exact hend

theorem getD_take_of_lt (l : List Int) (k j : Nat) (h : j < k) :
    (l.take k).getD j 0 = l.getD j 0 := by
  simp [List.getD_eq_getElem?_getD, List.getElem?_take, h]

/-- Copying `k` bytes from the memory of a C string into an element and storing
the terminator at offset `k` leaves the first `k` characters of the string. -/
theorem scan_store_memcpy (SIZE k : Nat) (buf : Nat → Int) (str : List Int)
    (rest : Nat → Int) (hk : k < SIZE) (hstr : ∀ c ∈ str, c ≠ 0) :
    scan (store_text (memcpy_text buf (cmem str rest) k) k 0) SIZE 0 = str.take k := by
  apply scan_eq
  · exact fun c hc => hstr c (List.mem_of_mem_take hc)
  · rw [List.length_take]
    omega
  · intro j hj
    rw [List.length_take] at hj
    rw [getD_take_of_lt str k j (by omega)]
    unfold store_text memcpy_text cmem
    rw [Nat.zero_add, if_neg (by omega), if_pos (by omega), if_pos (by omega)]
  · rw [List.length_take, Nat.zero_add]
    unfold store_text memcpy_text cmem
    by_cases h : k ≤ str.length
    · rw [if_pos (by omega)]
    · rw [if_neg (by omega), if_pos (by omega), if_neg (by omega), if_pos (by omega)]

theorem AD_MIN_eq (a b : Nat) : AD_MIN a b = min a b := by
  unfold AD_MIN
  split <;> omega

/-- C15 (bounded assignment).  For every capacity `SIZE >= 1`, every destination
element and every C string `str` (whatever lies behind its terminator), after
`ad_textElementAssign` the element holds the first `min (strlen str) (SIZE - 1)`
characters of `str` and is terminated inside its array; after
`ad_textElementAssignWithLength` with `length` it holds the first
`min length (SIZE - 1)` characters and is terminated at that offset. -/
theorem C15_assign_truncates_and_terminates (SIZE : Nat) (el : ad_TextElement)
    (str : List Int) (rest : Nat → Int) (length : Nat)
    (hS : 1 ≤ SIZE) (hstr : ∀ c ∈ str, c ≠ 0) :
    ((ad_textElementAssign SIZE el (cmem str rest)).str SIZE =
        str.take (min str.length (SIZE - 1)) ∧
      (ad_textElementAssign SIZE el (cmem str rest)).text (SIZE - 1) = 0) ∧
    ((ad_textElementAssignWithLength SIZE el (cmem str rest) length).str SIZE =
        str.take (min length (SIZE - 1)) ∧
      (ad_textElementAssignWithLength SIZE el (cmem str rest) length).text
        (min length (SIZE - 1)) = 0) := by
  refine ⟨⟨?_, ?_⟩, ⟨?_, ?_⟩⟩
  · show scan (store_text (memcpy_text el.text (cmem str rest) (SIZE - 1)) (SIZE - 1) 0)
      SIZE 0 = _
    rw [scan_store_memcpy SIZE (SIZE - 1) el.text str rest (by omega) hstr]
    by_cases h : str.length ≤ SIZE - 1
    · rw [Nat.min_eq_left h, List.take_of_length_le h, List.take_of_length_le (le_refl _)]
    · rw [Nat.min_eq_right (by omega)]
  · show store_text (memcpy_text el.text (cmem str rest) (SIZE - 1)) (SIZE - 1) 0
      (SIZE - 1) = 0
    unfold store_text
    rw [if_pos rfl]
  · show scan (store_text (memcpy_text el.text (cmem str rest) (AD_MIN (SIZE - 1) length))
      (AD_MIN (SIZE - 1) length) 0) SIZE 0 = _
    rw [AD_MIN_eq, scan_store_memcpy SIZE _ el.text str rest (by omega) hstr,
      Nat.min_comm]
  · show store_text (memcpy_text el.text (cmem str rest) (AD_MIN (SIZE - 1) length))
      (AD_MIN (SIZE - 1) length) 0 (min length (SIZE - 1)) = 0
    rw [AD_MIN_eq, Nat.min_comm]
    unfold store_text
    rw [if_pos rfl]

/-- C15 with a capacity of 4: "Hello" is cut to "Hel". -/
theorem C15_assign_truncates_and_terminates_witness :
    1 ≤ 4 ∧ (∀ c ∈ [72, 101, 108, 108, 111], c ≠ (0 : Int)) ∧
    (((ad_textElementAssign 4 (textElementOf []) (cmem [72, 101, 108, 108, 111]
          (fun _ => 7))).str 4 =
        [72, 101, 108, 108, 111].take (min [72, 101, 108, 108, 111].length (4 - 1)) ∧
      (ad_textElementAssign 4 (textElementOf []) (cmem [72, 101, 108, 108, 111]
          (fun _ => 7))).text (4 - 1) = 0) ∧
    ((ad_textElementAssignWithLength 4 (textElementOf []) (cmem [72, 101, 108, 108, 111]
          (fun _ => 7)) 2).str 4 =
        [72, 101, 108, 108, 111].take (min 2 (4 - 1)) ∧
      (ad_textElementAssignWithLength 4 (textElementOf []) (cmem [72, 101, 108, 108, 111]
          (fun _ => 7)) 2).text (min 2 (4 - 1)) = 0)) :=
  ⟨by decide, by decide,
   C15_assign_truncates_and_terminates 4 (textElementOf []) [72, 101, 108, 108, 111]
     (fun _ => 7) 2 (by decide) (by decide)⟩

/-- C16 (growing a sequence).  For every block of `n` text elements and every
`newCount > n`, a resize whose `realloc` succeeds returns a block of `newCount`
elements whose entries at the indices `0 .. n - 1` are unchanged and whose entry
at index `newCount - 1` is the empty string; a resize whose `realloc` fails
returns the null pointer. -/
theorem C16_resize_keeps_entries_and_empties_last (SIZE : Nat) (ptr : TextBlock)
    (newCount : Nat) (fresh : Nat → ad_TextElement) (h : ptr.count < newCount) :
    (∃ r, ad_textElementArrayResize ptr newCount true fresh = some r ∧
      r.count = newCount ∧
      (∀ i, i < ptr.count → r.elems i = ptr.elems i) ∧
      (r.elems (newCount - 1)).str SIZE = []) ∧
    ad_textElementArrayResize ptr newCount false fresh = none := by
  refine ⟨⟨_, rfl, rfl, fun i hi => ?_, ?_⟩, rfl⟩
  · show (if i = newCount - 1 then _ else (realloc ptr newCount fresh).elems i) = _
    rw [if_neg (by omega)]
    unfold realloc
    dsimp only
    rw [if_pos ⟨hi, by omega⟩]
  · show scan (if newCount - 1 = newCount - 1 then
        ({ text := store_text ((realloc ptr newCount fresh).elems (newCount - 1)).text 0 0 }
          : ad_TextElement)
      else (realloc ptr newCount fresh).elems (newCount - 1)).text SIZE 0 = []
    rw [if_pos rfl]
    cases SIZE with
    | zero => rfl
    | succ n =>
      unfold scan store_text
      rw [if_pos (if_pos rfl)]

/-- C16 for a block of two elements grown to three. -/
theorem C16_resize_keeps_entries_and_empties_last_witness :
    (2 : Nat) < 3 ∧
    ((∃ r, ad_textElementArrayResize
        { count := 2, elems := fun i => textElementOf [65 + (i : Int)] } 3 true
        (fun _ => textElementOf [63, 63]) = some r ∧
      r.count = 3 ∧
      (∀ i, i < 2 → r.elems i = textElementOf [65 + (i : Int)]) ∧
      (r.elems (3 - 1)).str 8 = []) ∧
    ad_textElementArrayResize
        { count := 2, elems := fun i => textElementOf [65 + (i : Int)] } 3 false
        (fun _ => textElementOf [63, 63]) = none) :=
  ⟨by decide,
   C16_resize_keeps_entries_and_empties_last 8
     { count := 2, elems := fun i => textElementOf [65 + (i : Int)] } 3
     (fun _ => textElementOf [63, 63]) (by decide)⟩

/-- The running maximum of a `for` loop: the result bounds the start value and
every visited value, and it is the start value or one of the visited values. -/
theorem foldl_max_spec (f : Nat → Nat) (l : List Nat) (a : Nat) :
    a ≤ l.foldl (fun max i => if f i > max then f i else max) a ∧
    (∀ i ∈ l, f i ≤ l.foldl (fun max i => if f i > max then f i else max) a) ∧
    (l.foldl (fun max i => if f i > max then f i else max) a = a ∨
      ∃ i ∈ l, f i = l.foldl (fun max i => if f i > max then f i else max) a) := by
  induction l generalizing a with
  | nil => exact ⟨le_refl _, fun i hi => absurd hi (List.not_mem_nil i), Or.inl rfl⟩
  | cons b l ih =>
    rw [List.foldl_cons]
    obtain ⟨h1, h2, h3⟩ := ih (if f b > a then f b else a)
    have hstep : a ≤ (if f b > a then f b else a) ∧ f b ≤ (if f b > a then f b else a) := by
      split <;> omega
    refine ⟨?_, ?_, ?_⟩
    · exact le_trans hstep.1 h1
    · intro i hi
      rcases List.mem_cons.mp hi with rfl | hi
      · exact le_trans hstep.2 h1
      · exact h2 i hi
    · rcases h3 with h3 | ⟨i, hi, h3⟩
      · by_cases hb : f b > a
        · rw [if_pos hb] at h3 ⊢
          exact Or.inr ⟨b, List.mem_cons_self b l, h3.symm⟩
        · rw [if_neg hb] at h3 ⊢
          exact Or.inl h3
      · exact Or.inr ⟨i, List.mem_cons_of_mem b hi, h3⟩

/-- C17 (longest length).  `ad_textElementArrayGetLongestLength` returns the
maximum string length over the first `items` elements: the result is at least
the length of each of them, it is the length of one of them when `items > 0`,
and it is 0 when `items = 0` or when the sequence is the null pointer. -/
theorem C17_longest_length_is_maximum (SIZE items : Nat) (els : Nat → ad_TextElement) :
    (∀ i, i < items →
      (els i).strlen SIZE ≤ ad_textElementArrayGetLongestLength SIZE items (some els)) ∧
    (0 < items → ∃ i, i < items ∧
      (els i).strlen SIZE = ad_textElementArrayGetLongestLength SIZE items (some els)) ∧
    (items = 0 → ad_textElementArrayGetLongestLength SIZE items (some els) = 0) ∧
    ad_textElementArrayGetLongestLength SIZE items none = 0 := by
  obtain ⟨_, h2, h3⟩ := foldl_max_spec (fun i => (els i).strlen SIZE) (List.range items) 0
  refine ⟨fun i hi => h2 i (List.mem_range.mpr hi), fun hpos => ?_, fun h0 => ?_, rfl⟩
  · rcases h3 with h3 | ⟨i, hi, h3⟩
    · refine ⟨0, hpos, ?_⟩
      have := h2 0 (List.mem_range.mpr hpos)
      show (els 0).strlen SIZE = List.foldl _ 0 (List.range items)
      rw [h3] at this ⊢
      omega
    · exact ⟨i, List.mem_range.mp hi, h3⟩
  · subst h0
    rfl

/-! ## Splitting a text into lines -/

theorem strchr_some (t : List Int) (k : Nat) (h : strchr t 10 = some k) :
    k < t.length ∧ t.splitOn 10 = t.take k :: (t.drop (k + 1)).splitOn 10 ∧
      (10 : Int) ∉ t.take k := by
  induction t generalizing k with
  | nil => cases h
  | cons a t ih =>
    unfold strchr at h
    by_cases ha : a = 10
    · rw [if_pos ha] at h
      cases h
      subst ha
      refine ⟨by simp, ?_, by simp⟩
      unfold List.splitOn
      rw [List.splitOnP_cons]
      simp
    · rw [if_neg ha] at h
      cases hk : strchr t 10 with
      | none =>
        rw [hk] at h
        cases h
      | some j =>
        rw [hk] at h
        cases h
        obtain ⟨h1, h2, h3⟩ := ih j hk
        refine ⟨by simp; omega, ?_, ?_⟩
        · have hs : (a :: t).splitOn 10 = List.modifyHead (List.cons a) (t.splitOn 10) := by
            unfold List.splitOn
            rw [List.splitOnP_cons]
            simp [ha]
          rw [hs, h2]
          simp
        · simp only [List.take_succ_cons, List.mem_cons, not_or]
          exact ⟨fun h => ha h.symm, h3⟩

theorem strchr_none (t : List Int) (h : strchr t 10 = none) :
    t.splitOn 10 = [t] ∧ (10 : Int) ∉ t := by
  induction t with
  | nil => exact ⟨rfl, by simp⟩
  | cons a t ih =>
    unfold strchr at h
    by_cases ha : a = 10
    · rw [if_pos ha] at h
      cases h
    · rw [if_neg ha] at h
      cases hk : strchr t 10 with
      | some j =>
        rw [hk] at h
        cases h
      | none =>
        obtain ⟨h1, h2⟩ := ih hk
        refine ⟨?_, ?_⟩
        · have hs : (a :: t).splitOn 10 = List.modifyHead (List.cons a) (t.splitOn 10) := by
            unfold List.splitOn
            rw [List.splitOnP_cons]
            simp [ha]
          rw [hs, h1]
          simp
        · simp only [List.mem_cons, not_or]
          exact ⟨fun h => ha h.symm, h2⟩

theorem lineLength_le (t : List Int) : lineLength t ≤ t.length := by
  unfold lineLength
  cases h : strchr t 10 with
  | none => exact le_refl _
  | some k => exact le_of_lt (strchr_some t k h).1

theorem lineLength_no_newline (t : List Int) : (10 : Int) ∉ t.take (lineLength t) := by
  unfold lineLength
  cases h : strchr t 10 with
  | none =>
    rw [List.take_of_length_le (le_refl _)]
    exact (strchr_none t h).2
  | some k => exact (strchr_some t k h).2.2

theorem specPieces_nil : specPieces [] = [] := by
  decide

/-- The lines of a non-empty text: its first line, then the lines of what follows
the line end. -/
theorem specPieces_cons (t : List Int) (ht : t ≠ []) :
    specPieces t = t.take (lineLength t) :: specPieces (t.drop (lineLength t + 1)) := by
  have hdrop : ∀ (x : List Int) (ps : List (List Int)), ps ≠ [] →
      (if (x :: ps).getLast? = some [] then (x :: ps).dropLast else x :: ps) =
        x :: (if ps.getLast? = some [] then ps.dropLast else ps) := by
    intro x ps hps
    obtain ⟨p, ps, rfl⟩ := List.exists_cons_of_ne_nil hps
    rw [List.getLast?_cons_cons, List.dropLast_cons₂]
    split <;> rfl
  unfold lineLength
  cases h : strchr t 10 with
  | none =>
    have h1 := (strchr_none t h).1
    dsimp only
    rw [List.take_of_length_le (le_refl _), List.drop_of_length_le (by omega), specPieces_nil]
    unfold specPieces
    rw [h1]
    have : [t].getLast? ≠ some [] := by
      simp only [List.getLast?_singleton, ne_eq, Option.some.injEq]
      exact ht
    rw [if_neg this]
  | some k =>
    have h1 := (strchr_some t k h).2.1
    dsimp only
    unfold specPieces
    rw [h1]
    exact hdrop _ _ (List.splitOnP_ne_nil _ _)

theorem take_getLast_dropLast (cur : List Int) (k : Nat) (hk : 0 < k) (hle : k ≤ cur.length) :
    (cur.take k).getLast? = some (cur.getD (k - 1) 0) ∧
      (cur.take k).dropLast = cur.take (k - 1) := by
  constructor
  · rw [List.getLast?_eq_getElem?, List.length_take, Nat.min_eq_left hle,
      List.getElem?_take_of_lt (by omega), List.getD_eq_getElem?_getD,
      List.getElem?_eq_getElem (by omega)]
    rfl
  · rw [List.dropLast_eq_take, List.length_take, Nat.min_eq_left hle, List.take_take,
      Nat.min_eq_left (by omega)]

/-- The element filled for one line: after the bounded assignment of the `k`
characters at the start of `cur` and the trimming of a trailing carriage return
it holds those characters with one trailing carriage return removed, provided
the line is shorter than the capacity. -/
theorem line_element (SIZE k : Nat) (el : ad_TextElement) (cur : List Int)
    (rest : Nat → Int) (hcur : ∀ c ∈ cur, c ≠ 0) (hle : k ≤ cur.length) (hk : k < SIZE) :
    (if k > 0 ∧ cmem cur rest (k - 1) = 13 then
        ({ text := store_text
            (ad_textElementAssignWithLength SIZE el (cmem cur rest) k).text (k - 1) 0 }
          : ad_TextElement)
      else ad_textElementAssignWithLength SIZE el (cmem cur rest) k).str SIZE =
      stripCR (cur.take k) := by
  have hmin : AD_MIN (SIZE - 1) k = k := by
    rw [AD_MIN_eq]
    omega
  have hassign : (ad_textElementAssignWithLength SIZE el (cmem cur rest) k).text =
      store_text (memcpy_text el.text (cmem cur rest) k) k 0 := by
    unfold ad_textElementAssignWithLength
    dsimp only
    rw [hmin]
  by_cases hz : k = 0
  · subst hz
    rw [if_neg (by omega)]
    show scan (ad_textElementAssignWithLength SIZE el (cmem cur rest) 0).text SIZE 0 = _
    rw [hassign, scan_store_memcpy SIZE 0 el.text cur rest hk hcur]
    rfl
  · obtain ⟨hlast, hdl⟩ := take_getLast_dropLast cur k (by omega) hle
    have hread : cmem cur rest (k - 1) = cur.getD (k - 1) 0 := by
      unfold cmem
      rw [if_pos (by omega)]
    by_cases hcr : cur.getD (k - 1) 0 = 13
    · rw [if_pos ⟨by omega, by rw [hread]; exact hcr⟩]
      unfold stripCR
      rw [hlast, hcr, if_pos rfl, hdl]
      show scan (store_text (ad_textElementAssignWithLength SIZE el (cmem cur rest) k).text
        (k - 1) 0) SIZE 0 = _
      rw [hassign]
      apply scan_eq
      · exact fun c hc => hcur c (List.mem_of_mem_take hc)
      · rw [List.length_take]
        omega
      · intro j hj
        rw [List.length_take] at hj
        rw [getD_take_of_lt cur (k - 1) j (by omega)]
        unfold store_text memcpy_text cmem
        rw [Nat.zero_add, if_neg (by omega), if_neg (by omega), if_pos (by omega),
          if_pos (by omega)]
      · rw [List.length_take, Nat.zero_add, Nat.min_eq_left (by omega)]
        unfold store_text
        rw [if_pos rfl]
    · rw [if_neg (by rw [hread]; exact fun h => hcr h.2)]
      unfold stripCR
      rw [hlast, if_neg (by simpa using hcr)]
      show scan (ad_textElementAssignWithLength SIZE el (cmem cur rest) k).text SIZE 0 = _
      rw [hassign, scan_store_memcpy SIZE k el.text cur rest hk hcur]

/-- A resize whose `realloc` succeeds keeps the elements that fit. -/
theorem resize_keeps (ptr : TextBlock) (newCount : Nat) (fresh : Nat → ad_TextElement) :
    ∃ r, ad_textElementArrayResize ptr newCount true fresh = some r ∧
      r.count = newCount ∧
      ∀ i, i < ptr.count → i + 1 < newCount → r.elems i = ptr.elems i := by
  refine ⟨_, rfl, rfl, fun i hi hn => ?_⟩
  show (if i = newCount - 1 then _ else (realloc ptr newCount fresh).elems i) = _
  rw [if_neg (by omega)]
  unfold realloc
  dsimp only
  rw [if_pos ⟨hi, by omega⟩]

/-- One round of the loop of `ad_textElementArrayFromString` on a block that was
resized to `lineCount + 1` elements: the strings of the first `lineCount`
elements stay, the new last one is the line with its carriage return trimmed. -/
theorem round_strings (SIZE lineCount : Nat) (ret ret1 : TextBlock) (cur : List Int)
    (rest : Nat → Int) (hcur : ∀ c ∈ cur, c ≠ 0) (hk : lineLength cur < SIZE)
    (hcount : ret1.count = lineCount + 1)
    (hkeep : ∀ i, i < lineCount → ret1.elems i = ret.elems i) :
    (if lineLength cur > 0 ∧ cmem cur rest (lineLength cur - 1) = 13 then
        (ret1.update (lineCount + 1 - 1) fun el =>
          ad_textElementAssignWithLength SIZE el (cmem cur rest) (lineLength cur)).update
          (lineCount + 1 - 1) fun el =>
            { text := store_text el.text (lineLength cur - 1) 0 }
      else ret1.update (lineCount + 1 - 1) fun el =>
        ad_textElementAssignWithLength SIZE el (cmem cur rest) (lineLength cur)).count =
      lineCount + 1 ∧
    (if lineLength cur > 0 ∧ cmem cur rest (lineLength cur - 1) = 13 then
        (ret1.update (lineCount + 1 - 1) fun el =>
          ad_textElementAssignWithLength SIZE el (cmem cur rest) (lineLength cur)).update
          (lineCount + 1 - 1) fun el =>
            { text := store_text el.text (lineLength cur - 1) 0 }
      else ret1.update (lineCount + 1 - 1) fun el =>
        ad_textElementAssignWithLength SIZE el (cmem cur rest) (lineLength cur)).strings SIZE
        (lineCount + 1) =
      ret.strings SIZE lineCount ++ [stripCR (cur.take (lineLength cur))] := by
  have hle := lineLength_le cur
  have hel := line_element SIZE (lineLength cur) (ret1.elems lineCount) cur rest hcur hle hk
  rw [Nat.add_sub_cancel]
  by_cases hc : lineLength cur > 0 ∧ cmem cur rest (lineLength cur - 1) = 13
  · rw [if_pos hc] at hel ⊢
    refine ⟨hcount, ?_⟩
    unfold TextBlock.strings
    rw [List.range_succ, List.map_append, List.map_singleton]
    congr 1
    · apply List.map_congr_left
      intro i hi
      have hi2 := List.mem_range.mp hi
      show (if i = lineCount then _ else
        (if i = lineCount then _ else ret1.elems i)).str SIZE = _
      rw [if_neg (by omega), if_neg (by omega), hkeep i hi2]
    · show [(if lineCount = lineCount then _ else _ : ad_TextElement).str SIZE] = _
      rw [if_pos rfl]
      show [ad_TextElement.str SIZE
        { text := store_text (if lineCount = lineCount then
            ad_textElementAssignWithLength SIZE (ret1.elems lineCount) (cmem cur rest)
              (lineLength cur)
          else ret1.elems lineCount).text (lineLength cur - 1) 0 }] = _
      rw [if_pos rfl, hel]
  · rw [if_neg hc] at hel ⊢
    refine ⟨hcount, ?_⟩
    unfold TextBlock.strings
    rw [List.range_succ, List.map_append, List.map_singleton]
    congr 1
    · apply List.map_congr_left
      intro i hi
      have hi2 := List.mem_range.mp hi
      show (if i = lineCount then _ else ret1.elems i).str SIZE = _
      rw [if_neg (by omega), hkeep i hi2]
    · show [(if lineCount = lineCount then _ else _ : ad_TextElement).str SIZE] = _
      rw [if_pos rfl, hel]

/-- The loop of `ad_textElementArrayFromString`, when every `realloc` succeeds and
every line that is left is shorter than the capacity: it returns, and the
strings of the block are those it had, followed by the lines of the text from
`curPos` on. -/
theorem fromString_loop_spec (SIZE : Nat) (str : List Int) (rest : Nat → Int)
    (allocated : Nat → Bool) (fresh : Nat → ad_TextElement)
    (hstr : ∀ c ∈ str, c ≠ 0) (halloc : ∀ n, allocated n = true)
    (rounds curPos : Nat) (ret : TextBlock) (lineCount : Nat)
    (hrounds : str.length ≤ rounds + curPos) (hcount : lineCount ≤ ret.count)
    (hshort : ∀ l ∈ specPieces (str.drop curPos), l.length < SIZE) :
    ∃ ret' n', ad_textElementArrayFromString_loop SIZE str rest allocated fresh rounds
        curPos ret lineCount = some (ret', n') ∧
      ret'.strings SIZE n' = ret.strings SIZE lineCount ++ specLines (str.drop curPos) := by
  induction rounds generalizing curPos ret lineCount with
  | zero =>
    refine ⟨ret, lineCount, rfl, ?_⟩
    rw [List.drop_of_length_le (by omega)]
    unfold specLines
    rw [specPieces_nil, List.map_nil, List.append_nil]
  | succ rounds ih =>
    unfold ad_textElementArrayFromString_loop
    by_cases hpos : curPos < str.length
    · rw [if_pos hpos]
      have hne : str.drop curPos ≠ [] := by
        intro h
        have := congrArg List.length h
        rw [List.length_drop] at this
        simp at this
        omega
      have hpieces := specPieces_cons (str.drop curPos) hne
      have hcur : ∀ c ∈ str.drop curPos, c ≠ 0 := fun c hc => hstr c (List.mem_of_mem_drop hc)
      have hk : lineLength (str.drop curPos) < SIZE := by
        have := hshort (List.take (lineLength (str.drop curPos)) (str.drop curPos))
          (by rw [hpieces]; exact List.mem_cons_self _ _)
        rw [List.length_take, Nat.min_eq_left (lineLength_le _)] at this
        exact this
      have hdd : (str.drop curPos).drop (lineLength (str.drop curPos) + 1) =
          str.drop (curPos + lineLength (str.drop curPos) + 1) := by
        rw [List.drop_drop]
        congr 1
      obtain ⟨ret1, hr1, hc1, hkeep⟩ := resize_keeps ret (lineCount + 1) fresh
      obtain ⟨h3c, h3s⟩ := round_strings SIZE lineCount ret ret1 (str.drop curPos) rest hcur hk
        hc1 (fun i hi => hkeep i (by omega) (by omega))
      obtain ⟨ret', n', hl, hs⟩ := ih (curPos + lineLength (str.drop curPos) + 1) _
        (lineCount + 1) (by omega) (le_of_eq h3c.symm)
        (by
          intro l hl
          apply hshort
          rw [hpieces, hdd]
          exact List.mem_cons_of_mem _ hl)
      refine ⟨ret', n', ?_, ?_⟩
      · dsimp only
        rw [halloc, hr1]
        exact hl
      · rw [hs, h3s, List.append_assoc]
        congr 1
        unfold specLines
        rw [hpieces, hdd]
        rfl
    · rw [if_neg hpos]
      refine ⟨ret, lineCount, rfl, ?_⟩
      rw [List.drop_of_length_le (by omega)]
      unfold specLines
      rw [specPieces_nil, List.map_nil, List.append_nil]

theorem stripCR_subset (l : List Int) (c : Int) (h : c ∈ stripCR l) : c ∈ l := by
  unfold stripCR at h
  split at h
  · exact List.mem_of_mem_dropLast h
  · exact h

/-- No line of a text contains a line feed. -/
theorem specPieces_no_newline (n : Nat) (text : List Int) (hn : text.length ≤ n) :
    ∀ l ∈ specPieces text, (10 : Int) ∉ l := by
  induction n generalizing text with
  | zero =>
    have : text = [] := List.length_eq_zero.mp (by omega)
    subst this
    rw [specPieces_nil]
    exact fun l hl => absurd hl (List.not_mem_nil l)
  | succ n ih =>
    by_cases ht : text = []
    · subst ht
      rw [specPieces_nil]
      exact fun l hl => absurd hl (List.not_mem_nil l)
    · rw [specPieces_cons text ht]
      intro l hl
      rcases List.mem_cons.mp hl with rfl | hl
      · exact lineLength_no_newline text
      · refine ih _ ?_ l hl
        rw [List.length_drop]
        have : 0 < text.length := List.length_pos.mpr ht
        omega

/-- C18 (line splitting).  For every capacity, every text (a C string) whose lines
are each shorter than the capacity, and allocations that all succeed,
`ad_textElementArrayFromString` returns a block and a line count such that the
strings of the first `lineCount` elements are, in order, the lines of the text
(the pieces between `'\n'` characters, a final `'\n'` not starting an extra line,
the empty text having none), each with one trailing `'\r'` removed; `lineCount`
is the number of these lines, and no element contains `'\n'`. -/
theorem C18_fromString_splits_lines (SIZE : Nat) (text : List Int) (rest : Nat → Int)
    (allocated : Nat → Bool) (fresh : Nat → ad_TextElement)
    (htext : ∀ c ∈ text, c ≠ 0) (halloc : ∀ n, allocated n = true)
    (hshort : ∀ l ∈ specPieces text, l.length < SIZE) :
    ∃ ret lineCount,
      ad_textElementArrayFromString SIZE (some text) rest true allocated fresh =
        some (ret, lineCount) ∧
      ret.strings SIZE lineCount = specLines text ∧
      lineCount = (specLines text).length ∧
      ∀ l ∈ ret.strings SIZE lineCount, (10 : Int) ∉ l := by
  obtain ⟨ret, n, hl, hs⟩ := fromString_loop_spec SIZE text rest allocated fresh htext halloc
    text.length 0
    { count := 1, elems := fun i => if i = 0 then { text := fun _ => 0 } else fresh i } 0
    (by omega) (Nat.zero_le _) (by rw [List.drop_zero]; exact hshort)
  rw [List.drop_zero] at hs
  have hs2 : ret.strings SIZE n = specLines text := by
    rw [hs]
    rfl
  refine ⟨ret, n, hl, hs2, ?_, ?_⟩
  · have := congrArg List.length hs2
    unfold TextBlock.strings at this
    rw [List.length_map, List.length_range] at this
    exact this
  · rw [hs2]
    intro l hl2 h10
    unfold specLines at hl2
    obtain ⟨p, hp, rfl⟩ := List.mem_map.mp hl2
    exact specPieces_no_newline text.length text (le_refl _) p hp (stripCR_subset p 10 h10)

/-- C18 for the text "a\r\nb\nc" and a capacity of 8: the lines are "a", "b", "c". -/
theorem C18_fromString_splits_lines_witness :
    (∀ c ∈ [97, 13, 10, 98, 10, 99], c ≠ (0 : Int)) ∧
    (∀ n, (fun _ : Nat => true) n = true) ∧
    (∀ l ∈ specPieces [97, 13, 10, 98, 10, 99], l.length < 8) ∧
    specLines [97, 13, 10, 98, 10, 99] = [[97], [98], [99]] ∧
    ∃ ret lineCount,
      ad_textElementArrayFromString 8 (some [97, 13, 10, 98, 10, 99]) (fun _ => 0) true
        (fun _ => true) (fun _ => textElementOf [63]) = some (ret, lineCount) ∧
      ret.strings 8 lineCount = specLines [97, 13, 10, 98, 10, 99] ∧
      lineCount = (specLines [97, 13, 10, 98, 10, 99]).length ∧
      ∀ l ∈ ret.strings 8 lineCount, (10 : Int) ∉ l :=
  ⟨by decide, fun _ => rfl, by decide, by decide,
   C18_fromString_splits_lines 8 [97, 13, 10, 98, 10, 99] (fun _ => 0) (fun _ => true)
     (fun _ => textElementOf [63]) (by decide) (fun _ => rfl) (by decide)⟩

/-! ## Painting inside a row -/

theorem ad_advanceCursor_in_row (s : ad_ScreenState) (hw : s.width < 65536)
    (hx : s.x + 1 ≤ s.width) : ad_advanceCursor s = { s with x := s.x + 1 } := by
  unfold ad_advanceCursor
  dsimp only
  rw [Nat.mod_eq_of_lt (by omega), if_neg (by omega)]

theorem iterate_advance_in_row (n : Nat) (s : ad_ScreenState) (hw : s.width < 65536)
    (hx : s.x + n ≤ s.width) :
    (ad_advanceCursor^[n] s).x = s.x + n ∧ (ad_advanceCursor^[n] s).y = s.y := by
  induction n generalizing s with
  | zero => exact ⟨rfl, rfl⟩
  | succ n ih =>
    rw [Function.iterate_succ_apply, ad_advanceCursor_in_row s hw (by omega)]
    obtain ⟨h1, h2⟩ := ih { s with x := s.x + 1 } hw (by show s.x + 1 + n ≤ s.width; omega)
    rw [h1, h2]
    exact ⟨by show s.x + 1 + n = s.x + (n + 1); omega, rfl⟩

theorem iterate_advance_fields (k : Nat) (s : ad_ScreenState) :
    (ad_advanceCursor^[k] s).color = s.color ∧ (ad_advanceCursor^[k] s).width = s.width ∧
    (ad_advanceCursor^[k] s).height = s.height ∧
    (ad_advanceCursor^[k] s).dataLimit = s.dataLimit := by
  rw [iterate_advance_eq]
  exact ⟨rfl, rfl, rfl, rfl⟩

theorem row_fits (s : ad_ScreenState) (n : Nat) (h : RowOK s n) :
    ad_drawPtr s + n ≤ s.dataLimit := by
  obtain ⟨h1, _, h3, h4⟩ := h
  have : (s.y + 1) * s.width ≤ s.height * s.width := Nat.mul_le_mul_right _ h3
  rw [Nat.add_mul, Nat.one_mul, Nat.mul_comm s.height] at this
  unfold ad_drawPtr
  omega

theorem writeCells_nil (mem : Nat → ad_Char) (p : Nat) (color : ad_Color) :
    writeCells mem p color [] = mem := by
  funext i
  unfold writeCells
  rw [if_neg]
  simp

theorem writeCells_append (mem : Nat → ad_Char) (p : Nat) (color : ad_Color)
    (l1 l2 : List Int) :
    writeCells (writeCells mem p color l1) (p + l1.length) color l2 =
      writeCells mem p color (l1 ++ l2) := by
  funext i
  unfold writeCells
  rw [List.length_append]
  by_cases h2 : p + l1.length ≤ i ∧ i < p + l1.length + l2.length
  · rw [if_pos h2, if_pos (by omega),
      List.getD_append_right l1 l2 0 (i - p) (by omega)]
    congr 4
    omega
  · rw [if_neg h2]
    by_cases h1 : p ≤ i ∧ i < p + l1.length
    · rw [if_pos h1, if_pos (by omega), List.getD_append l1 l2 0 (i - p) (by omega)]
    · rw [if_neg h1, if_neg (by omega)]

theorem fillCells_eq_writeCells (mem : Nat → ad_Char) (p n : Nat) (s : ad_ScreenState)
    (c : Int) :
    fillCells mem p n (glyphCell s c) = writeCells mem p s.color (List.replicate n c) := by
  funext i
  unfold fillCells writeCells glyphCell
  rw [List.length_replicate]
  by_cases h : p ≤ i ∧ i < p + n
  · rw [if_pos h, if_pos h, List.getD_eq_getElem?_getD,
      List.getElem?_eq_getElem (by rw [List.length_replicate]; omega), List.getElem_replicate]
    rfl
  · rw [if_neg h, if_neg h]

theorem Painted.refl_ (s : ad_ScreenState) : Painted s s [] :=
  ⟨(writeCells_nil _ _ _).symm, rfl, rfl, rfl, rfl, rfl, rfl⟩

theorem Painted.append_ {s t u : ad_ScreenState} {l1 l2 : List Int} (h1 : Painted s t l1)
    (h2 : Painted t u l2) : Painted s u (l1 ++ l2) := by
  refine ⟨?_, ?_, h2.y.trans h1.y, h2.color.trans h1.color, h2.width.trans h1.width,
    h2.height.trans h1.height, h2.dataLimit.trans h1.dataLimit⟩
  · have hp : ad_drawPtr t = ad_drawPtr s + l1.length := by
      unfold ad_drawPtr
      rw [h1.x, h1.y, h1.width]
      omega
    rw [h2.data, h1.data, hp, h1.color, writeCells_append]
  · rw [h2.x, h1.x, List.length_append]
    omega

theorem Painted.rowOK {s t : ad_ScreenState} {l : List Int} (h : Painted s t l) (m : Nat)
    (hr : RowOK s (l.length + m)) : RowOK t m := by
  obtain ⟨h1, h2, h3, h4⟩ := hr
  refine ⟨?_, ?_, ?_, ?_⟩
  · rw [h.dataLimit, h.width, h.height]
    exact h1
  · rw [h.width]
    exact h2
  · rw [h.y, h.height]
    exact h3
  · rw [h.x, h.width]
    omega

/-- A run of `n` copies of a printable glyph that fits in the row of the cursor. -/
theorem ad_putChar_painted (s : ad_ScreenState) (c : Int) (n : Nat) (hc : 32 ≤ c)
    (hr : RowOK s n) : ∃ t, ad_putChar s c n = Except.ok t ∧ Painted s t (List.replicate n c) := by
  have hfit := row_fits s n hr
  obtain ⟨_, h2, _, h4⟩ := hr
  have hk : min n (s.dataLimit - ad_drawPtr s) = n := by omega
  refine ⟨_, ad_putChar_ok s c hc n, ?_⟩
  rw [hk]
  obtain ⟨hx, hy⟩ := iterate_advance_in_row n s h2 h4
  obtain ⟨f1, f2, f3, f4⟩ := iterate_advance_fields n s
  refine ⟨fillCells_eq_writeCells _ _ _ _ _, ?_, hy, f1, f2, f3, f4⟩
  rw [List.length_replicate]
  exact hx

/-- A printable string that fits in the row of the cursor. -/
theorem ad_putString_painted (l : List Int) (s : ad_ScreenState)
    (hl : ∀ c ∈ l, (32 : Int) ≤ c) (hr : RowOK s l.length) :
    ∃ t, ad_putString s l = Except.ok t ∧ Painted s t l := by
  induction l generalizing s with
  | nil => exact ⟨s, rfl, Painted.refl_ s⟩
  | cons c l ih =>
    have hr1 : RowOK s 1 := by
      obtain ⟨h1, h2, h3, h4⟩ := hr
      rw [List.length_cons] at h4
      exact ⟨h1, h2, h3, by omega⟩
    obtain ⟨s1, hs1, hp1⟩ := ad_putChar_painted s c 1 (hl c (List.mem_cons_self c l)) hr1
    have hr2 : RowOK s1 l.length := by
      apply hp1.rowOK
      rw [List.length_replicate, Nat.add_comm]
      exact hr
    obtain ⟨t, ht, hp2⟩ := ih s1 (fun d hd => hl d (List.mem_cons_of_mem c hd)) hr2
    refine ⟨t, ?_, hp1.append_ hp2⟩
    unfold ad_putString
    rw [hs1]
    exact ht

theorem size_t_sub_eq (a b : Nat) (hb : b ≤ a) (ha : a < size_t_range) :
    size_t_sub a b = a - b := by
  unfold size_t_sub
  rw [show a + size_t_range - b = a - b + size_t_range by omega, Nat.add_mod_right,
    Nat.mod_eq_of_lt (by omega)]

theorem RowOK.mono {s : ad_ScreenState} {n m : Nat} (h : RowOK s n) (hm : m ≤ n) :
    RowOK s m := by
  obtain ⟨h1, h2, h3, h4⟩ := h
  exact ⟨h1, h2, h3, by omega⟩

/-- The copy loop of `ad_displayStringCropped` for `n` characters that the string
has and that fit in the row of the cursor. -/
theorem cropped_loop_painted (str : List Int) (rest : Nat → Int)
    (hstr : ∀ c ∈ str, (32 : Int) ≤ c) (n p : Nat) (s : ad_ScreenState)
    (hp : p + n ≤ str.length) (hr : RowOK s n) :
    ∃ t, ad_displayStringCropped_loop (cmem str rest) n p s = Except.ok t ∧
      Painted s t ((str.drop p).take n) := by
  induction n generalizing p s with
  | zero => exact ⟨s, rfl, by rw [List.take_zero]; exact Painted.refl_ s⟩
  | succ n ih =>
    have hlt : p < str.length := by omega
    have hread : cmem str rest p = str[p] := by
      unfold cmem
      rw [if_pos hlt, List.getD_eq_getElem?_getD, List.getElem?_eq_getElem hlt]
      rfl
    obtain ⟨s1, hs1, hp1⟩ := ad_putChar_painted s str[p] 1 (hstr _ (List.getElem_mem hlt))
      (hr.mono (by omega))
    have hr2 : RowOK s1 n := by
      apply hp1.rowOK
      rw [List.length_replicate, Nat.add_comm]
      exact hr
    obtain ⟨t, ht, hp2⟩ := ih (p + 1) s1 (by omega) hr2
    refine ⟨t, ?_, ?_⟩
    · unfold ad_displayStringCropped_loop
      rw [hread, hs1]
      exact ht
    · rw [List.drop_eq_getElem_cons hlt, List.take_succ_cons]
      exact hp1.append_ hp2

theorem croppedText_length (text : List Int) (maxWidth : Nat)
    (hfit : text.length ≤ maxWidth ∨ 3 ≤ maxWidth) :
    (croppedText text maxWidth).length = maxWidth := by
  unfold croppedText
  by_cases h : text.length > maxWidth
  · rw [if_pos h, List.length_append, List.length_take]
    simp only [List.length_cons, List.length_nil]
    omega
  · rw [if_neg h, List.length_append, List.length_replicate]
    omega

theorem croppedText_range (text : List Int) (maxWidth : Nat)
    (htext : ∀ c ∈ text, (32 : Int) ≤ c ∧ c < 256) :
    ∀ c ∈ croppedText text maxWidth, (32 : Int) ≤ c ∧ c < 256 := by
  intro c hc
  unfold croppedText at hc
  split at hc
  · rcases List.mem_append.mp hc with h | h
    · exact htext c (List.mem_of_mem_take h)
    · have : c = 46 := by simpa using h
      subst this
      decide
  · rcases List.mem_append.mp hc with h | h
    · exact htext c h
    · have : c = 32 := (List.mem_replicate.mp h).2
      subst this
      decide

/-- A cell written with a character code from 0x20 to 0xFF holds that code. -/
theorem writeCells_apply (mem : Nat → ad_Char) (p : Nat) (color : ad_Color) (l : List Int)
    (hl : ∀ c ∈ l, (32 : Int) ≤ c ∧ c < 256) (i : Nat) :
    writeCells mem p color l i =
      if p ≤ i ∧ i < p + l.length then { color := color, ascii := (l.getD (i - p) 0).toNat }
      else mem i := by
  unfold writeCells
  by_cases h : p ≤ i ∧ i < p + l.length
  · rw [if_pos h, if_pos h]
    have hlt : i - p < l.length := by omega
    have hm : l.getD (i - p) 0 ∈ l := by
      rw [List.getD_eq_getElem?_getD, List.getElem?_eq_getElem hlt]
      exact List.getElem_mem hlt
    obtain ⟨h1, h2⟩ := hl _ hm
    rw [Int.emod_eq_of_lt (by omega) h2]
  · rw [if_neg h, if_neg h]

/-- The state in which `ad_displayStringCropped` and `ad_printCenteredText` start
to paint: the colour and the cursor are set, the buffer is untouched. -/
theorem positioned (s : ad_ScreenState) (x y n bg fg : Nat) (hw : WF s)
    (hx : x + n ≤ s.width) (hy : y < s.height) (hbg : bg < 16) (hfg : fg < 16) :
    RowOK (ad_setCursorPosition (ad_setColor s bg fg) x y) n ∧
    RowOK (ad_setColor (ad_setCursorPosition s x y) bg fg) n ∧
    ad_drawPtr (ad_setCursorPosition (ad_setColor s bg fg) x y) = y * s.width + x ∧
    ad_drawPtr (ad_setColor (ad_setCursorPosition s x y) bg fg) = y * s.width + x ∧
    (ad_setCursorPosition (ad_setColor s bg fg) x y).color = { fg := fg, bg := bg } ∧
    (ad_setColor (ad_setCursorPosition s x y) bg fg).color = { fg := fg, bg := bg } := by
  obtain ⟨_, h2, h3, h4, _⟩ := hw
  have hxm : x % 65536 = x := Nat.mod_eq_of_lt (by omega)
  have hym : y % 65536 = y := Nat.mod_eq_of_lt (by omega)
  have hcol : ({ bg := bg % 16, fg := fg % 16 } : ad_Color) = { fg := fg, bg := bg } := by
    rw [Nat.mod_eq_of_lt hbg, Nat.mod_eq_of_lt hfg]
  refine ⟨⟨h2, h3, ?_, ?_⟩, ⟨h2, h3, ?_, ?_⟩, ?_, ?_, hcol, hcol⟩
  · show y % 65536 < s.height
    rw [hym]
    exact hy
  · show x % 65536 + n ≤ s.width
    rw [hxm]
    exact hx
  · show y % 65536 < s.height
    rw [hym]
    exact hy
  · show x % 65536 + n ≤ s.width
    rw [hxm]
    exact hx
  · show y % 65536 * s.width + x % 65536 = _
    rw [hxm, hym]
  · show y % 65536 * s.width + x % 65536 = _
    rw [hxm, hym]

/-- Inside a row `ad_displayStringCropped` returns and paints the cropped text
from the position it set. -/
theorem displayStringCropped_painted (s : ad_ScreenState) (text : List Int)
    (rest : Nat → Int) (x y maxWidth bg fg : Nat)
    (htext : ∀ c ∈ text, (32 : Int) ≤ c)
    (hfit : text.length ≤ maxWidth ∨ 3 ≤ maxWidth)
    (hsz : maxWidth < size_t_range)
    (hr : RowOK (ad_setCursorPosition (ad_setColor s bg fg) x y) maxWidth) :
    ∃ t, ad_displayStringCropped s text rest x y maxWidth bg fg = Except.ok t ∧
      Painted (ad_setCursorPosition (ad_setColor s bg fg) x y) t
        (croppedText text maxWidth) := by
  unfold ad_displayStringCropped croppedText
  dsimp only
  by_cases h : text.length > maxWidth
  · have h3 : 3 ≤ maxWidth := by omega
    rw [if_pos h, if_pos h, size_t_sub_eq maxWidth 3 h3 hsz]
    obtain ⟨s3, hs3, hp3⟩ := cropped_loop_painted text rest htext (maxWidth - 3) 0 _
      (by omega) (hr.mono (by omega))
    rw [List.drop_zero] at hp3
    have hr3 : RowOK s3 3 := by
      apply hp3.rowOK
      rw [List.length_take, Nat.min_eq_left (by omega), Nat.sub_add_cancel h3]
      exact hr
    obtain ⟨t, ht, hp4⟩ := ad_putString_painted [46, 46, 46] s3 (by decide) hr3
    refine ⟨t, ?_, hp3.append_ hp4⟩
    rw [hs3]
    exact ht
  · rw [if_neg h, if_neg h, size_t_sub_eq maxWidth text.length (by omega) hsz]
    obtain ⟨s3, hs3, hp3⟩ := ad_putString_painted text _ htext (hr.mono (by omega))
    have hr3 : RowOK s3 (maxWidth - text.length) := by
      apply hp3.rowOK
      rw [Nat.add_sub_cancel' (by omega)]
      exact hr
    obtain ⟨t, ht, hp4⟩ := ad_putChar_painted s3 32 (maxWidth - text.length) (by decide) hr3
    refine ⟨t, ?_, hp3.append_ hp4⟩
    rw [hs3]
    exact ht

/-- C19 (cropped display).  In a well-formed state, for every text of character
codes 0x20 .. 0xFF and every `maxWidth` with `strlen text <= maxWidth` or
`maxWidth >= 3`, every position `(x, y)` of the grid with
`x + maxWidth <= width` and every palette colour pair, `ad_displayStringCropped`
returns and leaves in the `maxWidth` cells of row `y` from column `x` on, all in
the colour `(bg, fg)`, the cropped text: the first `maxWidth - 3` characters and
`"..."` when the text is longer than `maxWidth`, else the text and
`maxWidth - strlen text` spaces; the cropped text has exactly `maxWidth`
characters and every other cell is unchanged. -/
theorem C19_displayStringCropped_paints_exactly (s : ad_ScreenState) (text : List Int)
    (rest : Nat → Int) (x y maxWidth bg fg : Nat) (hw : WF s)
    (htext : ∀ c ∈ text, (32 : Int) ≤ c ∧ c < 256)
    (hfit : text.length ≤ maxWidth ∨ 3 ≤ maxWidth)
    (hx : x + maxWidth ≤ s.width) (hy : y < s.height) (hbg : bg < 16) (hfg : fg < 16) :
    ∃ s', ad_displayStringCropped s text rest x y maxWidth bg fg = Except.ok s' ∧
      (croppedText text maxWidth).length = maxWidth ∧
      ∀ i, s'.data i =
        if y * s.width + x ≤ i ∧ i < y * s.width + x + maxWidth then
          { color := { fg := fg, bg := bg }
            ascii := ((croppedText text maxWidth).getD (i - (y * s.width + x)) 0).toNat }
        else s.data i := by
  obtain ⟨hr, _, hp, _, hc, _⟩ := positioned s x y maxWidth bg fg hw hx hy hbg hfg
  have hsz : maxWidth < size_t_range := by
    have := hw.2.2.1
    unfold size_t_range
    omega
  obtain ⟨t, ht, hpt⟩ := displayStringCropped_painted s text rest x y maxWidth bg fg
    (fun c hc => (htext c hc).1) hfit hsz hr
  have hlen := croppedText_length text maxWidth hfit
  refine ⟨t, ht, hlen, fun i => ?_⟩
  rw [hpt.data, hp, hc, writeCells_apply _ _ _ _ (croppedText_range text maxWidth htext), hlen]
  rfl

/-- C19 on an 80 x 25 screen: "HelloWorldExtra" in 10 columns gives "HelloWo...",
and "Hi" in 10 columns gives "Hi" and 8 spaces. -/
theorem C19_displayStringCropped_paints_exactly_witness :
    WF screen80x25 ∧
    (∀ c ∈ [72, 101, 108, 108, 111, 87, 111, 114, 108, 100, 69, 120, 116, 114, 97],
      (32 : Int) ≤ c ∧ c < 256) ∧
    ([72, 101, 108, 108, 111, 87, 111, 114, 108, 100, 69, 120, 116, 114, 97].length ≤ 10 ∨
      3 ≤ 10) ∧
    0 + 10 ≤ screen80x25.width ∧ 0 < screen80x25.height ∧ 1 < 16 ∧ 7 < 16 ∧
    croppedText [72, 101, 108, 108, 111, 87, 111, 114, 108, 100, 69, 120, 116, 114, 97] 10 =
      [72, 101, 108, 108, 111, 87, 111, 46, 46, 46] ∧
    croppedText [72, 105] 10 = [72, 105, 32, 32, 32, 32, 32, 32, 32, 32] ∧
    ∃ s', ad_displayStringCropped screen80x25
        [72, 101, 108, 108, 111, 87, 111, 114, 108, 100, 69, 120, 116, 114, 97]
        (fun _ => 0) 0 0 10 1 7 = Except.ok s' ∧
      (croppedText [72, 101, 108, 108, 111, 87, 111, 114, 108, 100, 69, 120, 116, 114, 97]
        10).length = 10 ∧
      ∀ i, s'.data i =
        if 0 * screen80x25.width + 0 ≤ i ∧ i < 0 * screen80x25.width + 0 + 10 then
          { color := { fg := 7, bg := 1 }
            ascii := ((croppedText
              [72, 101, 108, 108, 111, 87, 111, 114, 108, 100, 69, 120, 116, 114, 97]
              10).getD (i - (0 * screen80x25.width + 0)) 0).toNat }
        else screen80x25.data i :=
  ⟨by unfold WF; decide, by decide, Or.inr (by decide), by decide, by decide, by decide,
   by decide, by decide, by decide,
   C19_displayStringCropped_paints_exactly screen80x25
     [72, 101, 108, 108, 111, 87, 111, 114, 108, 100, 69, 120, 116, 114, 97] (fun _ => 0)
     0 0 10 1 7 (by unfold WF; decide) (by decide) (Or.inr (by decide)) (by decide)
     (by decide) (by decide) (by decide)⟩

theorem centeredText_range (text : List Int) (w : Nat)
    (htext : ∀ c ∈ text, (32 : Int) ≤ c ∧ c < 256) :
    ∀ c ∈ centeredText text w, (32 : Int) ≤ c ∧ c < 256 := by
  intro c hc
  unfold centeredText at hc
  have hsp : ∀ n, c ∈ List.replicate n (32 : Int) → (32 : Int) ≤ c ∧ c < 256 := by
    intro n h
    have : c = 32 := (List.mem_replicate.mp h).2
    subst this
    decide
  rcases List.mem_append.mp hc with h | h
  · rcases List.mem_append.mp h with h | h
    · exact hsp _ h
    · exact htext c h
  · exact hsp _ h

theorem centeredText_length (text : List Int) (w : Nat) (h : text.length < w) :
    (centeredText text w).length = w := by
  unfold centeredText
  rw [List.length_append, List.length_append, List.length_replicate, List.length_replicate]
  omega

theorem ad_putChar_trace (s : ad_ScreenState) (c : Int) (n : Nat) (hc : 32 ≤ c) :
    ∃ t, ad_putChar s c n = Except.ok t ∧ t.hal = s.hal ++ [hal_Call.putChar c n] :=
  ⟨_, ad_putChar_ok s c hc n, rfl⟩

theorem ad_putString_trace (l : List Int) (s : ad_ScreenState)
    (hl : ∀ c ∈ l, (32 : Int) ≤ c) :
    ∃ t, ad_putString s l = Except.ok t ∧
      t.hal = s.hal ++ l.map fun c => hal_Call.putChar c 1 := by
  induction l generalizing s with
  | nil => exact ⟨s, rfl, by rw [List.map_nil, List.append_nil]⟩
  | cons c l ih =>
    obtain ⟨s1, hs1, ht1⟩ := ad_putChar_trace s c 1 (hl c (List.mem_cons_self c l))
    obtain ⟨t, ht, ht2⟩ := ih s1 (fun d hd => hl d (List.mem_cons_of_mem c hd))
    refine ⟨t, ?_, ?_⟩
    · unfold ad_putString
      rw [hs1]
      exact ht
    · rw [ht2, ht1, List.map_cons, List.append_assoc]
      rfl

/-- The copy loop of `ad_displayStringCropped` returns when it stays inside a
printable string. -/
theorem cropped_loop_ok (str : List Int) (rest : Nat → Int)
    (hstr : ∀ c ∈ str, (32 : Int) ≤ c) (n p : Nat) (s : ad_ScreenState)
    (hp : p + n ≤ str.length) :
    ∃ t, ad_displayStringCropped_loop (cmem str rest) n p s = Except.ok t := by
  induction n generalizing p s with
  | zero => exact ⟨s, rfl⟩
  | succ n ih =>
    have hlt : p < str.length := by omega
    have hread : cmem str rest p = str[p] := by
      unfold cmem
      rw [if_pos hlt, List.getD_eq_getElem?_getD, List.getElem?_eq_getElem hlt]
      rfl
    unfold ad_displayStringCropped_loop
    rw [hread, ad_putChar_ok s str[p] (hstr _ (List.getElem_mem hlt)) 1]
    exact ih (p + 1) _ (by omega)

/-- With a printable text and a width that the text fits or that leaves room for
the ellipsis, `ad_displayStringCropped` returns, wherever the cursor is put. -/
theorem displayStringCropped_ok (s : ad_ScreenState) (text : List Int) (rest : Nat → Int)
    (x y maxWidth bg fg : Nat) (htext : ∀ c ∈ text, (32 : Int) ≤ c)
    (hfit : text.length ≤ maxWidth ∨ 3 ≤ maxWidth) (hsz : maxWidth < size_t_range) :
    ∃ t, ad_displayStringCropped s text rest x y maxWidth bg fg = Except.ok t := by
  unfold ad_displayStringCropped
  dsimp only
  by_cases h : text.length > maxWidth
  · rw [if_pos h, size_t_sub_eq maxWidth 3 (by omega) hsz]
    obtain ⟨s3, hs3⟩ := cropped_loop_ok text rest htext (maxWidth - 3) 0
      (ad_setCursorPosition (ad_setColor s bg fg) x y) (by omega)
    rw [hs3]
    exact ad_putString_ok [46, 46, 46] s3 (by decide)
  · rw [if_neg h]
    obtain ⟨s3, hs3⟩ := ad_putString_ok text (ad_setCursorPosition (ad_setColor s bg fg) x y)
      htext
    rw [hs3]
    exact ⟨_, ad_putChar_ok s3 32 (by decide) _⟩

/-- C20 (centred text).  For every text of character codes 0x20 .. 0xFF and every
`uint16_t` width `w`, with `L = floor ((w - len) / 2)` and `R = w - len - L`:
when `strlen text < w`, `ad_printCenteredText` returns after sending to the
driver, wherever the position is, the cursor position, the colour, `L` spaces,
the characters of the text one by one, `R` spaces and a flush; if the `w` cells
from `(x, y)` on lie in row `y` of the grid of a well-formed state, those cells
then hold `L` spaces, the text and `R` spaces in the colour `(bg, fg)` and every
other cell is unchanged; `L + len + R = w` and `R - L` is 0 or 1.  When
`strlen text >= w` (with `w >= 3` or `len = w`) it returns and leaves the
buffer, the cursor and the colour that
`ad_displayStringCropped (text, x, y, w, bg, fg)` leaves. -/
theorem C20_printCenteredText_centres_or_crops (s : ad_ScreenState) (text : List Int)
    (rest : Nat → Int) (x y w bg fg : Nat)
    (htext : ∀ c ∈ text, (32 : Int) ≤ c ∧ c < 256) (hw16 : w < 65536) :
    (text.length < w →
      (∃ s', ad_printCenteredText s text rest x y w bg fg = Except.ok s' ∧
        s'.hal = s.hal ++
          [hal_Call.setCursorPosition (x % 65536) (y % 65536),
           hal_Call.setColor (bg % 256) (fg % 256),
           hal_Call.putChar 32 ((w - text.length) / 2)] ++
          (text.map fun c => hal_Call.putChar c 1) ++
          [hal_Call.putChar 32 (w - text.length - (w - text.length) / 2),
           hal_Call.flush]) ∧
      (WF s → x + w ≤ s.width → y < s.height → bg < 16 → fg < 16 →
        ∃ s', ad_printCenteredText s text rest x y w bg fg = Except.ok s' ∧
          ∀ i, s'.data i =
            if y * s.width + x ≤ i ∧ i < y * s.width + x + w then
              { color := { fg := fg, bg := bg }
                ascii := ((centeredText text w).getD (i - (y * s.width + x)) 0).toNat }
            else s.data i) ∧
      centeredText text w =
        List.replicate ((w - text.length) / 2) 32 ++ text ++
          List.replicate (w - text.length - (w - text.length) / 2) 32 ∧
      (w - text.length) / 2 + text.length + (w - text.length - (w - text.length) / 2) = w ∧
      (w - text.length - (w - text.length) / 2 = (w - text.length) / 2 ∨
        w - text.length - (w - text.length) / 2 = (w - text.length) / 2 + 1)) ∧
    (w ≤ text.length → (3 ≤ w ∨ text.length = w) →
      ∃ s' t, ad_printCenteredText s text rest x y w bg fg = Except.ok s' ∧
        ad_displayStringCropped s text rest x y w bg fg = Except.ok t ∧
        s'.data = t.data ∧ s'.x = t.x ∧ s'.y = t.y ∧ s'.color = t.color) := by
  have hsz : w < size_t_range := by
    unfold size_t_range
    omega
  have hprint : ∀ c ∈ text, (32 : Int) ≤ c := fun c hc => (htext c hc).1
  refine ⟨fun hlt => ?_, fun hge hfit => ?_⟩
  · have hL : ad_getPadding w text.length % 65536 = (w - text.length) / 2 := by
      unfold ad_getPadding
      rw [size_t_sub_eq w text.length (by omega) hsz]
      exact Nat.mod_eq_of_lt (by omega)
    have hR : size_t_sub (size_t_sub w text.length) ((w - text.length) / 2) % 65536 =
        w - text.length - (w - text.length) / 2 := by
      rw [size_t_sub_eq w text.length (by omega) hsz,
        size_t_sub_eq _ _ (by omega) (by omega)]
      exact Nat.mod_eq_of_lt (by omega)
    have hrun : ∀ s3 s4 s5,
        ad_putChar (ad_setColor (ad_setCursorPosition s x y) bg fg) 32
          ((w - text.length) / 2) = Except.ok s3 →
        ad_putString s3 text = Except.ok s4 →
        ad_putChar s4 32 (w - text.length - (w - text.length) / 2) = Except.ok s5 →
        ad_printCenteredText s text rest x y w bg fg = Except.ok (ad_flush s5) := by
      intro s3 s4 s5 hs3 hs4 hs5
      unfold ad_printCenteredText
      dsimp only
      rw [if_pos hlt, hL, hR, hs3]
      dsimp only
      rw [hs4]
      dsimp only
      rw [hs5]
    refine ⟨?_, ?_, rfl, by omega, by omega⟩
    · obtain ⟨s3, hs3, ht3⟩ := ad_putChar_trace
        (ad_setColor (ad_setCursorPosition s x y) bg fg) 32 ((w - text.length) / 2)
        (by decide)
      obtain ⟨s4, hs4, ht4⟩ := ad_putString_trace text s3 hprint
      obtain ⟨s5, hs5, ht5⟩ := ad_putChar_trace s4 32
        (w - text.length - (w - text.length) / 2) (by decide)
      refine ⟨ad_flush s5, hrun s3 s4 s5 hs3 hs4 hs5, ?_⟩
      show s5.hal ++ [hal_Call.flush] = _
      rw [ht5, ht4, ht3]
      show s.hal ++ [hal_Call.setCursorPosition (x % 65536) (y % 65536)] ++
          [hal_Call.setColor (bg % 256) (fg % 256)] ++
          [hal_Call.putChar 32 ((w - text.length) / 2)] ++
          List.map (fun c => hal_Call.putChar c 1) text ++
          [hal_Call.putChar 32 (w - text.length - (w - text.length) / 2)] ++
          [hal_Call.flush] = _
      simp only [List.append_assoc, List.cons_append, List.nil_append]
    · intro hw hx hy hbg hfg
      obtain ⟨_, hr2, _, hp2, _, hc2⟩ := positioned s x y w bg fg hw hx hy hbg hfg
      obtain ⟨s3, hs3, hp3⟩ := ad_putChar_painted _ 32 ((w - text.length) / 2) (by decide)
        (hr2.mono (by omega))
      have hr3 : RowOK s3 text.length := by
        apply hp3.rowOK
        rw [List.length_replicate]
        exact hr2.mono (by omega)
      obtain ⟨s4, hs4, hp4⟩ := ad_putString_painted text s3 hprint hr3
      have hp34 := hp3.append_ hp4
      have hr4 : RowOK s4 (w - text.length - (w - text.length) / 2) := by
        apply hp34.rowOK
        rw [List.length_append, List.length_replicate]
        exact hr2.mono (by omega)
      obtain ⟨s5, hs5, hp5⟩ := ad_putChar_painted s4 32
        (w - text.length - (w - text.length) / 2) (by decide) hr4
      have hp : Painted (ad_setColor (ad_setCursorPosition s x y) bg fg) s5
          (centeredText text w) := hp34.append_ hp5
      refine ⟨ad_flush s5, hrun s3 s4 s5 hs3 hs4 hs5, fun i => ?_⟩
      show s5.data i = _
      rw [hp.data, hp2, hc2,
        writeCells_apply _ _ _ _ (centeredText_range text w htext),
        centeredText_length text w hlt]
      rfl
  · obtain ⟨t, ht⟩ := displayStringCropped_ok s text rest x y w bg fg hprint
      (by rcases hfit with h | h
          · exact Or.inr h
          · exact Or.inl (by omega)) hsz
    refine ⟨ad_flush t, t, ?_, ht, rfl, rfl, rfl, rfl⟩
    unfold ad_printCenteredText
    dsimp only
    rw [if_neg (by omega), ht]

/-- C20 on an 80 x 25 screen: "Hi" in 10 columns gives 4 spaces, "Hi", 4 spaces, and
in 9 columns 3 spaces, "Hi", 4 spaces. -/
theorem C20_printCenteredText_centres_or_crops_witness :
    (∀ c ∈ [72, 105], (32 : Int) ≤ c ∧ c < 256) ∧ 10 < 65536 ∧
    centeredText [72, 105] 10 = [32, 32, 32, 32, 72, 105, 32, 32, 32, 32] ∧
    centeredText [72, 105] 9 = [32, 32, 32, 72, 105, 32, 32, 32, 32] ∧
    (([72, 105] : List Int).length < 10 →
      (∃ s', ad_printCenteredText screen80x25 [72, 105] (fun _ => 0) 0 0 10 1 7 =
          Except.ok s' ∧
        s'.hal = screen80x25.hal ++
          [hal_Call.setCursorPosition (0 % 65536) (0 % 65536),
           hal_Call.setColor (1 % 256) (7 % 256),
           hal_Call.putChar 32 ((10 - ([72, 105] : List Int).length) / 2)] ++
          (([72, 105] : List Int).map fun c => hal_Call.putChar c 1) ++
          [hal_Call.putChar 32 (10 - ([72, 105] : List Int).length -
             (10 - ([72, 105] : List Int).length) / 2),
           hal_Call.flush]) ∧
      (WF screen80x25 → 0 + 10 ≤ screen80x25.width → 0 < screen80x25.height →
          1 < 16 → 7 < 16 →
        ∃ s', ad_printCenteredText screen80x25 [72, 105] (fun _ => 0) 0 0 10 1 7 =
            Except.ok s' ∧
          ∀ i, s'.data i =
            if 0 * screen80x25.width + 0 ≤ i ∧ i < 0 * screen80x25.width + 0 + 10 then
              { color := { fg := 7, bg := 1 }
                ascii := ((centeredText [72, 105] 10).getD
                  (i - (0 * screen80x25.width + 0)) 0).toNat }
            else screen80x25.data i) ∧
      centeredText [72, 105] 10 =
        List.replicate ((10 - ([72, 105] : List Int).length) / 2) 32 ++ [72, 105] ++
          List.replicate (10 - ([72, 105] : List Int).length -
            (10 - ([72, 105] : List Int).length) / 2) 32 ∧
      (10 - ([72, 105] : List Int).length) / 2 + ([72, 105] : List Int).length +
        (10 - ([72, 105] : List Int).length - (10 - ([72, 105] : List Int).length) / 2) =
          10 ∧
      (10 - ([72, 105] : List Int).length - (10 - ([72, 105] : List Int).length) / 2 =
          (10 - ([72, 105] : List Int).length) / 2 ∨
        10 - ([72, 105] : List Int).length - (10 - ([72, 105] : List Int).length) / 2 =
          (10 - ([72, 105] : List Int).length) / 2 + 1)) ∧
    (10 ≤ ([72, 105] : List Int).length → (3 ≤ 10 ∨ ([72, 105] : List Int).length = 10) →
      ∃ s' t, ad_printCenteredText screen80x25 [72, 105] (fun _ => 0) 0 0 10 1 7 =
          Except.ok s' ∧
        ad_displayStringCropped screen80x25 [72, 105] (fun _ => 0) 0 0 10 1 7 =
          Except.ok t ∧
        s'.data = t.data ∧ s'.x = t.x ∧ s'.y = t.y ∧ s'.color = t.color) :=
  ⟨by decide, by decide, by decide, by decide,
   C20_printCenteredText_centres_or_crops screen80x25 [72, 105] (fun _ => 0) 0 0 10 1 7
     (by decide) (by decide)⟩

/-! ## Menus -/

theorem int32_of_small (n : Nat) (h : n < 2147483648) : int32_of n = (n : Int) := by
  unfold int32_of
  rw [Nat.mod_eq_of_lt (by omega), if_pos h]

/-- Keys that arrive after a run is blocked continue the run from the state it
was blocked in. -/
theorem ad_menuExecute_loop_append (k1 k2 : List ad_Key) (m m1 : ad_Menu)
    (h : ad_menuExecute_loop m k1 = ad_Outcome.waiting m1) :
    ad_menuExecute_loop m (k1 ++ k2) = ad_menuExecute_loop m1 k2 := by
  induction k1 generalizing m with
  | nil =>
    unfold ad_menuExecute_loop at h
    cases h
    rfl
  | cons ch keys ih =>
    rw [List.cons_append]
    unfold ad_menuExecute_loop at h
    conv_lhs => unfold ad_menuExecute_loop
    by_cases h1 : ch = ad_Key.AD_KEY_UP
    · rw [if_pos h1] at h ⊢
      exact ih _ h
    · rw [if_neg h1] at h ⊢
      by_cases h2 : ch = ad_Key.AD_KEY_DOWN
      · rw [if_pos h2] at h ⊢
        exact ih _ h
      · rw [if_neg h2] at h ⊢
        by_cases h3 : ch = ad_Key.AD_KEY_ENTER
        · rw [if_pos h3] at h
          cases h
        · rw [if_neg h3] at h ⊢
          by_cases h4 : m.cancelable = true ∧ ch = ad_Key.AD_KEY_ESC
          · rw [if_pos h4] at h
            cases h
          · rw [if_neg h4] at h ⊢
            exact ih _ h

/-- A run of the menu loop on keys none of which ends it: the run stays blocked,
the selection stays below `itemCount` and has moved by the number of DOWN keys
minus the number of UP keys, modulo `itemCount`. -/
theorem ad_menuExecute_loop_nav (keys : List ad_Key) (m : ad_Menu)
    (h1 : 1 ≤ m.itemCount) (hsz : m.itemCount < size_t_range)
    (hcs : m.currentSelection < m.itemCount) (hk : ∀ k ∈ keys, ¬ endsMenu m k) :
    ∃ m', ad_menuExecute_loop m keys = ad_Outcome.waiting m' ∧
      m'.itemCount = m.itemCount ∧ m'.cancelable = m.cancelable ∧
      m'.currentSelection < m.itemCount ∧
      (m'.currentSelection : Int) =
        ((m.currentSelection : Int) + (keys.count ad_Key.AD_KEY_DOWN : Int) -
          (keys.count ad_Key.AD_KEY_UP : Int)) % (m.itemCount : Int) := by
  induction keys generalizing m with
  | nil =>
    refine ⟨m, rfl, rfl, rfl, hcs, ?_⟩
    simp only [List.count_nil, Nat.cast_zero, add_zero, sub_zero]
    exact (Int.emod_eq_of_lt (by omega) (by omega)).symm
  | cons ch keys ih =>
    have hch : ¬ endsMenu m ch := hk ch (List.mem_cons_self ch keys)
    have htail : ∀ m2 : ad_Menu, m2.cancelable = m.cancelable → ∀ k ∈ keys, ¬ endsMenu m2 k := by
      intro m2 hc k hkm
      have := hk k (List.mem_cons_of_mem ch hkm)
      unfold endsMenu at this ⊢
      rw [hc]
      exact this
    unfold endsMenu at hch
    unfold ad_menuExecute_loop
    by_cases hu : ch = ad_Key.AD_KEY_UP
    · subst hu
      rw [if_pos rfl]
      obtain ⟨m', hl, hi, hc, hlt, hv⟩ := ih
        (ad_menuSelectItemAndDraw m
          (if m.currentSelection > 0 then m.currentSelection - 1
           else size_t_sub m.itemCount 1)) h1 hsz
        (by
          show (if m.currentSelection > 0 then m.currentSelection - 1
            else size_t_sub m.itemCount 1) < m.itemCount
          rw [size_t_sub_eq m.itemCount 1 h1 hsz]
          split <;> omega)
        (htail _ rfl)
      refine ⟨m', hl, hi, hc, hlt, ?_⟩
      rw [hv]
      show (((if m.currentSelection > 0 then m.currentSelection - 1
            else size_t_sub m.itemCount 1 : Nat) : Int) + _ - _) % (m.itemCount : Int) = _
      rw [size_t_sub_eq m.itemCount 1 h1 hsz]
      simp only [List.count_cons_self, List.count_cons_of_ne (show ad_Key.AD_KEY_DOWN ≠
        ad_Key.AD_KEY_UP by decide), Nat.cast_add, Nat.cast_one]
      by_cases h0 : m.currentSelection > 0
      · rw [if_pos h0, Nat.cast_sub (by omega), Nat.cast_one]
        congr 1
        ring
      · rw [if_neg h0, Nat.cast_sub h1, Nat.cast_one]
        have hz : (m.currentSelection : Int) = 0 := by omega
        rw [hz]
        rw [show ((m.itemCount : Int) - 1 + (List.count ad_Key.AD_KEY_DOWN keys : Int) -
            (List.count ad_Key.AD_KEY_UP keys : Int)) =
          (0 + (List.count ad_Key.AD_KEY_DOWN keys : Int) -
            ((List.count ad_Key.AD_KEY_UP keys : Int) + 1)) + (m.itemCount : Int) by ring]
        exact Int.add_emod_self
    · rw [if_neg hu]
      by_cases hd : ch = ad_Key.AD_KEY_DOWN
      · subst hd
        rw [if_pos rfl]
        obtain ⟨m', hl, hi, hc, hlt, hv⟩ := ih
          (ad_menuSelectItemAndDraw m ((m.currentSelection + 1) % m.itemCount)) h1 hsz
          (Nat.mod_lt _ (by omega)) (htail _ rfl)
        refine ⟨m', hl, hi, hc, hlt, ?_⟩
        rw [hv]
        show ((((m.currentSelection + 1) % m.itemCount : Nat) : Int) + _ - _) %
          (m.itemCount : Int) = _
        simp only [List.count_cons_self, List.count_cons_of_ne (show ad_Key.AD_KEY_UP ≠
          ad_Key.AD_KEY_DOWN by decide), Nat.cast_add, Nat.cast_one]
        by_cases hw : m.currentSelection + 1 < m.itemCount
        · rw [Nat.mod_eq_of_lt hw, Nat.cast_add, Nat.cast_one]
          congr 1
          ring
        · have he : m.currentSelection + 1 = m.itemCount := by omega
          rw [he, Nat.mod_self, Nat.cast_zero]
          have hci : (m.itemCount : Int) = (m.currentSelection : Int) + 1 := by omega
          rw [show ((m.currentSelection : Int) +
              ((List.count ad_Key.AD_KEY_DOWN keys : Int) + 1) -
              (List.count ad_Key.AD_KEY_UP keys : Int)) =
            (0 + (List.count ad_Key.AD_KEY_DOWN keys : Int) -
              (List.count ad_Key.AD_KEY_UP keys : Int)) + (m.itemCount : Int) by
            rw [hci]; ring]
          exact Int.add_emod_self.symm
      · rw [if_neg hd, if_neg (fun h => hch (Or.inl h)), if_neg (fun h => hch (Or.inr h))]
        obtain ⟨m', hl, hi, hc, hlt, hv⟩ := ih m h1 hsz hcs (htail m rfl)
        refine ⟨m', hl, hi, hc, hlt, ?_⟩
        rw [hv, List.count_cons_of_ne (fun h => hd h.symm), List.count_cons_of_ne (fun h => hu h.symm)]

theorem ad_menuExecute_loop_not_canceled (keys : List ad_Key) (m : ad_Menu)
    (hc : m.cancelable = false) (h1 : 1 ≤ m.itemCount) (h31 : m.itemCount < 2147483648)
    (hcs : m.currentSelection < m.itemCount) :
    ad_menuExecute_loop m keys ≠ ad_Outcome.returned AD_CANCELED := by
  induction keys generalizing m with
  | nil =>
    unfold ad_menuExecute_loop
    exact fun h => by cases h
  | cons ch keys ih =>
    have hsz : m.itemCount < size_t_range := by
      unfold size_t_range
      omega
    unfold ad_menuExecute_loop
    by_cases hu : ch = ad_Key.AD_KEY_UP
    · rw [if_pos hu]
      have hlt : (if m.currentSelection > 0 then m.currentSelection - 1
          else size_t_sub m.itemCount 1) < m.itemCount := by
        rw [size_t_sub_eq m.itemCount 1 h1 hsz]
        split <;> omega
      exact ih (ad_menuSelectItemAndDraw m _) hc h1 h31 hlt
    · rw [if_neg hu]
      by_cases hd : ch = ad_Key.AD_KEY_DOWN
      · rw [if_pos hd]
        exact ih (ad_menuSelectItemAndDraw m _) hc h1 h31 (Nat.mod_lt _ (by omega))
      · rw [if_neg hd]
        by_cases he : ch = ad_Key.AD_KEY_ENTER
        · rw [if_pos he, int32_of_small _ (by omega)]
          intro h
          injection h with h
          unfold AD_CANCELED at h
          omega
        · rw [if_neg he, if_neg (by rw [hc]; exact fun h => absurd h.1 (by decide))]
          exact ih m hc h1 h31 hcs

/-- C21 (menu result).  For every menu with at least one item (and fewer than
`2^31`, so that an index is an `int32_t` value), a run of `ad_menuExecute`: stays
blocked as long as no key is ENTER, or ESC on a cancelable menu; returns at the
first ENTER the index highlighted at that moment, a value below `itemCount`,
whatever keys follow; returns `AD_CANCELED` at the first ESC when the menu is
cancelable; and never returns `AD_CANCELED` when it is not. -/
theorem C21_menuExecute_returns_at_first_enter_or_esc (menu : ad_Menu)
    (h1 : 1 ≤ menu.itemCount) (h31 : menu.itemCount < 2147483648) :
    (∀ keys, (∀ k ∈ keys, ¬ endsMenu menu k) →
      ∃ m', ad_menuExecute (some menu) keys = ad_Outcome.waiting m') ∧
    (∀ pre post, (∀ k ∈ pre, ¬ endsMenu menu k) →
      ∃ m', ad_menuExecute (some menu) pre = ad_Outcome.waiting m' ∧
        m'.currentSelection < menu.itemCount ∧
        ad_menuExecute (some menu) (pre ++ ad_Key.AD_KEY_ENTER :: post) =
          ad_Outcome.returned (m'.currentSelection : Int)) ∧
    (menu.cancelable = true → ∀ pre post, (∀ k ∈ pre, ¬ endsMenu menu k) →
      ad_menuExecute (some menu) (pre ++ ad_Key.AD_KEY_ESC :: post) =
        ad_Outcome.returned AD_CANCELED) ∧
    (menu.cancelable = false → ∀ keys,
      ad_menuExecute (some menu) keys ≠ ad_Outcome.returned AD_CANCELED) := by
  have hsz : menu.itemCount < size_t_range := by
    unfold size_t_range
    omega
  have hnav : ∀ keys, (∀ k ∈ keys, ¬ endsMenu menu k) →
      ∃ m', ad_menuExecute_loop (ad_menuSelectItemAndDraw menu 0) keys =
          ad_Outcome.waiting m' ∧
        m'.cancelable = menu.cancelable ∧ m'.currentSelection < menu.itemCount := by
    intro keys hk
    obtain ⟨m', hl, _, hc, hlt, _⟩ := ad_menuExecute_loop_nav keys
      (ad_menuSelectItemAndDraw menu 0) h1 hsz h1 hk
    exact ⟨m', hl, hc, hlt⟩
  refine ⟨fun keys hk => ?_, fun pre post hk => ?_, fun hc pre post hk => ?_,
    fun hc keys => ?_⟩
  · obtain ⟨m', hl, _⟩ := hnav keys hk
    exact ⟨m', hl⟩
  · obtain ⟨m', hl, _, hlt⟩ := hnav pre hk
    refine ⟨m', hl, hlt, ?_⟩
    show ad_menuExecute_loop (ad_menuSelectItemAndDraw menu 0)
      (pre ++ ad_Key.AD_KEY_ENTER :: post) = _
    rw [ad_menuExecute_loop_append pre _ _ m' hl]
    unfold ad_menuExecute_loop
    rw [if_neg (by decide), if_neg (by decide), if_pos rfl, int32_of_small _ (by omega)]
  · obtain ⟨m', hl, hc', _⟩ := hnav pre hk
    show ad_menuExecute_loop (ad_menuSelectItemAndDraw menu 0)
      (pre ++ ad_Key.AD_KEY_ESC :: post) = _
    rw [ad_menuExecute_loop_append pre _ _ m' hl]
    unfold ad_menuExecute_loop
    rw [if_neg (by decide), if_neg (by decide), if_neg (by decide),
      if_pos ⟨hc'.trans hc, rfl⟩]
  · exact ad_menuExecute_loop_not_canceled keys (ad_menuSelectItemAndDraw menu 0) hc h1 h31 h1

/-- C21 for a cancelable menu of three items. -/
theorem C21_menuExecute_returns_at_first_enter_or_esc_witness :
    (1 : Nat) ≤ 3 ∧ (3 : Nat) < 2147483648 ∧
    ad_menuExecute (some { itemCount := 3, currentSelection := 0, cancelable := true })
      [ad_Key.AD_KEY_DOWN, ad_Key.AD_KEY_DOWN, ad_Key.AD_KEY_ENTER, ad_Key.AD_KEY_ESC] =
        ad_Outcome.returned 2 ∧
    ((∀ keys, (∀ k ∈ keys,
        ¬ endsMenu { itemCount := 3, currentSelection := 0, cancelable := true } k) →
      ∃ m', ad_menuExecute
        (some { itemCount := 3, currentSelection := 0, cancelable := true }) keys =
          ad_Outcome.waiting m') ∧
    (∀ pre post, (∀ k ∈ pre,
        ¬ endsMenu { itemCount := 3, currentSelection := 0, cancelable := true } k) →
      ∃ m', ad_menuExecute
          (some { itemCount := 3, currentSelection := 0, cancelable := true }) pre =
            ad_Outcome.waiting m' ∧
        m'.currentSelection < 3 ∧
        ad_menuExecute (some { itemCount := 3, currentSelection := 0, cancelable := true })
          (pre ++ ad_Key.AD_KEY_ENTER :: post) =
            ad_Outcome.returned (m'.currentSelection : Int)) ∧
    (true = true → ∀ pre post, (∀ k ∈ pre,
        ¬ endsMenu { itemCount := 3, currentSelection := 0, cancelable := true } k) →
      ad_menuExecute (some { itemCount := 3, currentSelection := 0, cancelable := true })
        (pre ++ ad_Key.AD_KEY_ESC :: post) = ad_Outcome.returned AD_CANCELED) ∧
    (true = false → ∀ keys,
      ad_menuExecute (some { itemCount := 3, currentSelection := 0, cancelable := true })
        keys ≠ ad_Outcome.returned AD_CANCELED)) :=
  ⟨by decide, by decide, rfl,
   C21_menuExecute_returns_at_first_enter_or_esc
     { itemCount := 3, currentSelection := 0, cancelable := true } (by decide) (by decide)⟩

/-- C22 (null menu), evaluated: given a null menu, `ad_menuExecute` reads
`menu->prompt` in `ad_menuPaint` before any null check, a null pointer
dereference; it does not return `AD_ERROR`, whatever keys arrive. -/
theorem C22_menuExecute_null_menu_is_dereferenced (keys : List ad_Key) :
    ad_menuExecute none keys = ad_Outcome.nullDeref ∧
    ad_menuExecute none keys ≠ ad_Outcome.returned AD_ERROR :=
  ⟨rfl, fun h => by cases h⟩

/-- C26 (cyclic navigation).  For every menu with at least one item and every
sequence of UP and DOWN keys, `ad_menuExecute` starts with item 0 highlighted,
and after the sequence the highlighted index is below `itemCount` and equals
(number of DOWN keys - number of UP keys) modulo `itemCount`; a DOWN followed
by an UP, and `itemCount` DOWN keys in a row, lead back to the same item. -/
theorem C26_menu_navigation_is_cyclic (menu : ad_Menu) (keys : List ad_Key)
    (h1 : 1 ≤ menu.itemCount) (hsz : menu.itemCount < size_t_range)
    (hkeys : ∀ k ∈ keys, k = ad_Key.AD_KEY_UP ∨ k = ad_Key.AD_KEY_DOWN) :
    (∃ m0, ad_menuExecute (some menu) [] = ad_Outcome.waiting m0 ∧ m0.currentSelection = 0) ∧
    ∃ m', ad_menuExecute (some menu) keys = ad_Outcome.waiting m' ∧
      m'.currentSelection < menu.itemCount ∧
      (m'.currentSelection : Int) =
        ((keys.count ad_Key.AD_KEY_DOWN : Int) - (keys.count ad_Key.AD_KEY_UP : Int)) %
          (menu.itemCount : Int) ∧
      (∃ m2, ad_menuExecute (some menu) (keys ++ [ad_Key.AD_KEY_DOWN, ad_Key.AD_KEY_UP]) =
          ad_Outcome.waiting m2 ∧ m2.currentSelection = m'.currentSelection) ∧
      (∃ m3, ad_menuExecute (some menu)
          (keys ++ List.replicate menu.itemCount ad_Key.AD_KEY_DOWN) =
          ad_Outcome.waiting m3 ∧ m3.currentSelection = m'.currentSelection) := by
  have hnot : ∀ l : List ad_Key, (∀ k ∈ l, k = ad_Key.AD_KEY_UP ∨ k = ad_Key.AD_KEY_DOWN) →
      ∀ k ∈ l, ¬ endsMenu (ad_menuSelectItemAndDraw menu 0) k := by
    intro l hl k hk
    unfold endsMenu
    rcases hl k hk with rfl | rfl
    · exact fun h => by rcases h with h | h; exact absurd h (by decide); exact absurd h.2 (by decide)
    · exact fun h => by rcases h with h | h; exact absurd h (by decide); exact absurd h.2 (by decide)
  have hrun : ∀ l : List ad_Key, (∀ k ∈ l, k = ad_Key.AD_KEY_UP ∨ k = ad_Key.AD_KEY_DOWN) →
      ∃ m', ad_menuExecute (some menu) l = ad_Outcome.waiting m' ∧
        m'.currentSelection < menu.itemCount ∧
        (m'.currentSelection : Int) =
          ((l.count ad_Key.AD_KEY_DOWN : Int) - (l.count ad_Key.AD_KEY_UP : Int)) %
            (menu.itemCount : Int) := by
    intro l hl
    obtain ⟨m', hr, _, _, hlt, hv⟩ := ad_menuExecute_loop_nav l
      (ad_menuSelectItemAndDraw menu 0) h1 hsz h1 (hnot l hl)
    refine ⟨m', hr, hlt, ?_⟩
    rw [hv]
    show ((0 : Nat) + _ - _ : Int) % _ = _
    rw [Nat.cast_zero, zero_add]
    rfl
  refine ⟨⟨_, rfl, rfl⟩, ?_⟩
  obtain ⟨m', hr, hlt, hv⟩ := hrun keys hkeys
  refine ⟨m', hr, hlt, hv, ?_, ?_⟩
  · obtain ⟨m2, hr2, _, hv2⟩ := hrun (keys ++ [ad_Key.AD_KEY_DOWN, ad_Key.AD_KEY_UP])
      (by
        intro k hk
        rcases List.mem_append.mp hk with h | h
        · exact hkeys k h
        · simp only [List.mem_cons, List.mem_singleton, List.not_mem_nil, or_false] at h
          exact h.symm)
    refine ⟨m2, hr2, ?_⟩
    have : (m2.currentSelection : Int) = (m'.currentSelection : Int) := by
      rw [hv2, hv, List.count_append, List.count_append]
      simp only [List.count_cons_self, List.count_cons_of_ne (show ad_Key.AD_KEY_DOWN ≠
        ad_Key.AD_KEY_UP by decide), List.count_cons_of_ne (show ad_Key.AD_KEY_UP ≠
        ad_Key.AD_KEY_DOWN by decide), List.count_nil, Nat.cast_add, Nat.cast_one,
        Nat.cast_zero, zero_add]
      congr 1
      ring
    omega
  · obtain ⟨m3, hr3, _, hv3⟩ := hrun
      (keys ++ List.replicate menu.itemCount ad_Key.AD_KEY_DOWN)
      (by
        intro k hk
        rcases List.mem_append.mp hk with h | h
        · exact hkeys k h
        · exact Or.inr (List.mem_replicate.mp h).2)
    refine ⟨m3, hr3, ?_⟩
    have : (m3.currentSelection : Int) = (m'.currentSelection : Int) := by
      rw [hv3, hv, List.count_append, List.count_append, List.count_replicate_self,
        List.count_eq_zero_of_not_mem (l := List.replicate menu.itemCount ad_Key.AD_KEY_DOWN)
          (fun h => absurd (List.mem_replicate.mp h).2 (by decide))]
      rw [show ((List.count ad_Key.AD_KEY_DOWN keys + menu.itemCount : Nat) : Int) -
          ((List.count ad_Key.AD_KEY_UP keys + 0 : Nat) : Int) =
        ((List.count ad_Key.AD_KEY_DOWN keys : Int) - (List.count ad_Key.AD_KEY_UP keys : Int)) +
          (menu.itemCount : Int) by push_cast; ring]
      exact Int.add_emod_self
    omega

/-- C26 for a menu of three items and the keys DOWN, DOWN, UP, DOWN, DOWN. -/
theorem C26_menu_navigation_is_cyclic_witness :
    (1 : Nat) ≤ 3 ∧ (3 : Nat) < size_t_range ∧
    (∀ k ∈ [ad_Key.AD_KEY_DOWN, ad_Key.AD_KEY_DOWN, ad_Key.AD_KEY_UP, ad_Key.AD_KEY_DOWN,
        ad_Key.AD_KEY_DOWN], k = ad_Key.AD_KEY_UP ∨ k = ad_Key.AD_KEY_DOWN) ∧
    ((∃ m0, ad_menuExecute (some { itemCount := 3, currentSelection := 1, cancelable := false })
        [] = ad_Outcome.waiting m0 ∧ m0.currentSelection = 0) ∧
    ∃ m', ad_menuExecute (some { itemCount := 3, currentSelection := 1, cancelable := false })
        [ad_Key.AD_KEY_DOWN, ad_Key.AD_KEY_DOWN, ad_Key.AD_KEY_UP, ad_Key.AD_KEY_DOWN,
          ad_Key.AD_KEY_DOWN] = ad_Outcome.waiting m' ∧
      m'.currentSelection < 3 ∧
      (m'.currentSelection : Int) =
        ((([ad_Key.AD_KEY_DOWN, ad_Key.AD_KEY_DOWN, ad_Key.AD_KEY_UP, ad_Key.AD_KEY_DOWN,
            ad_Key.AD_KEY_DOWN].count ad_Key.AD_KEY_DOWN : Nat) : Int) -
          (([ad_Key.AD_KEY_DOWN, ad_Key.AD_KEY_DOWN, ad_Key.AD_KEY_UP, ad_Key.AD_KEY_DOWN,
            ad_Key.AD_KEY_DOWN].count ad_Key.AD_KEY_UP : Nat) : Int)) % ((3 : Nat) : Int) ∧
      (∃ m2, ad_menuExecute (some { itemCount := 3, currentSelection := 1, cancelable := false })
          ([ad_Key.AD_KEY_DOWN, ad_Key.AD_KEY_DOWN, ad_Key.AD_KEY_UP, ad_Key.AD_KEY_DOWN,
            ad_Key.AD_KEY_DOWN] ++ [ad_Key.AD_KEY_DOWN, ad_Key.AD_KEY_UP]) =
          ad_Outcome.waiting m2 ∧ m2.currentSelection = m'.currentSelection) ∧
      (∃ m3, ad_menuExecute (some { itemCount := 3, currentSelection := 1, cancelable := false })
          ([ad_Key.AD_KEY_DOWN, ad_Key.AD_KEY_DOWN, ad_Key.AD_KEY_UP, ad_Key.AD_KEY_DOWN,
            ad_Key.AD_KEY_DOWN] ++ List.replicate 3 ad_Key.AD_KEY_DOWN) =
          ad_Outcome.waiting m3 ∧ m3.currentSelection = m'.currentSelection)) :=
  ⟨by decide, by decide, by decide,
   C26_menu_navigation_is_cyclic { itemCount := 3, currentSelection := 1, cancelable := false }
     [ad_Key.AD_KEY_DOWN, ad_Key.AD_KEY_DOWN, ad_Key.AD_KEY_UP, ad_Key.AD_KEY_DOWN,
       ad_Key.AD_KEY_DOWN] (by decide) (by decide) (by decide)⟩

/-! ## Multi selector -/

/-- A run of the selector loop on LEFT and RIGHT keys: the run stays blocked on the
same item, whose selected option stays below `optionCount` and has moved by the
number of RIGHT keys minus the number of LEFT keys, modulo `optionCount`; the
other items are untouched. -/
theorem ad_multiSelectorExecute_loop_lr (keys : List ad_Key) (m : ad_MultiSelector)
    (hopt : 1 ≤ (m.itemOptions m.currentSelection).optionCount)
    (hsz : (m.itemOptions m.currentSelection).optionCount < size_t_range)
    (hsel : (m.itemOptions m.currentSelection).selected <
      (m.itemOptions m.currentSelection).optionCount)
    (hk : ∀ k ∈ keys, k = ad_Key.AD_KEY_LEFT ∨ k = ad_Key.AD_KEY_RIGHT) :
    ∃ m', ad_multiSelectorExecute_loop m keys = ad_Outcome.waiting m' ∧
      m'.currentSelection = m.currentSelection ∧
      (m'.itemOptions m.currentSelection).optionCount =
        (m.itemOptions m.currentSelection).optionCount ∧
      (m'.itemOptions m.currentSelection).selected <
        (m.itemOptions m.currentSelection).optionCount ∧
      ((m'.itemOptions m.currentSelection).selected : Int) =
        (((m.itemOptions m.currentSelection).selected : Int) +
          (keys.count ad_Key.AD_KEY_RIGHT : Int) - (keys.count ad_Key.AD_KEY_LEFT : Int)) %
          ((m.itemOptions m.currentSelection).optionCount : Int) ∧
      ∀ j, j ≠ m.currentSelection → m'.itemOptions j = m.itemOptions j := by
  induction keys generalizing m with
  | nil =>
    refine ⟨m, rfl, rfl, rfl, hsel, ?_, fun _ _ => rfl⟩
    simp only [List.count_nil, Nat.cast_zero, add_zero, sub_zero]
    exact (Int.emod_eq_of_lt (by omega) (by omega)).symm
  | cons ch keys ih =>
    have htail : ∀ k ∈ keys, k = ad_Key.AD_KEY_LEFT ∨ k = ad_Key.AD_KEY_RIGHT :=
      fun k hkm => hk k (List.mem_cons_of_mem ch hkm)
    have hstep : ∀ v : Nat, v < (m.itemOptions m.currentSelection).optionCount →
        ∃ m', ad_multiSelectorExecute_loop
            (ad_multiSelectorSelectOptionAndDraw (setSelected m v)
              (setSelected m v).currentSelection) keys = ad_Outcome.waiting m' ∧
          m'.currentSelection = m.currentSelection ∧
          (m'.itemOptions m.currentSelection).optionCount =
            (m.itemOptions m.currentSelection).optionCount ∧
          (m'.itemOptions m.currentSelection).selected <
            (m.itemOptions m.currentSelection).optionCount ∧
          ((m'.itemOptions m.currentSelection).selected : Int) =
            ((v : Int) + (keys.count ad_Key.AD_KEY_RIGHT : Int) -
              (keys.count ad_Key.AD_KEY_LEFT : Int)) %
              ((m.itemOptions m.currentSelection).optionCount : Int) ∧
          ∀ j, j ≠ m.currentSelection → m'.itemOptions j = m.itemOptions j := by
      intro v hv
      have hitem : (ad_multiSelectorSelectOptionAndDraw (setSelected m v)
          (setSelected m v).currentSelection).itemOptions m.currentSelection =
          { m.itemOptions m.currentSelection with selected := v } := by
        show (if m.currentSelection = m.currentSelection then
          ({ m.itemOptions m.currentSelection with selected := v } : ad_MultiSelectorItem)
          else m.itemOptions m.currentSelection) = _
        rw [if_pos rfl]
      have hcur : (ad_multiSelectorSelectOptionAndDraw (setSelected m v)
          (setSelected m v).currentSelection).currentSelection = m.currentSelection := rfl
      obtain ⟨m', hl, h1, h2, h3, h4, h5⟩ := ih
        (ad_multiSelectorSelectOptionAndDraw (setSelected m v)
          (setSelected m v).currentSelection)
        (by rw [hcur, hitem]; exact hopt) (by rw [hcur, hitem]; exact hsz)
        (by rw [hcur, hitem]; exact hv) htail
      rw [hcur, hitem] at h2 h3 h4
      rw [hcur] at h1 h5
      refine ⟨m', hl, h1, h2, h3, h4, fun j hj => ?_⟩
      rw [h5 j hj]
      show (if j = m.currentSelection then _ else m.itemOptions j) = _
      rw [if_neg hj]
    unfold ad_multiSelectorExecute_loop
    dsimp only
    rcases hk ch (List.mem_cons_self ch keys) with rfl | rfl
    · rw [if_neg (by decide), if_neg (by decide), if_neg (by decide), if_pos rfl,
        size_t_sub_eq _ 1 hopt hsz]
      obtain ⟨m', hl, h1, h2, h3, h4, h5⟩ := hstep
        (if (m.itemOptions m.currentSelection).selected = 0 then
          (m.itemOptions m.currentSelection).optionCount - 1
         else (m.itemOptions m.currentSelection).selected - 1) (by split <;> omega)
      refine ⟨m', hl, h1, h2, h3, ?_, h5⟩
      rw [h4]
      simp only [List.count_cons_self, List.count_cons_of_ne (show ad_Key.AD_KEY_RIGHT ≠
        ad_Key.AD_KEY_LEFT by decide), Nat.cast_add, Nat.cast_one]
      by_cases h0 : (m.itemOptions m.currentSelection).selected = 0
      · rw [if_pos h0, h0, Nat.cast_sub hopt, Nat.cast_one, Nat.cast_zero]
        rw [show (((m.itemOptions m.currentSelection).optionCount : Int) - 1 +
            (List.count ad_Key.AD_KEY_RIGHT keys : Int) -
            (List.count ad_Key.AD_KEY_LEFT keys : Int)) =
          (0 + (List.count ad_Key.AD_KEY_RIGHT keys : Int) -
            ((List.count ad_Key.AD_KEY_LEFT keys : Int) + 1)) +
            ((m.itemOptions m.currentSelection).optionCount : Int) by ring]
        exact Int.add_emod_self
      · rw [if_neg h0, Nat.cast_sub (by omega), Nat.cast_one]
        congr 1
        ring
    · rw [if_neg (by decide), if_neg (by decide), if_pos rfl, size_t_sub_eq _ 1 hopt hsz]
      obtain ⟨m', hl, h1, h2, h3, h4, h5⟩ := hstep
        (if (m.itemOptions m.currentSelection).selected =
            (m.itemOptions m.currentSelection).optionCount - 1 then 0
         else (m.itemOptions m.currentSelection).selected + 1) (by split <;> omega)
      refine ⟨m', hl, h1, h2, h3, ?_, h5⟩
      rw [h4]
      simp only [List.count_cons_self, List.count_cons_of_ne (show ad_Key.AD_KEY_LEFT ≠
        ad_Key.AD_KEY_RIGHT by decide), Nat.cast_add, Nat.cast_one]
      by_cases h0 : (m.itemOptions m.currentSelection).selected =
          (m.itemOptions m.currentSelection).optionCount - 1
      · rw [if_pos h0, Nat.cast_zero]
        have hci : ((m.itemOptions m.currentSelection).optionCount : Int) =
            ((m.itemOptions m.currentSelection).selected : Int) + 1 := by omega
        rw [show (((m.itemOptions m.currentSelection).selected : Int) +
            ((List.count ad_Key.AD_KEY_RIGHT keys : Int) + 1) -
            (List.count ad_Key.AD_KEY_LEFT keys : Int)) =
          (0 + (List.count ad_Key.AD_KEY_RIGHT keys : Int) -
            (List.count ad_Key.AD_KEY_LEFT keys : Int)) +
            ((m.itemOptions m.currentSelection).optionCount : Int) by rw [hci]; ring]
        exact Int.add_emod_self.symm
      · rw [if_neg h0, Nat.cast_add, Nat.cast_one]
        congr 1
        ring

/-- Keys that arrive after a run of the selector loop is blocked continue the run
from the state it was blocked in. -/
theorem ad_multiSelectorExecute_loop_append (k1 k2 : List ad_Key) (m m1 : ad_MultiSelector)
    (h : ad_multiSelectorExecute_loop m k1 = ad_Outcome.waiting m1) :
    ad_multiSelectorExecute_loop m (k1 ++ k2) = ad_multiSelectorExecute_loop m1 k2 := by
  induction k1 generalizing m with
  | nil =>
    unfold ad_multiSelectorExecute_loop at h
    cases h
    rfl
  | cons ch keys ih =>
    rw [List.cons_append]
    unfold ad_multiSelectorExecute_loop at h
    conv_lhs => unfold ad_multiSelectorExecute_loop
    dsimp only at h ⊢
    by_cases h1 : ch = ad_Key.AD_KEY_UP
    · rw [if_pos h1] at h ⊢
      exact ih _ h
    · rw [if_neg h1] at h ⊢
      by_cases h2 : ch = ad_Key.AD_KEY_DOWN
      · rw [if_pos h2] at h ⊢
        exact ih _ h
      · rw [if_neg h2] at h ⊢
        by_cases h3 : ch = ad_Key.AD_KEY_RIGHT
        · rw [if_pos h3] at h ⊢
          exact ih _ h
        · rw [if_neg h3] at h ⊢
          by_cases h4 : ch = ad_Key.AD_KEY_LEFT
          · rw [if_pos h4] at h ⊢
            exact ih _ h
          · rw [if_neg h4] at h ⊢
            by_cases h5 : ch = ad_Key.AD_KEY_ENTER
            · rw [if_pos h5] at h
              cases h
            · rw [if_neg h5] at h ⊢
              by_cases h6 : m.cancelable = true ∧ ch = ad_Key.AD_KEY_ESC
              · rw [if_pos h6] at h
                cases h
              · rw [if_neg h6] at h ⊢
                exact ih _ h

/-- A run of the selector loop on UP and DOWN keys: the run stays blocked, the
highlighted index stays below `itemCount`, and no item is touched. -/
theorem ad_multiSelectorExecute_loop_ud (keys : List ad_Key) (m : ad_MultiSelector)
    (h1 : 1 ≤ m.itemCount) (hsz : m.itemCount < size_t_range)
    (hcur : m.currentSelection < m.itemCount)
    (hk : ∀ k ∈ keys, k = ad_Key.AD_KEY_UP ∨ k = ad_Key.AD_KEY_DOWN) :
    ∃ m', ad_multiSelectorExecute_loop m keys = ad_Outcome.waiting m' ∧
      m'.currentSelection < m.itemCount ∧ m'.itemOptions = m.itemOptions := by
  induction keys generalizing m with
  | nil => exact ⟨m, rfl, hcur, rfl⟩
  | cons ch keys ih =>
    have htail : ∀ k ∈ keys, k = ad_Key.AD_KEY_UP ∨ k = ad_Key.AD_KEY_DOWN :=
      fun k hkm => hk k (List.mem_cons_of_mem ch hkm)
    have hstep : ∀ v : Nat, v < m.itemCount →
        ∃ m', ad_multiSelectorExecute_loop (ad_multiSelectorSelectOptionAndDraw m v) keys =
            ad_Outcome.waiting m' ∧
          m'.currentSelection < m.itemCount ∧ m'.itemOptions = m.itemOptions :=
      fun v hv => ih (ad_multiSelectorSelectOptionAndDraw m v) h1 hsz hv htail
    unfold ad_multiSelectorExecute_loop
    dsimp only
    rcases hk ch (List.mem_cons_self ch keys) with rfl | rfl
    · rw [if_pos rfl, size_t_sub_eq _ 1 h1 hsz]
      exact hstep _ (by split <;> omega)
    · rw [if_neg (by decide), if_pos rfl]
      exact hstep _ (Nat.mod_lt _ (by omega))

/-- A run of the selector loop on `k` DOWN keys that do not pass the last item:
the run stays blocked `k` items further down, and no item is touched. -/
theorem ad_multiSelectorExecute_loop_down (k : Nat) (m : ad_MultiSelector)
    (h : m.currentSelection + k < m.itemCount) :
    ∃ m', ad_multiSelectorExecute_loop m (List.replicate k ad_Key.AD_KEY_DOWN) =
        ad_Outcome.waiting m' ∧
      m'.currentSelection = m.currentSelection + k ∧ m'.itemOptions = m.itemOptions := by
  induction k generalizing m with
  | zero => exact ⟨m, rfl, rfl, rfl⟩
  | succ k ih =>
    rw [List.replicate_succ]
    unfold ad_multiSelectorExecute_loop
    dsimp only
    rw [if_neg (by decide), if_pos rfl]
    have hmod : (m.currentSelection + 1) % m.itemCount = m.currentSelection + 1 :=
      Nat.mod_eq_of_lt (by omega)
    obtain ⟨m', hl, hc, ho⟩ := ih
      (ad_multiSelectorSelectOptionAndDraw m ((m.currentSelection + 1) % m.itemCount))
      (by
        show (m.currentSelection + 1) % m.itemCount + k < m.itemCount
        rw [hmod]
        omega)
    refine ⟨m', hl, ?_, ho⟩
    rw [hc]
    show (m.currentSelection + 1) % m.itemCount + k = _
    rw [hmod]
    omega

/-- C27 (option cycling).  `ad_multiSelectorAddItem` appends an item with
`optionCount` options and `defaultOption` selected and leaves the other items
alone.  For every selector with at least one item, every item of which has
`optionCount >= 1` and its selected option (the `defaultOption` it was added
with) below `optionCount`: `ad_multiSelectorExecute` highlights item `i` after `i`
DOWN keys, for every item `i`; after any sequence `nav` of UP and DOWN keys it
waits with some item highlighted and all options as they were; and after any
further sequence of LEFT and RIGHT keys the same item is highlighted, its selected
option is below `optionCount` and equals (defaultOption + number of RIGHT - number
of LEFT) modulo `optionCount`, the items that are not highlighted are unchanged,
and a RIGHT followed by a LEFT leads back to the same option. -/
theorem C27_multiSelector_option_cycles (menu : ad_MultiSelector) (nav keys : List ad_Key)
    (h1 : 1 ≤ menu.itemCount) (hsz : menu.itemCount < size_t_range)
    (hitems : ∀ j, j < menu.itemCount →
      1 ≤ (menu.itemOptions j).optionCount ∧
      (menu.itemOptions j).selected < (menu.itemOptions j).optionCount ∧
      (menu.itemOptions j).optionCount < size_t_range)
    (hnav : ∀ k ∈ nav, k = ad_Key.AD_KEY_UP ∨ k = ad_Key.AD_KEY_DOWN)
    (hkeys : ∀ k ∈ keys, k = ad_Key.AD_KEY_LEFT ∨ k = ad_Key.AD_KEY_RIGHT) :
    (∀ (obj : ad_MultiSelector) (optionCount defaultOption : Nat),
      (ad_multiSelectorAddItem obj optionCount defaultOption).itemCount = obj.itemCount + 1 ∧
      (ad_multiSelectorAddItem obj optionCount defaultOption).itemOptions obj.itemCount =
        { optionCount := optionCount, selected := defaultOption } ∧
      ∀ j, j ≠ obj.itemCount →
        (ad_multiSelectorAddItem obj optionCount defaultOption).itemOptions j =
          obj.itemOptions j) ∧
    (∀ i, i < menu.itemCount →
      ∃ mi, ad_multiSelectorExecute (some menu) (List.replicate i ad_Key.AD_KEY_DOWN) =
          ad_Outcome.waiting mi ∧
        mi.currentSelection = i ∧ mi.itemOptions = menu.itemOptions) ∧
    ∃ m1, ad_multiSelectorExecute (some menu) nav = ad_Outcome.waiting m1 ∧
      m1.currentSelection < menu.itemCount ∧ m1.itemOptions = menu.itemOptions ∧
      ∃ m', ad_multiSelectorExecute (some menu) (nav ++ keys) = ad_Outcome.waiting m' ∧
        m'.currentSelection = m1.currentSelection ∧
        (m'.itemOptions m1.currentSelection).optionCount =
          (menu.itemOptions m1.currentSelection).optionCount ∧
        (m'.itemOptions m1.currentSelection).selected <
          (menu.itemOptions m1.currentSelection).optionCount ∧
        ((m'.itemOptions m1.currentSelection).selected : Int) =
          (((menu.itemOptions m1.currentSelection).selected : Int) +
            (keys.count ad_Key.AD_KEY_RIGHT : Int) - (keys.count ad_Key.AD_KEY_LEFT : Int)) %
            ((menu.itemOptions m1.currentSelection).optionCount : Int) ∧
        (∀ j, j ≠ m1.currentSelection → m'.itemOptions j = menu.itemOptions j) ∧
        ∃ m2, ad_multiSelectorExecute (some menu)
            (nav ++ (keys ++ [ad_Key.AD_KEY_RIGHT, ad_Key.AD_KEY_LEFT])) =
            ad_Outcome.waiting m2 ∧
          (m2.itemOptions m1.currentSelection).selected =
            (m'.itemOptions m1.currentSelection).selected := by
  have hstart : ∀ l, ad_multiSelectorExecute (some menu) l =
      ad_multiSelectorExecute_loop (ad_multiSelectorSelectOptionAndDraw menu 0) l :=
    fun _ => rfl
  refine ⟨fun obj oc d => ⟨rfl, ?_, fun j hj => ?_⟩, fun i hi => ?_, ?_⟩
  · show (if obj.itemCount = obj.itemCount + 1 - 1 then _ else obj.itemOptions obj.itemCount) = _
    rw [if_pos (by omega)]
  · show (if j = obj.itemCount + 1 - 1 then _ else obj.itemOptions j) = _
    rw [if_neg (by omega)]
  · obtain ⟨mi, hl, hc, ho⟩ := ad_multiSelectorExecute_loop_down i
      (ad_multiSelectorSelectOptionAndDraw menu 0)
      (by
        show 0 + i < menu.itemCount
        omega)
    refine ⟨mi, hl, ?_, ho⟩
    rw [hc]
    show 0 + i = i
    omega
  · obtain ⟨m1, hl1, hc1, ho1⟩ := ad_multiSelectorExecute_loop_ud nav
      (ad_multiSelectorSelectOptionAndDraw menu 0) h1 hsz
      (by
        show 0 < menu.itemCount
        omega) hnav
    have hc1 : m1.currentSelection < menu.itemCount := hc1
    have ho1 : m1.itemOptions = menu.itemOptions := ho1
    refine ⟨m1, hl1, hc1, ho1, ?_⟩
    obtain ⟨ha, hb, hcz⟩ := hitems m1.currentSelection hc1
    have hrun : ∀ l : List ad_Key,
        (∀ k ∈ l, k = ad_Key.AD_KEY_LEFT ∨ k = ad_Key.AD_KEY_RIGHT) →
        ∃ m', ad_multiSelectorExecute (some menu) (nav ++ l) = ad_Outcome.waiting m' ∧
          m'.currentSelection = m1.currentSelection ∧
          (m'.itemOptions m1.currentSelection).optionCount =
            (menu.itemOptions m1.currentSelection).optionCount ∧
          (m'.itemOptions m1.currentSelection).selected <
            (menu.itemOptions m1.currentSelection).optionCount ∧
          ((m'.itemOptions m1.currentSelection).selected : Int) =
            (((menu.itemOptions m1.currentSelection).selected : Int) +
              (l.count ad_Key.AD_KEY_RIGHT : Int) - (l.count ad_Key.AD_KEY_LEFT : Int)) %
              ((menu.itemOptions m1.currentSelection).optionCount : Int) ∧
          ∀ j, j ≠ m1.currentSelection → m'.itemOptions j = menu.itemOptions j := by
      intro l hl
      obtain ⟨m', hr, g1, g2, g3, g4, g5⟩ := ad_multiSelectorExecute_loop_lr l m1
        (by rw [ho1]; exact ha) (by rw [ho1]; exact hcz) (by rw [ho1]; exact hb) hl
      rw [ho1] at g2 g3 g4
      refine ⟨m', ?_, g1, g2, g3, g4, fun j hj => ?_⟩
      · rw [hstart, ad_multiSelectorExecute_loop_append nav l _ m1 hl1]
        exact hr
      · rw [g5 j hj, ho1]
    obtain ⟨m', hr, g1, g2, g3, g4, g5⟩ := hrun keys hkeys
    refine ⟨m', hr, g1, g2, g3, g4, g5, ?_⟩
    obtain ⟨m2, hr2, _, _, f3, f4, _⟩ := hrun (keys ++ [ad_Key.AD_KEY_RIGHT, ad_Key.AD_KEY_LEFT])
      (by
        intro k hk
        rcases List.mem_append.mp hk with h | h
        · exact hkeys k h
        · simp only [List.mem_cons, List.mem_singleton, List.not_mem_nil, or_false] at h
          exact h.symm)
    refine ⟨m2, hr2, ?_⟩
    have : ((m2.itemOptions m1.currentSelection).selected : Int) =
        ((m'.itemOptions m1.currentSelection).selected : Int) := by
      rw [f4, g4, List.count_append, List.count_append]
      simp only [List.count_cons_self, List.count_cons_of_ne (show ad_Key.AD_KEY_RIGHT ≠
        ad_Key.AD_KEY_LEFT by decide), List.count_cons_of_ne (show ad_Key.AD_KEY_LEFT ≠
        ad_Key.AD_KEY_RIGHT by decide), List.count_nil, Nat.cast_add, Nat.cast_one,
        Nat.cast_zero, zero_add]
      congr 1
      ring
    omega

/-- C27 for a selector of two items, the second one with three options and option 1
as the default: DOWN highlights it, then the keys RIGHT, RIGHT, LEFT, RIGHT. -/
theorem C27_multiSelector_option_cycles_witness :
    1 ≤ selectorTwoItems.itemCount ∧ selectorTwoItems.itemCount < size_t_range ∧
    (∀ j, j < selectorTwoItems.itemCount →
      1 ≤ (selectorTwoItems.itemOptions j).optionCount ∧
      (selectorTwoItems.itemOptions j).selected < (selectorTwoItems.itemOptions j).optionCount ∧
      (selectorTwoItems.itemOptions j).optionCount < size_t_range) ∧
    (∀ k ∈ [ad_Key.AD_KEY_DOWN], k = ad_Key.AD_KEY_UP ∨ k = ad_Key.AD_KEY_DOWN) ∧
    (∀ k ∈ [ad_Key.AD_KEY_RIGHT, ad_Key.AD_KEY_RIGHT, ad_Key.AD_KEY_LEFT, ad_Key.AD_KEY_RIGHT],
      k = ad_Key.AD_KEY_LEFT ∨ k = ad_Key.AD_KEY_RIGHT) ∧
    ∃ m1, ad_multiSelectorExecute (some selectorTwoItems) [ad_Key.AD_KEY_DOWN] =
        ad_Outcome.waiting m1 ∧
      m1.currentSelection < selectorTwoItems.itemCount ∧
      m1.itemOptions = selectorTwoItems.itemOptions ∧
      ∃ m', ad_multiSelectorExecute (some selectorTwoItems)
          ([ad_Key.AD_KEY_DOWN] ++
            [ad_Key.AD_KEY_RIGHT, ad_Key.AD_KEY_RIGHT, ad_Key.AD_KEY_LEFT,
              ad_Key.AD_KEY_RIGHT]) = ad_Outcome.waiting m' ∧
        m'.currentSelection = m1.currentSelection ∧
        (m'.itemOptions m1.currentSelection).optionCount =
          (selectorTwoItems.itemOptions m1.currentSelection).optionCount ∧
        (m'.itemOptions m1.currentSelection).selected <
          (selectorTwoItems.itemOptions m1.currentSelection).optionCount ∧
        ((m'.itemOptions m1.currentSelection).selected : Int) =
          (((selectorTwoItems.itemOptions m1.currentSelection).selected : Int) +
            (([ad_Key.AD_KEY_RIGHT, ad_Key.AD_KEY_RIGHT, ad_Key.AD_KEY_LEFT,
              ad_Key.AD_KEY_RIGHT].count ad_Key.AD_KEY_RIGHT : Nat) : Int) -
            (([ad_Key.AD_KEY_RIGHT, ad_Key.AD_KEY_RIGHT, ad_Key.AD_KEY_LEFT,
              ad_Key.AD_KEY_RIGHT].count ad_Key.AD_KEY_LEFT : Nat) : Int)) %
            ((selectorTwoItems.itemOptions m1.currentSelection).optionCount : Int) ∧
        (∀ j, j ≠ m1.currentSelection → m'.itemOptions j = selectorTwoItems.itemOptions j) ∧
        ∃ m2, ad_multiSelectorExecute (some selectorTwoItems)
            ([ad_Key.AD_KEY_DOWN] ++
              ([ad_Key.AD_KEY_RIGHT, ad_Key.AD_KEY_RIGHT, ad_Key.AD_KEY_LEFT,
                ad_Key.AD_KEY_RIGHT] ++ [ad_Key.AD_KEY_RIGHT, ad_Key.AD_KEY_LEFT])) =
            ad_Outcome.waiting m2 ∧
          (m2.itemOptions m1.currentSelection).selected =
            (m'.itemOptions m1.currentSelection).selected :=
  ⟨by decide, by decide, by decide, by decide, by decide,
   (C27_multiSelector_option_cycles selectorTwoItems [ad_Key.AD_KEY_DOWN]
     [ad_Key.AD_KEY_RIGHT, ad_Key.AD_KEY_RIGHT, ad_Key.AD_KEY_LEFT, ad_Key.AD_KEY_RIGHT]
     (by decide) (by decide) (by decide) (by decide) (by decide)).2.2⟩

/-! ## Text file box -/

/-- C28 (scroll clipping).  For every text file box with `highestIndex >= 0`, which
`ad_textFileBoxPaint` set to `lineCount - linesOnScreen`, for every `currentIndex`
(in particular one in `[0, highestIndex]`) and every distance, after
`ad_textFileBoxMove` the
`currentIndex` is `max 0 (min highestIndex (currentIndex + distance))`, still in
`[0, highestIndex]`, and every line that is redrawn exists: the indices drawn are
at least 0 and below `lineCount` (`currentIndex + linesOnScreen <= lineCount`). -/
theorem C28_textFileBoxMove_clips_index (tfb : ad_TextFileBox) (distance : Int)
    (hhigh : 0 ≤ tfb.highestIndex)
    (hpaint : tfb.highestIndex = (tfb.lineCount : Int) - tfb.linesOnScreen) :
    (ad_textFileBoxMove tfb distance).currentIndex =
      max 0 (min tfb.highestIndex (tfb.currentIndex + distance)) ∧
    0 ≤ (ad_textFileBoxMove tfb distance).currentIndex ∧
    (ad_textFileBoxMove tfb distance).currentIndex ≤ tfb.highestIndex ∧
    (ad_textFileBoxMove tfb distance).currentIndex + tfb.linesOnScreen ≤ tfb.lineCount ∧
    (∀ i ∈ ad_textFileBoxRedrawLines (ad_textFileBoxMove tfb distance),
      0 ≤ i ∧ i < tfb.lineCount) := by
  have hval : (ad_textFileBoxMove tfb distance).currentIndex =
      AD_MIN_signed (AD_MAX (tfb.currentIndex + distance) 0) tfb.highestIndex := rfl
  have hlines : (ad_textFileBoxMove tfb distance).linesOnScreen = tfb.linesOnScreen := rfl
  have hclip : AD_MIN_signed (AD_MAX (tfb.currentIndex + distance) 0) tfb.highestIndex =
      max 0 (min tfb.highestIndex (tfb.currentIndex + distance)) := by
    unfold AD_MIN_signed AD_MAX
    split <;> split <;> omega
  rw [hval, hclip]
  refine ⟨rfl, by omega, by omega, by omega, fun i hi => ?_⟩
  unfold ad_textFileBoxRedrawLines at hi
  obtain ⟨j, hj, hji⟩ := (List.mem_map
    (f := fun k : Nat => (ad_textFileBoxMove tfb distance).currentIndex + (k : Int))).mp hi
  have hj2 : j < (ad_textFileBoxMove tfb distance).linesOnScreen.toNat := List.mem_range.mp hj
  rw [hlines] at hj2
  rw [hval, hclip] at hji
  omega

/-- C28 for a box of 10 lines with 4 on screen, at index 5, moved a page down. -/
theorem C28_textFileBoxMove_clips_index_witness :
    (0 : Int) ≤ 6 ∧ (6 : Int) = ((10 : Nat) : Int) - 4 ∧
    ((ad_textFileBoxMove
        { linesOnScreen := 4, currentIndex := 5, highestIndex := 6, lineCount := 10 }
        4).currentIndex = max 0 (min 6 (5 + 4)) ∧
    0 ≤ (ad_textFileBoxMove
        { linesOnScreen := 4, currentIndex := 5, highestIndex := 6, lineCount := 10 }
        4).currentIndex ∧
    (ad_textFileBoxMove
        { linesOnScreen := 4, currentIndex := 5, highestIndex := 6, lineCount := 10 }
        4).currentIndex ≤ 6 ∧
    (ad_textFileBoxMove
        { linesOnScreen := 4, currentIndex := 5, highestIndex := 6, lineCount := 10 }
        4).currentIndex + 4 ≤ ((10 : Nat) : Int) ∧
    (∀ i ∈ ad_textFileBoxRedrawLines (ad_textFileBoxMove
        { linesOnScreen := 4, currentIndex := 5, highestIndex := 6, lineCount := 10 } 4),
      0 ≤ i ∧ i < ((10 : Nat) : Int))) :=
  ⟨by decide, by decide,
   C28_textFileBoxMove_clips_index
     { linesOnScreen := 4, currentIndex := 5, highestIndex := 6, lineCount := 10 } 4
     (by decide) (by decide)⟩

/-! ## Splitting and joining -/

theorem strchr_some_split (t : List Int) (k : Nat) (h : strchr t 10 = some k) :
    t = t.take k ++ 10 :: t.drop (k + 1) := by
  induction t generalizing k with
  | nil => cases h
  | cons a t ih =>
    unfold strchr at h
    by_cases ha : a = 10
    · rw [if_pos ha] at h
      cases h
      rw [ha]
      rfl
    · rw [if_neg ha] at h
      cases hk : strchr t 10 with
      | none =>
        rw [hk] at h
        cases h
      | some j =>
        rw [hk] at h
        cases h
        rw [List.take_succ_cons, List.drop_succ_cons, List.cons_append]
        congr 1
        exact ih j hk

theorem specPieces_subset (n : Nat) (text : List Int) (hn : text.length ≤ n) :
    ∀ p ∈ specPieces text, ∀ c ∈ p, c ∈ text := by
  induction n generalizing text with
  | zero =>
    have : text = [] := List.length_eq_zero.mp (by omega)
    subst this
    rw [specPieces_nil]
    exact fun p hp => absurd hp (List.not_mem_nil p)
  | succ n ih =>
    by_cases ht : text = []
    · subst ht
      rw [specPieces_nil]
      exact fun p hp => absurd hp (List.not_mem_nil p)
    · rw [specPieces_cons text ht]
      intro p hp c hc
      rcases List.mem_cons.mp hp with rfl | hp
      · exact List.mem_of_mem_take hc
      · refine List.mem_of_mem_drop (ih _ ?_ p hp c hc)
        rw [List.length_drop]
        have : 0 < text.length := List.length_pos.mpr ht
        omega

theorem intercalate_cons_cons (l p : List Int) (ps : List (List Int)) :
    List.intercalate [10] (l :: p :: ps) = l ++ 10 :: List.intercalate [10] (p :: ps) := by
  simp [List.intercalate, List.intersperse]

/-- Joining the lines of a text that does not end with a line feed gives the text. -/
theorem intercalate_specPieces (n : Nat) (text : List Int) (hn : text.length ≤ n)
    (hend : text.getLast? ≠ some 10) : List.intercalate [10] (specPieces text) = text := by
  induction n generalizing text with
  | zero =>
    have : text = [] := List.length_eq_zero.mp (by omega)
    subst this
    rw [specPieces_nil]
    rfl
  | succ n ih =>
    by_cases ht : text = []
    · subst ht
      rw [specPieces_nil]
      rfl
    · rw [specPieces_cons text ht]
      cases hk : strchr text 10 with
      | none =>
        have hl : lineLength text = text.length := by
          unfold lineLength
          rw [hk]
        rw [hl, List.take_of_length_le (le_refl _), List.drop_of_length_le (by omega),
          specPieces_nil]
        simp [List.intercalate, List.intersperse]
      | some k =>
        have hl : lineLength text = k := by
          unfold lineLength
          rw [hk]
        rw [hl]
        have hsplit := strchr_some_split text k hk
        have hlt := (strchr_some text k hk).1
        have hne : text.drop (k + 1) ≠ [] := by
          intro h0
          rw [h0] at hsplit
          apply hend
          rw [hsplit]
          simp
        have hend2 : (text.drop (k + 1)).getLast? ≠ some 10 := by
          intro h0
          apply hend
          rw [hsplit, List.getLast?_append_of_ne_nil _ (by simp)]
          obtain ⟨a, r, hr⟩ := List.exists_cons_of_ne_nil hne
          rw [hr] at h0 ⊢
          rw [List.getLast?_cons_cons]
          exact h0
        have hih := ih (text.drop (k + 1))
          (by rw [List.length_drop]; omega) hend2
        obtain ⟨p, ps, hps⟩ := List.exists_cons_of_ne_nil
          (show specPieces (text.drop (k + 1)) ≠ [] by
            rw [specPieces_cons _ hne]
            exact List.cons_ne_nil _ _)
        rw [hps] at hih ⊢
        rw [intercalate_cons_cons, hih]
        exact hsplit.symm

theorem stripCR_of_no_cr (l : List Int) (h : (13 : Int) ∉ l) : stripCR l = l := by
  unfold stripCR
  rw [if_neg]
  intro hl
  exact h (List.mem_of_getLast?_eq_some hl)

/-- With successful allocations and lines shorter than the capacity,
`ad_textElementArrayFromString` returns the lines of the text. -/
theorem fromString_strings (SIZE : Nat) (text : List Int) (rest : Nat → Int)
    (allocated : Nat → Bool) (fresh : Nat → ad_TextElement)
    (htext : ∀ c ∈ text, c ≠ 0) (halloc : ∀ n, allocated n = true)
    (hshort : ∀ l ∈ specPieces text, l.length < SIZE) :
    ∃ ret lineCount,
      ad_textElementArrayFromString SIZE (some text) rest true allocated fresh =
        some (ret, lineCount) ∧
      ret.strings SIZE lineCount = specLines text := by
  obtain ⟨ret, n, hl, hs⟩ := fromString_loop_spec SIZE text rest allocated fresh htext halloc
    text.length 0
    { count := 1, elems := fun i => if i = 0 then { text := fun _ => 0 } else fresh i } 0
    (by omega) (Nat.zero_le _) (by rw [List.drop_zero]; exact hshort)
  rw [List.drop_zero] at hs
  refine ⟨ret, n, hl, ?_⟩
  rw [hs]
  rfl

/-- C25 (split/join round trip).  For every text (a C string) that contains no
`'\r'`, does not end with `'\n'` and whose lines are each shorter than the
capacity, with allocations that all succeed, `ad_textElementArrayFromString`
returns elements whose strings, joined with `'\n'` between consecutive ones,
are the text. -/
theorem C25_fromString_join_round_trip (SIZE : Nat) (text : List Int) (rest : Nat → Int)
    (allocated : Nat → Bool) (fresh : Nat → ad_TextElement)
    (htext : ∀ c ∈ text, c ≠ 0) (halloc : ∀ n, allocated n = true)
    (hshort : ∀ l ∈ specPieces text, l.length < SIZE)
    (hcr : (13 : Int) ∉ text) (hend : text.getLast? ≠ some 10) :
    ∃ ret lineCount,
      ad_textElementArrayFromString SIZE (some text) rest true allocated fresh =
        some (ret, lineCount) ∧
      List.intercalate [10] (ret.strings SIZE lineCount) = text := by
  obtain ⟨ret, n, hl, hs⟩ := fromString_strings SIZE text rest allocated fresh htext halloc
    hshort
  refine ⟨ret, n, hl, ?_⟩
  have hid : specLines text = specPieces text := by
    unfold specLines
    rw [List.map_congr_left (g := id)]
    · exact List.map_id _
    · intro p hp
      exact stripCR_of_no_cr p
        (fun h => hcr (specPieces_subset text.length text (le_refl _) p hp 13 h))
  rw [hs, hid]
  exact intercalate_specPieces text.length text (le_refl _) hend

/-- C25 for the text "ab\n\ncd" and a capacity of 8. -/
theorem C25_fromString_join_round_trip_witness :
    (∀ c ∈ [97, 98, 10, 10, 99, 100], c ≠ (0 : Int)) ∧
    (∀ n, (fun _ : Nat => true) n = true) ∧
    (∀ l ∈ specPieces [97, 98, 10, 10, 99, 100], l.length < 8) ∧
    (13 : Int) ∉ [97, 98, 10, 10, 99, 100] ∧
    ([97, 98, 10, 10, 99, 100] : List Int).getLast? ≠ some 10 ∧
    ∃ ret lineCount,
      ad_textElementArrayFromString 8 (some [97, 98, 10, 10, 99, 100]) (fun _ => 0) true
        (fun _ => true) (fun _ => textElementOf [63]) = some (ret, lineCount) ∧
      List.intercalate [10] (ret.strings 8 lineCount) = [97, 98, 10, 10, 99, 100] :=
  ⟨by decide, fun _ => rfl, by decide, by decide, by decide,
   C25_fromString_join_round_trip 8 [97, 98, 10, 10, 99, 100] (fun _ => 0) (fun _ => true)
     (fun _ => textElementOf [63]) (by decide) (fun _ => rfl) (by decide) (by decide)
     (by decide)⟩

/-! ## Boundary cases of the text helpers -/

/-- C23 (carriage-return trimming), evaluated: with a capacity of 4, the text
"a\nbcdefg\r" and a second element that `realloc` hands out filled with the byte
7, the second line has `curLen = 7`; the element receives "bcd" and its
terminator at offset 3, and the trimming then stores a zero at offset
`curLen - 1 = 6`, which is not below the capacity: the byte at offset 6, behind
the array, is overwritten, while the byte at offset 5 still is 7. -/
theorem C23_fromString_trims_behind_the_element :
    ∃ ret lineCount,
      ad_textElementArrayFromString 4 (some [97, 10, 98, 99, 100, 101, 102, 103, 13])
        (fun _ => 0) true (fun _ => true) (fun _ => { text := fun _ => 7 }) =
        some (ret, lineCount) ∧
      lineCount = 2 ∧
      lineLength [98, 99, 100, 101, 102, 103, 13] - 1 = 6 ∧ ¬ (6 < 4) ∧
      (ret.elems 1).str 4 = [98, 99, 100] ∧
      (ret.elems 1).text 5 = 7 ∧
      (ret.elems 1).text 6 = 0 :=
  ⟨_, _, rfl, by decide⟩

/-- C24 (narrow crop), evaluated: on an empty 80 x 25 screen, for the text "abcd"
and `maxLen = 2`, `maxLen - 3` wraps around and the copy loop of
`ad_displayStringCropped` does not stop after `maxLen` glyphs: it emits the four
glyphs `a`, `b`, `c`, `d`, then reads the byte at index 4 = `strlen`, the
terminator, and passes it to `ad_putChar`, whose assertion aborts the run. -/
theorem C24_displayStringCropped_narrow_width_overruns :
    size_t_sub 2 3 = 18446744073709551615 ∧
    cmem [97, 98, 99, 100] (fun _ => 88) 4 = 0 ∧
    ∃ e, ad_displayStringCropped screen80x25 [97, 98, 99, 100] (fun _ => 88) 0 0 2 1 7 =
        Except.error e ∧
      e.hal =
        [hal_Call.setColor 1 7, hal_Call.setCursorPosition 0 0,
         hal_Call.putChar 97 1, hal_Call.putChar 98 1, hal_Call.putChar 99 1,
         hal_Call.putChar 100 1, hal_Call.putChar 0 1] ∧
      glyphs e 5 = [97, 98, 99, 100, 0] :=
  ⟨by decide, by decide, _, rfl, by decide⟩

/-! ## Command output box -/

/-- C29 (scrolling log), evaluated: with three visible rows of one column, after
the first output line "A" the redraw shows it on the middle row and blanks on
the top and the bottom row; after the four lines "A", "B", "C", "D" the rows
show "C", "D", "B" from top to bottom.  The bottom row shows the oldest line kept,
the most recent one is one row above it: the redraw starts at slot
`lineDisplayIndex`, which runs one behind `lineWriteIndex % visibleLines`, the
slot of the oldest line. -/
theorem C29_commandBox_latest_line_is_not_on_bottom_row :
    (∃ s1, ad_runCommandBox 16 screen1x3 3 1 0 0 1 7 [[65, 10]] = Except.ok s1 ∧
      glyphs s1 3 = [32, 65, 32]) ∧
    (∃ s4, ad_runCommandBox 16 screen1x3 3 1 0 0 1 7
        [[65, 10], [66, 10], [67, 10], [68, 10]] = Except.ok s4 ∧
      glyphs s4 3 = [67, 68, 66] ∧ glyphs s4 3 ≠ [66, 67, 68]) :=
  ⟨⟨_, rfl, by decide⟩, ⟨_, rfl, by decide⟩⟩

end AnbUI
